import Mathlib

/-!
# Ratio-based splitter layout (`CustomDearImGuiLayout.h`)

A shallow embedding of `DearImGuiExt::CustomLayoutNode` and
`DearImGuiExt::CustomLayout`, followed by theorems about them.

Modelling conventions
* `float` values are exact rationals (`ℚ`); rounding, infinities and NaN are
  outside the model.  Division is the division of `ℚ`, so a quotient by zero,
  an infinity or a NaN for `float`, has no counterpart here.
* `uint32_t m_level` is a natural number; the sum `m_level + 1` of
  `CreateLeftChild` and `CreateRightChild` is reduced modulo `2^32`.
* An `assert` that fails ends the call without a result: `none`.
* An owning pointer `CustomLayoutNode*` is an `Option CustomLayoutNode`;
  `nullptr` is `none`.  A non-owning pointer into the tree (the value returned
  by `GetHoverSplitter`, the member `m_pHeldSplitterDomain`) is the path of
  child links leading from the root to the node it designates.
* Dereferencing `nullptr` has no defined result: a function that would do so
  returns `none`.
* The host (Dear ImGui) is seen through the values it reports during a frame
  (`ImGuiFrame`) and through the ordered list of calls made to it
  (`ImGuiCall`).  A window callback is an uninterpreted call of the host trace.
-/

namespace DearImGuiExt

/-- The type `ImVec2` of the host: a pair of coordinates. -/
structure ImVec2 where
  x : ℚ
  y : ℚ
deriving DecidableEq

/-- The function pointer type `CustomWindowFunc`, by the identity of the function. -/
abbrev CustomWindowFunc := Nat

/-- The class `CustomLayoutNode`.  The member `m_splitterWidth` is `const` and every
constructor initialises it to `2.f`, so it is not stored (see `GetSplitterWidth`). -/
inductive CustomLayoutNode where
  | mk (m_pLeft m_pRight : Option CustomLayoutNode) (m_level : Nat)
      (m_domainPos m_domainSize : ImVec2) (m_splitterRatio : ℚ)
      (m_pfnCustomWindowFunc : Option CustomWindowFunc) (m_isLogicalDomain : Bool)

/-- One child link of a node: `m_pLeft` or `m_pRight`. -/
inductive ChildLink where
  | pLeft
  | pRight
deriving DecidableEq

/-- A pointer to a node of a tree, as the child links followed from the root. -/
abbrev NodePtr := List ChildLink

/-- The mouse cursors set by the layout (`ImGuiMouseCursor_ResizeEW`, `ImGuiMouseCursor_ResizeNS`). -/
inductive ImGuiMouseCursor where
  | ResizeEW
  | ResizeNS
deriving DecidableEq

/-- A call made to the host, or through a window callback, during a frame. -/
inductive ImGuiCall where
  | SetNextWindowPos (pos : ImVec2)
  | SetNextWindowSize (size : ImVec2)
  | CustomWindowFuncCall (f : CustomWindowFunc)
  | SetMouseCursor (cursor : ImGuiMouseCursor)
deriving DecidableEq

/-- What the host reports during one frame: the main viewport (`WorkPos`, `WorkSize`),
`GetMousePos()`, `IsMouseClicked(ImGuiMouseButton_Left)` and
`IsMouseDown(ImGuiMouseButton_Left)`. -/
structure ImGuiFrame where
  WorkPos : ImVec2
  WorkSize : ImVec2
  MousePos : ImVec2
  MouseClicked : Bool
  MouseDown : Bool

/-- Modelled from the spec: the host function `ImGui::IsMouseHoveringRect(r_min, r_max, false)`,
which is not part of the repository.  The spec asks for a point-in-rectangle test that is
inclusive of the band: the mouse is in the closed rectangle from `rMin` to `rMax`. -/
def IsMouseHoveringRect (mouse rMin rMax : ImVec2) : Bool :=
  decide (rMin.x ≤ mouse.x ∧ rMin.y ≤ mouse.y ∧ mouse.x ≤ rMax.x ∧ mouse.y ≤ rMax.y)

namespace CustomLayoutNode

def GetLeftChild : CustomLayoutNode → Option CustomLayoutNode
  | mk l _ _ _ _ _ _ _ => l

def GetRightChild : CustomLayoutNode → Option CustomLayoutNode
  | mk _ r _ _ _ _ _ _ => r

def GetDomainPos : CustomLayoutNode → ImVec2
  | mk _ _ _ p _ _ _ _ => p

def GetDomainSize : CustomLayoutNode → ImVec2
  | mk _ _ _ _ s _ _ _ => s

def GetLevel : CustomLayoutNode → Nat
  | mk _ _ lv _ _ _ _ _ => lv

/-- The member `m_splitterRatio`. -/
def splitterRatio : CustomLayoutNode → ℚ
  | mk _ _ _ _ _ ratio _ _ => ratio

/-- The member `m_pfnCustomWindowFunc`. -/
def customWindowFunc : CustomLayoutNode → Option CustomWindowFunc
  | mk _ _ _ _ _ _ f _ => f

def IsLogicalDomain : CustomLayoutNode → Bool
  | mk _ _ _ _ _ _ _ isLogical => isLogical

/-- The `const` member `m_splitterWidth`, which every constructor sets to `2.f`. -/
def GetSplitterWidth (_self : CustomLayoutNode) : ℚ := 2

def GetSplitterStartCoord (self : CustomLayoutNode) : ℚ :=
  if self.GetLevel % 2 = 1 then
    self.GetDomainPos.x + self.splitterRatio * self.GetDomainSize.x
  else
    self.GetDomainPos.y + self.splitterRatio * self.GetDomainSize.y

def GetSplitterPos (self : CustomLayoutNode) : ImVec2 :=
  if self.GetLevel % 2 = 1 then
    let x := self.GetDomainPos.x + self.splitterRatio * self.GetDomainSize.x
    ⟨x, self.GetDomainPos.y⟩
  else
    let y := self.GetDomainPos.y + self.splitterRatio * self.GetDomainSize.y
    ⟨self.GetDomainPos.x, y⟩

def SetDomainPos : CustomLayoutNode → ImVec2 → CustomLayoutNode
  | mk l r lv _ s ratio f isLogical, pos => mk l r lv pos s ratio f isLogical

def SetDomainSize : CustomLayoutNode → ImVec2 → CustomLayoutNode
  | mk l r lv p _ ratio f isLogical, size => mk l r lv p size ratio f isLogical

def SetSplitterRatio : CustomLayoutNode → ℚ → CustomLayoutNode
  | mk l r lv p s _ f isLogical, ratio => mk l r lv p s ratio f isLogical

/-- The calls made by `BeginEndNodeAndChildren`, in order. -/
def BeginEndNodeAndChildren : CustomLayoutNode → List ImGuiCall
  | mk l r _ p s _ f isLogical =>
    if isLogical then
      (match l with
        | some a => BeginEndNodeAndChildren a
        | none => []) ++
      (match r with
        | some b => BeginEndNodeAndChildren b
        | none => [])
    else
      [ImGuiCall.SetNextWindowPos p, ImGuiCall.SetNextWindowSize s] ++
      (match f with
        | some g => [ImGuiCall.CustomWindowFuncCall g]
        | none => [])

/-- The tree after `ResizeNodeAndChildren(newPos, newSize)`; `none` when a logical domain
with a null child is reached. -/
def ResizeNodeAndChildren : CustomLayoutNode → ImVec2 → ImVec2 → Option CustomLayoutNode
  | mk l r lv _ _ ratio f isLogical, newPos, newSize =>
    if isLogical then
      let splitterStartCoordinate :=
        GetSplitterStartCoord (mk l r lv newPos newSize ratio f isLogical)
      let splitterWidth := GetSplitterWidth (mk l r lv newPos newSize ratio f isLogical)
      if lv % 2 = 1 then
        match l, r with
        | some a, some b =>
          match ResizeNodeAndChildren a newPos ⟨splitterStartCoordinate - newPos.x, newSize.y⟩,
            ResizeNodeAndChildren b ⟨splitterStartCoordinate + splitterWidth, newPos.y⟩
              ⟨newSize.x - (splitterStartCoordinate - newPos.x + splitterWidth), newSize.y⟩ with
          | some a', some b' => some (mk (some a') (some b') lv newPos newSize ratio f isLogical)
          | _, _ => none
        | _, _ => none
      else
        match l, r with
        | some a, some b =>
          match ResizeNodeAndChildren a newPos ⟨newSize.x, splitterStartCoordinate - newPos.y⟩,
            ResizeNodeAndChildren b ⟨newPos.x, splitterStartCoordinate + splitterWidth⟩
              ⟨newSize.x, newSize.y - (splitterStartCoordinate - newPos.y + splitterWidth)⟩ with
          | some a', some b' => some (mk (some a') (some b') lv newPos newSize ratio f isLogical)
          | _, _ => none
        | _, _ => none
    else
      some (mk l r lv newPos newSize ratio f isLogical)

/-- The constant `SplitterWidthPadding` of `GetHoverSplitter`. -/
def SplitterWidthPadding : ℚ := 2

/-- The local `splitterMin` of `GetHoverSplitter`. -/
def splitterMin (self : CustomLayoutNode) : ImVec2 :=
  if self.GetLevel % 2 = 1 then
    ⟨self.GetDomainPos.x + self.splitterRatio * self.GetDomainSize.x - SplitterWidthPadding,
      self.GetDomainPos.y⟩
  else
    ⟨self.GetDomainPos.x,
      self.GetDomainPos.y + self.splitterRatio * self.GetDomainSize.y - SplitterWidthPadding⟩

/-- The local `splitterMax` of `GetHoverSplitter`. -/
def splitterMax (self : CustomLayoutNode) : ImVec2 :=
  if self.GetLevel % 2 = 1 then
    ⟨self.splitterMin.x + self.GetSplitterWidth + SplitterWidthPadding,
      self.GetDomainPos.y + self.GetDomainSize.y⟩
  else
    ⟨self.GetDomainPos.x + self.GetDomainSize.x,
      self.splitterMin.y + self.GetSplitterWidth + SplitterWidthPadding⟩

/-- The corner passed to the second `IsMouseHoveringRect` of `GetHoverSplitter`: the far
corner of the region tested for the left (or top) child. -/
def leftRegionMax (self : CustomLayoutNode) : ImVec2 :=
  if self.GetLevel % 2 = 1 then
    ⟨self.splitterMin.x, self.splitterMax.y⟩
  else
    ⟨self.splitterMax.x, self.splitterMin.y⟩

/-- The result of `GetHoverSplitter()` with the mouse at `mouse`: `some none` is `nullptr`,
`some (some p)` is the node reached from `self` along `p`, and `none` stands for the
dereference of a null child. -/
def GetHoverSplitter : CustomLayoutNode → ImVec2 → Option (Option NodePtr)
  | mk l r lv p s ratio f isLogical, mouse =>
    if isLogical = false then
      some none
    else if IsMouseHoveringRect mouse (splitterMin (mk l r lv p s ratio f isLogical))
        (splitterMax (mk l r lv p s ratio f isLogical)) then
      some (some [])
    else if IsMouseHoveringRect mouse p (leftRegionMax (mk l r lv p s ratio f isLogical)) then
      match l with
      | some a => (GetHoverSplitter a mouse).map (Option.map (List.cons ChildLink.pLeft))
      | none => none
    else
      match r with
      | some b => (GetHoverSplitter b mouse).map (Option.map (List.cons ChildLink.pRight))
      | none => none

/-- The node a pointer designates: follow the child links from `self`. -/
def nodeAt : CustomLayoutNode → NodePtr → Option CustomLayoutNode
  | n, [] => some n
  | mk l _ _ _ _ _ _ _, ChildLink.pLeft :: rest =>
    match l with
    | some a => nodeAt a rest
    | none => none
  | mk _ r _ _ _ _ _ _, ChildLink.pRight :: rest =>
    match r with
    | some b => nodeAt b rest
    | none => none

/-- The tree in which the node designated by a pointer has the state `new`: the effect of
writing to a node through a pointer into the tree. -/
def writeAt : CustomLayoutNode → NodePtr → CustomLayoutNode → Option CustomLayoutNode
  | _, [], new => some new
  | mk l r lv p s ratio f isLogical, ChildLink.pLeft :: rest, new =>
    match l with
    | some a =>
      match writeAt a rest new with
      | some a' => some (mk (some a') r lv p s ratio f isLogical)
      | none => none
    | none => none
  | mk l r lv p s ratio f isLogical, ChildLink.pRight :: rest, new =>
    match r with
    | some b =>
      match writeAt b rest new with
      | some b' => some (mk l (some b') lv p s ratio f isLogical)
      | none => none
    | none => none

/-- The number of values of `uint32_t`, the type of `m_level`. -/
def UINT32_SIZE : Nat := 4294967296

/-- The general constructor `CustomLayoutNode(isLogicalDomain, level, domainPos, domainSize,
splitterRatio, customFunc)`.  Its body is empty: it checks nothing.  `level` is a `uint32_t`
argument, a number below `UINT32_SIZE`. -/
def newGeneral (isLogicalDomain : Bool) (level : Nat) (domainPos domainSize : ImVec2)
    (splitterRatio : ℚ) (customFunc : Option CustomWindowFunc) : CustomLayoutNode :=
  mk none none level domainPos domainSize splitterRatio customFunc isLogicalDomain

/-- The constructor `CustomLayoutNode(float splitterRatio)`, "for the logical domain nodes
only". -/
def newLogicalDomain (splitterRatio : ℚ) : CustomLayoutNode :=
  mk none none 1 ⟨0, 0⟩ ⟨0, 0⟩ splitterRatio none true

/-- The constructor `CustomLayoutNode(CustomWindowFunc customFunc)`, "for the window nodes
only". -/
def newWindow (customFunc : Option CustomWindowFunc) : CustomLayoutNode :=
  mk none none 0 ⟨0, 0⟩ ⟨0, 0⟩ 0 customFunc false

/-- The argument of `CreateLeftChild` and `CreateRightChild`, which are overloaded: a
`float ratio` or a `CustomWindowFunc windowFunc`. -/
inductive ChildArg where
  | ratio (ratio : ℚ)
  | windowFunc (windowFunc : Option CustomWindowFunc)

/-- The node `new CustomLayoutNode(ratio)` or `new CustomLayoutNode(windowFunc)` that
`CreateLeftChild` and `CreateRightChild` make. -/
def newChild : ChildArg → CustomLayoutNode
  | ChildArg.ratio ratio => newLogicalDomain ratio
  | ChildArg.windowFunc windowFunc => newWindow windowFunc

/-- The assignment `m_level = level` to a node. -/
def setLevel : CustomLayoutNode → Nat → CustomLayoutNode
  | mk l r _ p s ratio f isLogical, level => mk l r level p s ratio f isLogical

/-- The member functions `CreateLeftChild(ratio)` and `CreateLeftChild(windowFunc)`; `none`
when the assertion `m_isLogicalDomain == true` fails.  `m_level + 1` is computed in
`uint32_t`. -/
def CreateLeftChild : CustomLayoutNode → ChildArg → Option CustomLayoutNode
  | mk _ r lv p s ratio f isLogical, arg =>
    if isLogical = true then
      some (mk (some (setLevel (newChild arg) ((lv + 1) % UINT32_SIZE))) r lv p s ratio f
        isLogical)
    else
      none

/-- The member functions `CreateRightChild(ratio)` and `CreateRightChild(windowFunc)`; `none`
when the assertion `m_isLogicalDomain == true` fails.  `m_level + 1` is computed in
`uint32_t`. -/
def CreateRightChild : CustomLayoutNode → ChildArg → Option CustomLayoutNode
  | mk l _ lv p s ratio f isLogical, arg =>
    if isLogical = true then
      some (mk l (some (setLevel (newChild arg) ((lv + 1) % UINT32_SIZE))) lv p s ratio f
        isLogical)
    else
      none

/-- The tree with every domain and every ratio set to zero: what is left of a tree when
neither the domains nor the ratios are looked at, that is the levels, the kinds, the
callbacks and the children. -/
def clearGeometry : CustomLayoutNode → CustomLayoutNode
  | mk l r lv _ _ _ f isLogical =>
    mk (match l with
        | some a => some (clearGeometry a)
        | none => none)
      (match r with
        | some b => some (clearGeometry b)
        | none => none)
      lv ⟨0, 0⟩ ⟨0, 0⟩ 0 f isLogical

/-- The level invariant of a tree: the level of every child is the level of its parent plus
one, computed in `uint32_t`. -/
def LevelInvariant : CustomLayoutNode → Bool
  | mk l r lv _ _ _ _ _ =>
    (match l with
      | some a => decide (a.GetLevel = (lv + 1) % UINT32_SIZE) && LevelInvariant a
      | none => true) &&
    (match r with
      | some b => decide (b.GetLevel = (lv + 1) % UINT32_SIZE) && LevelInvariant b
      | none => true)

/-- The child of a node in a link. -/
def child (self : CustomLayoutNode) : ChildLink → Option CustomLayoutNode
  | ChildLink.pLeft => self.GetLeftChild
  | ChildLink.pRight => self.GetRightChild

/-- One call that builds a tree: `CreateLeftChild` or `CreateRightChild`, with its argument,
on the node of the tree that `target` designates (reached with `GetLeftChild` and
`GetRightChild`). -/
structure CreateChildCall where
  target : NodePtr
  link : ChildLink
  arg : ChildArg

/-- The member function `CreateLeftChild` or `CreateRightChild`, by the link it fills. -/
def CreateChild (self : CustomLayoutNode) (link : ChildLink) (arg : ChildArg) :
    Option CustomLayoutNode :=
  match link with
  | ChildLink.pLeft => self.CreateLeftChild arg
  | ChildLink.pRight => self.CreateRightChild arg

/-- The tree after one building call; `none` when the target is not there or the assertion
of the call fails. -/
def createChildAt (root : CustomLayoutNode) (call : CreateChildCall) :
    Option CustomLayoutNode :=
  match root.nodeAt call.target with
  | none => none
  | some n =>
    match n.CreateChild call.link call.arg with
    | none => none
    | some n' => root.writeAt call.target n'

/-- The tree after a sequence of building calls. -/
def createChildren (root : CustomLayoutNode) : List CreateChildCall → Option CustomLayoutNode
  | [] => some root
  | call :: rest =>
    match createChildAt root call with
    | none => none
    | some root' => createChildren root' rest

/-- Every logical domain reached from the node through logical domains has both of its
children: the trees on which no member function dereferences a null child. -/
def WellFormed : CustomLayoutNode → Bool
  | mk l r _ _ _ _ _ isLogical =>
    if isLogical then
      match l, r with
      | some a, some b => WellFormed a && WellFormed b
      | _, _ => false
    else
      true

/-- The tree with every `m_domainPos` and `m_domainSize` set to zero: what is left of a
tree when the domains are not looked at. -/
def clearDomains : CustomLayoutNode → CustomLayoutNode
  | mk l r lv _ _ ratio f isLogical =>
    mk (match l with
        | some a => some (clearDomains a)
        | none => none)
      (match r with
        | some b => some (clearDomains b)
        | none => none)
      lv ⟨0, 0⟩ ⟨0, 0⟩ ratio f isLogical

/-- A window node (leaf) without children, at the origin with an empty domain. -/
def exampleWindow (lv : Nat) (f : Option CustomWindowFunc) : CustomLayoutNode :=
  mk none none lv ⟨0, 0⟩ ⟨0, 0⟩ 0 f false

/-- A root logical domain at level 1 with ratio `4/5` and two windows, not laid out yet. -/
def exampleRoot : CustomLayoutNode :=
  mk (some (exampleWindow 2 (some 1))) (some (exampleWindow 2 none)) 1 ⟨0, 0⟩ ⟨0, 0⟩ (4 / 5)
    none true

/-- The example root after `ResizeNodeAndChildren((0, 0), (1280, 720))`: the splitter starts
at x = 1024, the windows are 1024 and 254 wide. -/
def exampleRootLaidOut : CustomLayoutNode :=
  mk (some (mk none none 2 ⟨0, 0⟩ ⟨1024, 720⟩ 0 (some 1) false))
    (some (mk none none 2 ⟨1026, 0⟩ ⟨254, 720⟩ 0 none false))
    1 ⟨0, 0⟩ ⟨1280, 720⟩ (4 / 5) none true

/-- The coordinate of a point along the split axis of a node: x at an odd level, y at an
even level. -/
def axisCoord (self : CustomLayoutNode) (v : ImVec2) : ℚ :=
  if self.GetLevel % 2 = 1 then v.x else v.y

/-- The coordinate of a point along the other axis: y at an odd level, x at an even level. -/
def crossCoord (self : CustomLayoutNode) (v : ImVec2) : ℚ :=
  if self.GetLevel % 2 = 1 then v.y else v.x

/-- The far corner of the domain of a node: `m_domainPos + m_domainSize`. -/
def domainMax (self : CustomLayoutNode) : ImVec2 :=
  ⟨self.GetDomainPos.x + self.GetDomainSize.x, self.GetDomainPos.y + self.GetDomainSize.y⟩

/-- The window nodes (leaves) of a tree in the order first child, second child; a missing
child contributes nothing. -/
def windows : CustomLayoutNode → List CustomLayoutNode
  | mk l r lv p s ratio f isLogical =>
    if isLogical then
      (match l with
        | some a => windows a
        | none => []) ++
      (match r with
        | some b => windows b
        | none => [])
    else
      [mk l r lv p s ratio f isLogical]

/-- The placement of one window followed by one call of its callback, if it has one. -/
def windowCalls (w : CustomLayoutNode) : List ImGuiCall :=
  [ImGuiCall.SetNextWindowPos w.GetDomainPos, ImGuiCall.SetNextWindowSize w.GetDomainSize] ++
    (match w.customWindowFunc with
      | some g => [ImGuiCall.CustomWindowFuncCall g]
      | none => [])

/-- The position `ResizeNodeAndChildren` passes to the first child of a node that has the
domain, ratio and level of `self`. -/
def leftChildPos (self : CustomLayoutNode) : ImVec2 :=
  self.GetDomainPos

/-- The size `ResizeNodeAndChildren` passes to the first child. -/
def leftChildSize (self : CustomLayoutNode) : ImVec2 :=
  if self.GetLevel % 2 = 1 then
    ⟨self.GetSplitterStartCoord - self.GetDomainPos.x, self.GetDomainSize.y⟩
  else
    ⟨self.GetDomainSize.x, self.GetSplitterStartCoord - self.GetDomainPos.y⟩

/-- The position `ResizeNodeAndChildren` passes to the second child. -/
def rightChildPos (self : CustomLayoutNode) : ImVec2 :=
  if self.GetLevel % 2 = 1 then
    ⟨self.GetSplitterStartCoord + self.GetSplitterWidth, self.GetDomainPos.y⟩
  else
    ⟨self.GetDomainPos.x, self.GetSplitterStartCoord + self.GetSplitterWidth⟩

/-- The size `ResizeNodeAndChildren` passes to the second child. -/
def rightChildSize (self : CustomLayoutNode) : ImVec2 :=
  if self.GetLevel % 2 = 1 then
    ⟨self.GetDomainSize.x -
        (self.GetSplitterStartCoord - self.GetDomainPos.x + self.GetSplitterWidth),
      self.GetDomainSize.y⟩
  else
    ⟨self.GetDomainSize.x,
      self.GetDomainSize.y -
        (self.GetSplitterStartCoord - self.GetDomainPos.y + self.GetSplitterWidth)⟩

/-- The geometry of a tree is consistent: for every logical domain reached through logical
domains that has both children, the domains of the two children are those that
`ResizeNodeAndChildren` derives from the domain and the ratio of the node. -/
def Consistent : CustomLayoutNode → Bool
  | mk l r lv p s ratio f isLogical =>
    if isLogical then
      match l, r with
      | some a, some b =>
        decide (a.GetDomainPos = leftChildPos (mk l r lv p s ratio f isLogical) ∧
          a.GetDomainSize = leftChildSize (mk l r lv p s ratio f isLogical) ∧
          b.GetDomainPos = rightChildPos (mk l r lv p s ratio f isLogical) ∧
          b.GetDomainSize = rightChildSize (mk l r lv p s ratio f isLogical)) &&
        Consistent a && Consistent b
      | _, _ => true
    else
      true

/-- Every split ratio of the tree lies strictly between 0 and 1: the ratio of every logical
domain reached from the node through logical domains. -/
def RatiosInUnit : CustomLayoutNode → Bool
  | mk l r _ _ _ ratio _ isLogical =>
    if isLogical then
      decide (0 < ratio ∧ ratio < 1) &&
        (match l with
          | some a => RatiosInUnit a
          | none => true) &&
        (match r with
          | some b => RatiosInUnit b
          | none => true)
    else
      true

/-- The node a pointer designates when every node it leaves by a child link is a logical
domain: the nodes the member functions visit from `self`. -/
def reach : CustomLayoutNode → NodePtr → Option CustomLayoutNode
  | n, [] => some n
  | mk l _ _ _ _ _ _ isLogical, ChildLink.pLeft :: rest =>
    if isLogical then
      match l with
      | some a => reach a rest
      | none => none
    else
      none
  | mk _ r _ _ _ _ _ isLogical, ChildLink.pRight :: rest =>
    if isLogical then
      match r with
      | some b => reach b rest
      | none => none
    else
      none

/-- The point lies in the rectangle `[m_domainPos, m_domainPos + m_domainSize)` of the node,
lower edges included and upper edges excluded. -/
def domainContains (self : CustomLayoutNode) (pt : ImVec2) : Bool :=
  decide (self.GetDomainPos.x ≤ pt.x ∧ pt.x < self.GetDomainPos.x + self.GetDomainSize.x ∧
    self.GetDomainPos.y ≤ pt.y ∧ pt.y < self.GetDomainPos.y + self.GetDomainSize.y)

end CustomLayoutNode

/-- The class `CustomLayout`.  `m_pHeldSplitterDomain` points into the tree owned by
`m_pRoot`. -/
structure CustomLayout where
  m_pRoot : Option CustomLayoutNode
  m_splitterHeld : Bool
  m_splitterBottonDownDelta : ℚ
  m_heldMouseCursor : Int
  m_pHeldSplitterDomain : Option NodePtr
  m_lastViewport : ImVec2

namespace CustomLayout

/-- The constructor `CustomLayout(root)`; its assertion asks for `root != nullptr`. -/
def new (root : CustomLayoutNode) : CustomLayout :=
  { m_pRoot := some root
    m_pHeldSplitterDomain := none
    m_splitterHeld := false
    m_splitterBottonDownDelta := 0
    m_lastViewport := ⟨0, 0⟩
    m_heldMouseCursor := 0 }

/-- First part of `BeginEndLayout` ("Dealing with viewport resize"): the root pointer after
it, or `none` when a null pointer is dereferenced. -/
def viewportResize (self : CustomLayout) (io : ImGuiFrame) : Option (Option CustomLayoutNode) :=
  if io.WorkSize.x ≠ self.m_lastViewport.x ∨ io.WorkSize.y ≠ self.m_lastViewport.y then
    match self.m_pRoot with
    | some root =>
      match root.ResizeNodeAndChildren io.WorkPos io.WorkSize with
      | some root' => some (some root')
      | none => none
    | none => none
  else
    some self.m_pRoot

/-- The cursor `BeginEndLayout` sets for a splitter: `ImGuiMouseCursor_ResizeEW` when
`isLeftRightSplitter` (odd level), `ImGuiMouseCursor_ResizeNS` otherwise. -/
def splitterCursor (splitterDomain : CustomLayoutNode) : ImGuiMouseCursor :=
  if splitterDomain.GetLevel % 2 = 1 then ImGuiMouseCursor.ResizeEW
  else ImGuiMouseCursor.ResizeNS

/-- The value `BeginEndLayout` stores in `m_splitterBottonDownDelta` on a click over the
splitter of `splitterDomain`. -/
def bottonDownDelta (splitterDomain : CustomLayoutNode) (mousePos : ImVec2) : ℚ :=
  let splitterPos := splitterDomain.GetSplitterPos
  if splitterDomain.GetLevel % 2 = 1 then splitterPos.x - mousePos.x
  else splitterPos.y - mousePos.y

/-- The local `newSplitterRatio` of the dragging branch of `BeginEndLayout`.  The quotient is
taken in exact arithmetic; where `domainSize` is zero along the split axis the source divides
floats by zero (an infinity or a NaN), which this value does not describe, so statements
about the value of the ratio assume that size is not zero. -/
def newSplitterRatio (held : CustomLayoutNode) (splitterBottonDownDelta : ℚ)
    (mousePos : ImVec2) : ℚ :=
  let domainPos := held.GetDomainPos
  let domainSize := held.GetDomainSize
  if held.GetLevel % 2 = 1 then
    let newSplitterCoord := splitterBottonDownDelta + mousePos.x
    let newSplitterAxisLen := newSplitterCoord - domainPos.x
    newSplitterAxisLen / domainSize.x
  else
    let newSplitterCoord := splitterBottonDownDelta + mousePos.y
    let newSplitterAxisLen := newSplitterCoord - domainPos.y
    newSplitterAxisLen / domainSize.y

/-- Second part of `BeginEndLayout` ("Dealing with the mouse interactions"): the layout
after it and the calls it makes, or `none` when a null pointer is dereferenced.  The held
node is reached from the root, which owns it. -/
def mouseInteractions (self : CustomLayout) (io : ImGuiFrame) :
    Option (CustomLayout × List ImGuiCall) :=
  if self.m_splitterHeld = false then
    match self.m_pRoot with
    | none => none
    | some root =>
      match root.GetHoverSplitter io.MousePos with
      | none => none
      | some none => some (self, [])
      | some (some pSplitterDomain) =>
        match root.nodeAt pSplitterDomain with
        | none => none
        | some splitterDomain =>
          if io.MouseClicked then
            some ({ self with
                    m_splitterHeld := true
                    m_splitterBottonDownDelta := bottonDownDelta splitterDomain io.MousePos
                    m_pHeldSplitterDomain := some pSplitterDomain },
                  [ImGuiCall.SetMouseCursor (splitterCursor splitterDomain)])
          else
            some (self, [ImGuiCall.SetMouseCursor (splitterCursor splitterDomain)])
  else
    if io.MouseDown then
      match self.m_pHeldSplitterDomain, self.m_pRoot with
      | some pHeld, some root =>
        match root.nodeAt pHeld with
        | none => none
        | some held =>
          match (held.SetSplitterRatio
              (newSplitterRatio held self.m_splitterBottonDownDelta io.MousePos)).ResizeNodeAndChildren
              held.GetDomainPos held.GetDomainSize with
          | none => none
          | some held' =>
            match root.writeAt pHeld held' with
            | none => none
            | some root' =>
              some ({ self with m_pRoot := some root' },
                [ImGuiCall.SetMouseCursor (splitterCursor held)])
      | _, _ => none
    else
      some ({ self with m_splitterHeld := false }, [])

/-- The member function `BeginEndLayout()` for one frame of the host: the layout after the
frame and the calls made during it, in order; `none` when a null pointer is dereferenced. -/
def BeginEndLayout (self : CustomLayout) (io : ImGuiFrame) :
    Option (CustomLayout × List ImGuiCall) :=
  match self.viewportResize io with
  | none => none
  | some pRoot =>
    match mouseInteractions { self with m_pRoot := pRoot } io with
    | none => none
    | some (layout, calls) =>
      some ({ layout with m_lastViewport := io.WorkSize },
        calls ++
          (match layout.m_pRoot with
            | some root => root.BeginEndNodeAndChildren
            | none => []))

/-- A frame of the host over a 1280 x 720 viewport at the origin. -/
def exampleFrame (mousePos : ImVec2) (clicked down : Bool) : ImGuiFrame :=
  { WorkPos := ⟨0, 0⟩
    WorkSize := ⟨1280, 720⟩
    MousePos := mousePos
    MouseClicked := clicked
    MouseDown := down }

/-- A frame of the host over a 1920 x 1080 viewport at the origin, the mouse away from the
splitters and the button up. -/
def exampleFrameLarge : ImGuiFrame :=
  { WorkPos := ⟨0, 0⟩
    WorkSize := ⟨1920, 1080⟩
    MousePos := ⟨100, 100⟩
    MouseClicked := false
    MouseDown := false }

/-- The layouts on which a frame dereferences no null pointer: the root is there and
well-formed, and while a splitter is held `m_pHeldSplitterDomain` points to a well-formed
node of the tree. -/
def Valid (self : CustomLayout) : Bool :=
  match self.m_pRoot with
  | none => false
  | some root =>
    root.WellFormed &&
      (!self.m_splitterHeld ||
        match self.m_pHeldSplitterDomain with
        | none => false
        | some pHeld =>
          match root.nodeAt pHeld with
          | none => false
          | some held => held.WellFormed)

/-- A layout over the laid out example root, as it is after a first frame over a
1280 x 720 viewport with the mouse away from the splitter. -/
def exampleLayout : CustomLayout :=
  { m_pRoot := some CustomLayoutNode.exampleRootLaidOut
    m_splitterHeld := false
    m_splitterBottonDownDelta := 0
    m_heldMouseCursor := 0
    m_pHeldSplitterDomain := none
    m_lastViewport := ⟨1280, 720⟩ }

/-- The example layout while the root splitter is held, grabbed one unit before its start. -/
def exampleLayoutDragging : CustomLayout :=
  { m_pRoot := some CustomLayoutNode.exampleRootLaidOut
    m_splitterHeld := true
    m_splitterBottonDownDelta := 1
    m_heldMouseCursor := 0
    m_pHeldSplitterDomain := some []
    m_lastViewport := ⟨1280, 720⟩ }

/-- The layout is valid and, while a splitter is held, the node `m_pHeldSplitterDomain`
points to is a logical domain of the tree of `m_pRoot`. -/
def HeldValid (self : CustomLayout) : Bool :=
  self.Valid &&
    (!self.m_splitterHeld ||
      match self.m_pHeldSplitterDomain, self.m_pRoot with
      | some pHeld, some root =>
        match root.nodeAt pHeld with
        | none => false
        | some held => held.IsLogicalDomain
      | _, _ => false)

/-- A sequence of frames: `BeginEndLayout()` once per frame, in order; `none` when a frame
dereferences a null pointer. -/
def runFrames (self : CustomLayout) : List ImGuiFrame → Option CustomLayout
  | [] => some self
  | io :: rest =>
    match self.BeginEndLayout io with
    | none => none
    | some (layout, _) => runFrames layout rest

/-- A frame of the host that reports a viewport of size zero at the origin, the mouse at
(100, 100) and the button up. -/
def exampleFrameZero : ImGuiFrame :=
  { WorkPos := ⟨0, 0⟩
    WorkSize := ⟨0, 0⟩
    MousePos := ⟨100, 100⟩
    MouseClicked := false
    MouseDown := false }

end CustomLayout

/-! ## Theorems -/

namespace CustomLayoutNode

theorem resize_leaf (l r : Option CustomLayoutNode) (lv : Nat) (p0 s0 : ImVec2) (ratio : ℚ)
    (f : Option CustomWindowFunc) (p s : ImVec2) :
    (mk l r lv p0 s0 ratio f false).ResizeNodeAndChildren p s =
      some (mk l r lv p s ratio f false) := by
  simp [ResizeNodeAndChildren]

theorem resize_odd (a b : CustomLayoutNode) (lv : Nat) (p0 s0 : ImVec2) (ratio : ℚ)
    (f : Option CustomWindowFunc) (p s : ImVec2) (hlv : lv % 2 = 1) :
    (mk (some a) (some b) lv p0 s0 ratio f true).ResizeNodeAndChildren p s =
      (a.ResizeNodeAndChildren p ⟨p.x + ratio * s.x - p.x, s.y⟩).bind (fun a' =>
        (b.ResizeNodeAndChildren ⟨p.x + ratio * s.x + 2, p.y⟩
          ⟨s.x - (p.x + ratio * s.x - p.x + 2), s.y⟩).bind (fun b' =>
          some (mk (some a') (some b') lv p s ratio f true))) := by
  rw [ResizeNodeAndChildren]
  simp only [if_true, hlv, GetSplitterStartCoord, GetSplitterWidth, GetLevel, GetDomainPos,
    GetDomainSize, splitterRatio]
  cases a.ResizeNodeAndChildren p ⟨p.x + ratio * s.x - p.x, s.y⟩ <;>
    cases b.ResizeNodeAndChildren ⟨p.x + ratio * s.x + 2, p.y⟩
      ⟨s.x - (p.x + ratio * s.x - p.x + 2), s.y⟩ <;> rfl

theorem resize_even (a b : CustomLayoutNode) (lv : Nat) (p0 s0 : ImVec2) (ratio : ℚ)
    (f : Option CustomWindowFunc) (p s : ImVec2) (hlv : ¬ lv % 2 = 1) :
    (mk (some a) (some b) lv p0 s0 ratio f true).ResizeNodeAndChildren p s =
      (a.ResizeNodeAndChildren p ⟨s.x, p.y + ratio * s.y - p.y⟩).bind (fun a' =>
        (b.ResizeNodeAndChildren ⟨p.x, p.y + ratio * s.y + 2⟩
          ⟨s.x, s.y - (p.y + ratio * s.y - p.y + 2)⟩).bind (fun b' =>
          some (mk (some a') (some b') lv p s ratio f true))) := by
  rw [ResizeNodeAndChildren]
  simp only [if_true, hlv, if_false, GetSplitterStartCoord, GetSplitterWidth, GetLevel,
    GetDomainPos, GetDomainSize, splitterRatio]
  cases a.ResizeNodeAndChildren p ⟨s.x, p.y + ratio * s.y - p.y⟩ <;>
    cases b.ResizeNodeAndChildren ⟨p.x, p.y + ratio * s.y + 2⟩
      ⟨s.x, s.y - (p.y + ratio * s.y - p.y + 2)⟩ <;> rfl

theorem resize_null_child (l r : Option CustomLayoutNode) (lv : Nat) (p0 s0 : ImVec2)
    (ratio : ℚ) (f : Option CustomWindowFunc) (p s : ImVec2) (h : l = none ∨ r = none) :
    (mk l r lv p0 s0 ratio f true).ResizeNodeAndChildren p s = none := by
  rw [ResizeNodeAndChildren]
  rcases h with h | h <;> subst h
  · simp
  · cases l <;> simp


/-- Structural induction on a tree: a property holds of every node as soon as it holds of a
node whenever it holds of the children the node has. -/
theorem node_induction {motive : CustomLayoutNode → Prop}
    (step : ∀ (l r : Option CustomLayoutNode) (lv : Nat) (p s : ImVec2) (ratio : ℚ)
      (f : Option CustomWindowFunc) (isLogical : Bool),
      (∀ a, l = some a → motive a) → (∀ b, r = some b → motive b) →
      motive (mk l r lv p s ratio f isLogical)) :
    ∀ n, motive n
  | mk none none lv p s ratio f isLogical =>
    step none none lv p s ratio f isLogical (fun _ h => by cases h) (fun _ h => by cases h)
  | mk (some a) none lv p s ratio f isLogical =>
    step (some a) none lv p s ratio f isLogical
      (fun _ h => by cases h; exact node_induction step a) (fun _ h => by cases h)
  | mk none (some b) lv p s ratio f isLogical =>
    step none (some b) lv p s ratio f isLogical
      (fun _ h => by cases h) (fun _ h => by cases h; exact node_induction step b)
  | mk (some a) (some b) lv p s ratio f isLogical =>
    step (some a) (some b) lv p s ratio f isLogical
      (fun _ h => by cases h; exact node_induction step a)
      (fun _ h => by cases h; exact node_induction step b)

theorem wellFormed_split (a b : CustomLayoutNode) (lv : Nat) (p s : ImVec2) (ratio : ℚ)
    (f : Option CustomWindowFunc) :
    (mk (some a) (some b) lv p s ratio f true).WellFormed = true ↔
      a.WellFormed = true ∧ b.WellFormed = true := by
  simp [WellFormed]

theorem wellFormed_children (l r : Option CustomLayoutNode) (lv : Nat) (p s : ImVec2)
    (ratio : ℚ) (f : Option CustomWindowFunc)
    (h : (mk l r lv p s ratio f true).WellFormed = true) :
    ∃ a b, l = some a ∧ r = some b ∧ a.WellFormed = true ∧ b.WellFormed = true := by
  cases l with
  | none => simp [WellFormed] at h
  | some a =>
    cases r with
    | none => simp [WellFormed] at h
    | some b => exact ⟨a, b, rfl, rfl, (wellFormed_split a b lv p s ratio f).1 h⟩

theorem resize_isSome_of_wellFormed (n : CustomLayoutNode) :
    ∀ (p s : ImVec2), n.WellFormed = true → ∃ n', n.ResizeNodeAndChildren p s = some n' := by
  induction n using node_induction with
  | step l r lv p0 s0 ratio f isLogical iha ihb =>
    intro p s h
    cases isLogical with
    | false => exact ⟨_, resize_leaf l r lv p0 s0 ratio f p s⟩
    | true =>
      obtain ⟨a, b, rfl, rfl, ha, hb⟩ := wellFormed_children l r lv p0 s0 ratio f h
      by_cases hlv : lv % 2 = 1
      · obtain ⟨a', ha'⟩ := iha a rfl p ⟨p.x + ratio * s.x - p.x, s.y⟩ ha
        obtain ⟨b', hb'⟩ := ihb b rfl ⟨p.x + ratio * s.x + 2, p.y⟩
          ⟨s.x - (p.x + ratio * s.x - p.x + 2), s.y⟩ hb
        exact ⟨_, by rw [resize_odd a b lv p0 s0 ratio f p s hlv, ha', hb']; rfl⟩
      · obtain ⟨a', ha'⟩ := iha a rfl p ⟨s.x, p.y + ratio * s.y - p.y⟩ ha
        obtain ⟨b', hb'⟩ := ihb b rfl ⟨p.x, p.y + ratio * s.y + 2⟩
          ⟨s.x, s.y - (p.y + ratio * s.y - p.y + 2)⟩ hb
        exact ⟨_, by rw [resize_even a b lv p0 s0 ratio f p s hlv, ha', hb']; rfl⟩

theorem resize_fields (n n' : CustomLayoutNode) (p s : ImVec2)
    (h : n.ResizeNodeAndChildren p s = some n') :
    n'.GetDomainPos = p ∧ n'.GetDomainSize = s ∧ n'.GetLevel = n.GetLevel ∧
      n'.splitterRatio = n.splitterRatio ∧ n'.customWindowFunc = n.customWindowFunc ∧
      n'.IsLogicalDomain = n.IsLogicalDomain := by
  obtain ⟨l, r, lv, p0, s0, ratio, f, isLogical⟩ := n
  cases isLogical with
  | false =>
    rw [resize_leaf] at h
    cases h
    simp [GetDomainPos, GetDomainSize, GetLevel, splitterRatio, customWindowFunc, IsLogicalDomain]
  | true =>
    cases l with
    | none => rw [resize_null_child _ _ _ _ _ _ _ _ _ (Or.inl rfl)] at h; cases h
    | some a =>
      cases r with
      | none => rw [resize_null_child _ _ _ _ _ _ _ _ _ (Or.inr rfl)] at h; cases h
      | some b =>
        by_cases hlv : lv % 2 = 1
        · rw [resize_odd a b lv p0 s0 ratio f p s hlv] at h
          simp only [Option.bind_eq_some] at h
          obtain ⟨a', _, b', _, h⟩ := h
          cases h
          simp [GetDomainPos, GetDomainSize, GetLevel, splitterRatio, customWindowFunc,
            IsLogicalDomain]
        · rw [resize_even a b lv p0 s0 ratio f p s hlv] at h
          simp only [Option.bind_eq_some] at h
          obtain ⟨a', _, b', _, h⟩ := h
          cases h
          simp [GetDomainPos, GetDomainSize, GetLevel, splitterRatio, customWindowFunc,
            IsLogicalDomain]


theorem clearDomains_mk (l r : Option CustomLayoutNode) (lv : Nat) (p s : ImVec2) (ratio : ℚ)
    (f : Option CustomWindowFunc) (isLogical : Bool) :
    (mk l r lv p s ratio f isLogical).clearDomains =
      mk (l.map clearDomains) (r.map clearDomains) lv ⟨0, 0⟩ ⟨0, 0⟩ ratio f isLogical := by
  cases l <;> cases r <;> rw [clearDomains] <;> rfl

theorem nodeAt_nil (n : CustomLayoutNode) : n.nodeAt [] = some n := by
  cases n; rfl

theorem nodeAt_pLeft (l r : Option CustomLayoutNode) (lv : Nat) (p s : ImVec2) (ratio : ℚ)
    (f : Option CustomWindowFunc) (isLogical : Bool) (rest : NodePtr) :
    (mk l r lv p s ratio f isLogical).nodeAt (ChildLink.pLeft :: rest) =
      l.bind (fun a => a.nodeAt rest) := by
  cases l <;> rfl

theorem nodeAt_pRight (l r : Option CustomLayoutNode) (lv : Nat) (p s : ImVec2) (ratio : ℚ)
    (f : Option CustomWindowFunc) (isLogical : Bool) (rest : NodePtr) :
    (mk l r lv p s ratio f isLogical).nodeAt (ChildLink.pRight :: rest) =
      r.bind (fun b => b.nodeAt rest) := by
  cases r <;> rfl

theorem clearDomains_resize (n : CustomLayoutNode) :
    ∀ (p s : ImVec2) (n' : CustomLayoutNode), n.ResizeNodeAndChildren p s = some n' →
      n'.clearDomains = n.clearDomains := by
  induction n using node_induction with
  | step l r lv p0 s0 ratio f isLogical iha ihb =>
    intro p s n' h
    cases isLogical with
    | false =>
      rw [resize_leaf] at h
      cases h
      simp [clearDomains_mk]
    | true =>
      cases l with
      | none => rw [resize_null_child _ _ _ _ _ _ _ _ _ (Or.inl rfl)] at h; cases h
      | some a =>
        cases r with
        | none => rw [resize_null_child _ _ _ _ _ _ _ _ _ (Or.inr rfl)] at h; cases h
        | some b =>
          by_cases hlv : lv % 2 = 1
          · rw [resize_odd a b lv p0 s0 ratio f p s hlv] at h
            simp only [Option.bind_eq_some] at h
            obtain ⟨a', ha', b', hb', h⟩ := h
            cases h
            simp [clearDomains_mk, iha a rfl _ _ a' ha', ihb b rfl _ _ b' hb']
          · rw [resize_even a b lv p0 s0 ratio f p s hlv] at h
            simp only [Option.bind_eq_some] at h
            obtain ⟨a', ha', b', hb', h⟩ := h
            cases h
            simp [clearDomains_mk, iha a rfl _ _ a' ha', ihb b rfl _ _ b' hb']

theorem nodeAt_clearDomains (n : CustomLayoutNode) :
    ∀ (ptr : NodePtr), n.clearDomains.nodeAt ptr = (n.nodeAt ptr).map clearDomains := by
  induction n using node_induction with
  | step l r lv p0 s0 ratio f isLogical iha ihb =>
    intro ptr
    cases ptr with
    | nil => simp [nodeAt_nil]
    | cons c rest =>
      cases c with
      | pLeft =>
        cases l with
        | none => simp [nodeAt_pLeft, clearDomains_mk]
        | some a => simpa [nodeAt_pLeft, clearDomains_mk] using iha a rfl rest
      | pRight =>
        cases r with
        | none => simp [nodeAt_pRight, clearDomains_mk]
        | some b => simpa [nodeAt_pRight, clearDomains_mk] using ihb b rfl rest

theorem fields_of_clearDomains_eq (m m' : CustomLayoutNode)
    (h : m'.clearDomains = m.clearDomains) :
    m'.GetLevel = m.GetLevel ∧ m'.splitterRatio = m.splitterRatio ∧
      m'.IsLogicalDomain = m.IsLogicalDomain ∧ m'.customWindowFunc = m.customWindowFunc ∧
      m'.GetLeftChild.isSome = m.GetLeftChild.isSome ∧
      m'.GetRightChild.isSome = m.GetRightChild.isSome := by
  obtain ⟨l, r, lv, p0, s0, ratio, f, isLogical⟩ := m
  obtain ⟨l', r', lv', p0', s0', ratio', f', isLogical'⟩ := m'
  simp only [clearDomains_mk, mk.injEq] at h
  obtain ⟨hl, hr, hlv, -, -, hratio, hf, hlog⟩ := h
  refine ⟨hlv, hratio, hlog, hf, ?_, ?_⟩
  · cases l <;> cases l' <;> simp_all [GetLeftChild]
  · cases r <;> cases r' <;> simp_all [GetRightChild]

end CustomLayoutNode

open CustomLayoutNode

/-- The result of `ResizeNodeAndChildren` on a logical domain whose two children are
well-formed subtrees: the node and the domains of its children. -/
theorem resize_split_children (n a b : CustomLayoutNode) (newPos newSize : ImVec2)
    (h : n.IsLogicalDomain = true) (hl : n.GetLeftChild = some a)
    (hr : n.GetRightChild = some b) (ha : a.WellFormed = true) (hb : b.WellFormed = true) :
    ∃ n' a' b', n.ResizeNodeAndChildren newPos newSize = some n' ∧
      n'.GetDomainPos = newPos ∧ n'.GetDomainSize = newSize ∧
      n'.GetLeftChild = some a' ∧ n'.GetRightChild = some b' ∧
      (n.GetLevel % 2 = 1 →
        a'.GetDomainPos = newPos ∧
        a'.GetDomainSize =
          ⟨newPos.x + n.splitterRatio * newSize.x - newPos.x, newSize.y⟩ ∧
        b'.GetDomainPos = ⟨newPos.x + n.splitterRatio * newSize.x + 2, newPos.y⟩ ∧
        b'.GetDomainSize =
          ⟨newSize.x - (newPos.x + n.splitterRatio * newSize.x - newPos.x + 2), newSize.y⟩) ∧
      (n.GetLevel % 2 = 0 →
        a'.GetDomainPos = newPos ∧
        a'.GetDomainSize =
          ⟨newSize.x, newPos.y + n.splitterRatio * newSize.y - newPos.y⟩ ∧
        b'.GetDomainPos = ⟨newPos.x, newPos.y + n.splitterRatio * newSize.y + 2⟩ ∧
        b'.GetDomainSize =
          ⟨newSize.x,
            newSize.y - (newPos.y + n.splitterRatio * newSize.y - newPos.y + 2)⟩) := by
  obtain ⟨l, r, lv, p0, s0, ratio, f, isLogical⟩ := n
  simp only [IsLogicalDomain, GetLeftChild, GetRightChild] at h hl hr
  subst h hl hr
  simp only [GetLevel, splitterRatio]
  by_cases hlv : lv % 2 = 1
  · obtain ⟨a', ha'⟩ := resize_isSome_of_wellFormed a newPos
      ⟨newPos.x + ratio * newSize.x - newPos.x, newSize.y⟩ ha
    obtain ⟨b', hb'⟩ := resize_isSome_of_wellFormed b
      ⟨newPos.x + ratio * newSize.x + 2, newPos.y⟩
      ⟨newSize.x - (newPos.x + ratio * newSize.x - newPos.x + 2), newSize.y⟩ hb
    refine ⟨mk (some a') (some b') lv newPos newSize ratio f true, a', b',
      by rw [resize_odd a b lv p0 s0 ratio f _ _ hlv, ha', hb']; rfl,
      rfl, rfl, rfl, rfl, ?_, ?_⟩
    · intro _
      exact ⟨(resize_fields _ _ _ _ ha').1, (resize_fields _ _ _ _ ha').2.1,
        (resize_fields _ _ _ _ hb').1, (resize_fields _ _ _ _ hb').2.1⟩
    · intro h0
      omega
  · obtain ⟨a', ha'⟩ := resize_isSome_of_wellFormed a newPos
      ⟨newSize.x, newPos.y + ratio * newSize.y - newPos.y⟩ ha
    obtain ⟨b', hb'⟩ := resize_isSome_of_wellFormed b
      ⟨newPos.x, newPos.y + ratio * newSize.y + 2⟩
      ⟨newSize.x, newSize.y - (newPos.y + ratio * newSize.y - newPos.y + 2)⟩ hb
    refine ⟨mk (some a') (some b') lv newPos newSize ratio f true, a', b',
      by rw [resize_even a b lv p0 s0 ratio f _ _ hlv, ha', hb']; rfl,
      rfl, rfl, rfl, rfl, ?_, ?_⟩
    · intro h1
      exact absurd h1 hlv
    · intro _
      exact ⟨(resize_fields _ _ _ _ ha').1, (resize_fields _ _ _ _ ha').2.1,
        (resize_fields _ _ _ _ hb').1, (resize_fields _ _ _ _ hb').2.1⟩

/-- C1: on a logical domain (split node) with both children, `ResizeNodeAndChildren(newPos,
newSize)` stores `(newPos, newSize)` in the node and gives the children the domains computed
from `s = newPos.axis + ratio * newSize.axis` and the splitter width 2: along x at an odd
level, along y at an even level.  A window node (leaf) only stores the rectangle.  The
children are well-formed subtrees, so that the recursive calls return. -/
theorem resize_sets_domain_and_children_domains (n : CustomLayoutNode)
    (newPos newSize : ImVec2) :
    (n.IsLogicalDomain = false →
      n.ResizeNodeAndChildren newPos newSize =
        some ((n.SetDomainPos newPos).SetDomainSize newSize)) ∧
    (∀ a b, n.IsLogicalDomain = true → n.GetLeftChild = some a → n.GetRightChild = some b →
      a.WellFormed = true → b.WellFormed = true →
      ∃ n' a' b', n.ResizeNodeAndChildren newPos newSize = some n' ∧
        n'.GetDomainPos = newPos ∧ n'.GetDomainSize = newSize ∧
        n'.GetLeftChild = some a' ∧ n'.GetRightChild = some b' ∧
        (n.GetLevel % 2 = 1 →
          a'.GetDomainPos = newPos ∧
          a'.GetDomainSize =
            ⟨newPos.x + n.splitterRatio * newSize.x - newPos.x, newSize.y⟩ ∧
          b'.GetDomainPos = ⟨newPos.x + n.splitterRatio * newSize.x + 2, newPos.y⟩ ∧
          b'.GetDomainSize =
            ⟨newSize.x - (newPos.x + n.splitterRatio * newSize.x - newPos.x + 2), newSize.y⟩) ∧
        (n.GetLevel % 2 = 0 →
          a'.GetDomainPos = newPos ∧
          a'.GetDomainSize =
            ⟨newSize.x, newPos.y + n.splitterRatio * newSize.y - newPos.y⟩ ∧
          b'.GetDomainPos = ⟨newPos.x, newPos.y + n.splitterRatio * newSize.y + 2⟩ ∧
          b'.GetDomainSize =
            ⟨newSize.x,
              newSize.y - (newPos.y + n.splitterRatio * newSize.y - newPos.y + 2)⟩)) := by
  refine ⟨?_, fun a b h hl hr ha hb => resize_split_children n a b newPos newSize h hl hr ha hb⟩
  obtain ⟨l, r, lv, p0, s0, ratio, f, isLogical⟩ := n
  intro h
  simp only [IsLogicalDomain] at h
  subst h
  rw [resize_leaf]
  rfl

/-- Witness of C1: the example root laid out over a 1280 x 720 viewport. -/
theorem resize_sets_domain_and_children_domains_witness :
    ∃ n' a' b', exampleRoot.ResizeNodeAndChildren ⟨0, 0⟩ ⟨1280, 720⟩ = some n' ∧
      n'.GetDomainPos = ⟨0, 0⟩ ∧ n'.GetDomainSize = ⟨1280, 720⟩ ∧
      n'.GetLeftChild = some a' ∧ n'.GetRightChild = some b' ∧
      a'.GetDomainPos = ⟨0, 0⟩ ∧ a'.GetDomainSize = ⟨1024, 720⟩ ∧
      b'.GetDomainPos = ⟨1026, 0⟩ ∧ b'.GetDomainSize = ⟨254, 720⟩ := by
  obtain ⟨n', a', b', h, hp, hs, hl, hr, hodd, -⟩ :=
    (resize_sets_domain_and_children_domains exampleRoot ⟨0, 0⟩ ⟨1280, 720⟩).2
      (exampleWindow 2 (some 1)) (exampleWindow 2 none) rfl rfl rfl rfl rfl
  obtain ⟨h1, h2, h3, h4⟩ := hodd rfl
  refine ⟨n', a', b', h, hp, hs, hl, hr, h1, ?_, ?_, ?_⟩
  · rw [h2]; norm_num [exampleRoot, splitterRatio]
  · rw [h3]; norm_num [exampleRoot, splitterRatio]
  · rw [h4]; norm_num [exampleRoot, splitterRatio]

/-- C2: after `ResizeNodeAndChildren(pos, size)` on a logical domain with ratio `r` whose size
along the split axis is not zero, the first child's size along the split axis divided by the
parent's is `r`, the first child starts at `pos`, the second child starts where the first
child ends plus the splitter width, the two sizes and the splitter width add up to the
parent's size, and on the other axis both children have the parent's position and size. -/
theorem resize_preserves_ratio_and_tiles (n a b : CustomLayoutNode) (pos size : ImVec2)
    (hsplit : n.IsLogicalDomain = true)
    (hl : n.GetLeftChild = some a) (hr : n.GetRightChild = some b)
    (ha : a.WellFormed = true) (hb : b.WellFormed = true)
    (hsize : (if n.GetLevel % 2 = 1 then size.x else size.y) ≠ 0) :
    ∃ n' a' b', n.ResizeNodeAndChildren pos size = some n' ∧
      n'.GetLeftChild = some a' ∧ n'.GetRightChild = some b' ∧
      (n.GetLevel % 2 = 1 →
        a'.GetDomainSize.x / size.x = n.splitterRatio ∧
        a'.GetDomainPos = pos ∧
        b'.GetDomainPos.x = a'.GetDomainPos.x + a'.GetDomainSize.x + n.GetSplitterWidth ∧
        a'.GetDomainSize.x + n.GetSplitterWidth + b'.GetDomainSize.x = size.x ∧
        b'.GetDomainPos.y = pos.y ∧
        a'.GetDomainSize.y = size.y ∧ b'.GetDomainSize.y = size.y) ∧
      (n.GetLevel % 2 = 0 →
        a'.GetDomainSize.y / size.y = n.splitterRatio ∧
        a'.GetDomainPos = pos ∧
        b'.GetDomainPos.y = a'.GetDomainPos.y + a'.GetDomainSize.y + n.GetSplitterWidth ∧
        a'.GetDomainSize.y + n.GetSplitterWidth + b'.GetDomainSize.y = size.y ∧
        b'.GetDomainPos.x = pos.x ∧
        a'.GetDomainSize.x = size.x ∧ b'.GetDomainSize.x = size.x) := by
  obtain ⟨n', a', b', h, -, -, hl', hr', hodd, heven⟩ :=
    resize_split_children n a b pos size hsplit hl hr ha hb
  refine ⟨n', a', b', h, hl', hr', ?_, ?_⟩
  · intro hlv
    obtain ⟨h1, h2, h3, h4⟩ := hodd hlv
    rw [if_pos hlv] at hsize
    rw [h1, h2, h3, h4]
    simp only [GetSplitterWidth]
    refine ⟨?_, trivial, ?_, ?_, trivial, trivial, trivial⟩
    · field_simp
    · ring
    · ring
  · intro hlv
    obtain ⟨h1, h2, h3, h4⟩ := heven hlv
    have hlv' : ¬ n.GetLevel % 2 = 1 := by omega
    rw [if_neg hlv'] at hsize
    rw [h1, h2, h3, h4]
    simp only [GetSplitterWidth]
    refine ⟨?_, trivial, ?_, ?_, trivial, trivial, trivial⟩
    · field_simp
    · ring
    · ring

/-- Witness of C2: the example root laid out over a 1280 x 720 viewport. -/
theorem resize_preserves_ratio_and_tiles_witness :
    ∃ n' a' b', exampleRoot.ResizeNodeAndChildren ⟨0, 0⟩ ⟨1280, 720⟩ = some n' ∧
      n'.GetLeftChild = some a' ∧ n'.GetRightChild = some b' ∧
      a'.GetDomainSize.x / 1280 = 4 / 5 ∧
      a'.GetDomainSize.x + 2 + b'.GetDomainSize.x = 1280 := by
  obtain ⟨n', a', b', h, hl, hr, hodd, -⟩ :=
    resize_preserves_ratio_and_tiles exampleRoot (exampleWindow 2 (some 1))
      (exampleWindow 2 none) ⟨0, 0⟩ ⟨1280, 720⟩ rfl rfl rfl rfl rfl
      (by norm_num [exampleRoot, GetLevel])
  obtain ⟨h1, -, -, h4, -⟩ := hodd rfl
  exact ⟨n', a', b', h, hl, hr, h1, h4⟩

/-- C3: `ResizeNodeAndChildren` on a well-formed tree returns a tree that differs from the
given one in domains only: at every pointer the two trees both have a node or both have none,
and the two nodes agree on level, ratio, kind (logical domain or window), window callback
and on which children they have. -/
theorem resize_changes_domains_only (n : CustomLayoutNode) (pos size : ImVec2)
    (hwf : n.WellFormed = true) :
    ∃ n', n.ResizeNodeAndChildren pos size = some n' ∧
      n'.clearDomains = n.clearDomains ∧
      ∀ ptr : NodePtr,
        (n.nodeAt ptr = none → n'.nodeAt ptr = none) ∧
        (∀ m, n.nodeAt ptr = some m →
          ∃ m', n'.nodeAt ptr = some m' ∧
            m'.splitterRatio = m.splitterRatio ∧ m'.GetLevel = m.GetLevel ∧
            m'.IsLogicalDomain = m.IsLogicalDomain ∧
            m'.customWindowFunc = m.customWindowFunc ∧
            m'.GetLeftChild.isSome = m.GetLeftChild.isSome ∧
            m'.GetRightChild.isSome = m.GetRightChild.isSome) := by
  obtain ⟨n', h⟩ := resize_isSome_of_wellFormed n pos size hwf
  have hc := clearDomains_resize n pos size n' h
  refine ⟨n', h, hc, fun ptr => ?_⟩
  have hptr : (n'.nodeAt ptr).map clearDomains = (n.nodeAt ptr).map clearDomains := by
    rw [← nodeAt_clearDomains, ← nodeAt_clearDomains, hc]
  constructor
  · intro hnone
    rw [hnone] at hptr
    simpa using hptr
  · intro m hm
    rw [hm] at hptr
    cases hm' : n'.nodeAt ptr with
    | none => rw [hm'] at hptr; simp at hptr
    | some m' =>
      rw [hm'] at hptr
      simp only [Option.map_some', Option.some.injEq] at hptr
      obtain ⟨h1, h2, h3, h4, h5, h6⟩ := fields_of_clearDomains_eq m m' hptr
      exact ⟨m', rfl, h2, h1, h3, h4, h5, h6⟩

/-- Witness of C3: the example root keeps its ratio `4/5` when laid out. -/
theorem resize_changes_domains_only_witness :
    ∃ n', exampleRoot.ResizeNodeAndChildren ⟨0, 0⟩ ⟨1280, 720⟩ = some n' ∧
      n'.clearDomains = exampleRoot.clearDomains ∧
      ∃ m', n'.nodeAt [] = some m' ∧ m'.splitterRatio = 4 / 5 := by
  obtain ⟨n', h, hc, hptr⟩ :=
    resize_changes_domains_only exampleRoot ⟨0, 0⟩ ⟨1280, 720⟩ rfl
  obtain ⟨m', hm', hr, -⟩ := (hptr []).2 exampleRoot rfl
  exact ⟨n', h, hc, m', hm', hr⟩

namespace CustomLayoutNode

theorem hover_leaf (l r : Option CustomLayoutNode) (lv : Nat) (p s : ImVec2) (ratio : ℚ)
    (f : Option CustomWindowFunc) (mouse : ImVec2) :
    (mk l r lv p s ratio f false).GetHoverSplitter mouse = some none := by
  unfold GetHoverSplitter; simp

theorem hover_self (l r : Option CustomLayoutNode) (lv : Nat) (p s : ImVec2) (ratio : ℚ)
    (f : Option CustomWindowFunc) (mouse : ImVec2)
    (hband : IsMouseHoveringRect mouse (mk l r lv p s ratio f true).splitterMin
      (mk l r lv p s ratio f true).splitterMax = true) :
    (mk l r lv p s ratio f true).GetHoverSplitter mouse = some (some []) := by
  unfold GetHoverSplitter; simp [hband]

theorem hover_left (l r : Option CustomLayoutNode) (lv : Nat) (p s : ImVec2) (ratio : ℚ)
    (f : Option CustomWindowFunc) (mouse : ImVec2)
    (hband : IsMouseHoveringRect mouse (mk l r lv p s ratio f true).splitterMin
      (mk l r lv p s ratio f true).splitterMax = false)
    (hleft : IsMouseHoveringRect mouse p (mk l r lv p s ratio f true).leftRegionMax = true) :
    (mk l r lv p s ratio f true).GetHoverSplitter mouse =
      l.bind (fun a => (a.GetHoverSplitter mouse).map (Option.map (List.cons ChildLink.pLeft))) := by
  cases l <;> rw [GetHoverSplitter.eq_def] <;> simp [hband, hleft]

theorem hover_right (l r : Option CustomLayoutNode) (lv : Nat) (p s : ImVec2) (ratio : ℚ)
    (f : Option CustomWindowFunc) (mouse : ImVec2)
    (hband : IsMouseHoveringRect mouse (mk l r lv p s ratio f true).splitterMin
      (mk l r lv p s ratio f true).splitterMax = false)
    (hleft : IsMouseHoveringRect mouse p (mk l r lv p s ratio f true).leftRegionMax = false) :
    (mk l r lv p s ratio f true).GetHoverSplitter mouse =
      r.bind (fun b => (b.GetHoverSplitter mouse).map (Option.map (List.cons ChildLink.pRight))) := by
  cases r <;> rw [GetHoverSplitter.eq_def] <;> simp [hband, hleft]

/-- A node returned by `GetHoverSplitter` is a logical domain of the tree whose own band
holds the mouse. -/
theorem hover_sound (n : CustomLayoutNode) (mouse : ImVec2) :
    ∀ ptr : NodePtr, n.GetHoverSplitter mouse = some (some ptr) →
      ∃ m, n.nodeAt ptr = some m ∧ m.IsLogicalDomain = true ∧
        IsMouseHoveringRect mouse m.splitterMin m.splitterMax = true := by
  induction n using node_induction with
  | step l r lv p s ratio f isLogical iha ihb =>
    intro ptr h
    cases isLogical with
    | false => rw [hover_leaf] at h; cases h
    | true =>
      cases hband : IsMouseHoveringRect mouse (mk l r lv p s ratio f true).splitterMin
          (mk l r lv p s ratio f true).splitterMax with
      | true =>
        rw [hover_self _ _ _ _ _ _ _ _ hband] at h
        cases h
        exact ⟨_, nodeAt_nil _, rfl, hband⟩
      | false =>
        cases hleft : IsMouseHoveringRect mouse p (mk l r lv p s ratio f true).leftRegionMax with
        | true =>
          rw [hover_left _ _ _ _ _ _ _ _ hband hleft] at h
          cases l with
          | none => cases h
          | some a =>
            simp only [Option.some_bind, Option.map_eq_some'] at h
            obtain ⟨res, hres, h⟩ := h
            obtain ⟨rest, rfl, rfl⟩ := h
            obtain ⟨m, hm, hlog, hb⟩ := iha a rfl rest hres
            exact ⟨m, by rw [nodeAt_pLeft]; exact hm, hlog, hb⟩
        | false =>
          rw [hover_right _ _ _ _ _ _ _ _ hband hleft] at h
          cases r with
          | none => cases h
          | some b =>
            simp only [Option.some_bind, Option.map_eq_some'] at h
            obtain ⟨res, hres, h⟩ := h
            obtain ⟨rest, rfl, rfl⟩ := h
            obtain ⟨m, hm, hlog, hb⟩ := ihb b rfl rest hres
            exact ⟨m, by rw [nodeAt_pRight]; exact hm, hlog, hb⟩

end CustomLayoutNode

open CustomLayoutNode

/-- C4: whenever `GetHoverSplitter` returns a node, that node is a logical domain (split node)
of the tree and the mouse is in the band that node tests itself against, the rectangle from
its `splitterMin` to its `splitterMax`; on a window node (leaf) the result is `nullptr`.  This
holds for every mouse position, so also for those strictly inside the root domain. -/
theorem hover_result_is_split_node_with_mouse_in_band (n : CustomLayoutNode) (mouse : ImVec2) :
    (∀ ptr : NodePtr, n.GetHoverSplitter mouse = some (some ptr) →
      ∃ m, n.nodeAt ptr = some m ∧ m.IsLogicalDomain = true ∧
        IsMouseHoveringRect mouse m.splitterMin m.splitterMax = true) ∧
    (n.IsLogicalDomain = false → n.GetHoverSplitter mouse = some none) := by
  refine ⟨hover_sound n mouse, ?_⟩
  obtain ⟨l, r, lv, p, s, ratio, f, isLogical⟩ := n
  intro h
  simp only [IsLogicalDomain] at h
  subst h
  exact hover_leaf l r lv p s ratio f mouse

/-- Witness of C4: on the laid out example root the mouse at (1023, 100) is over the root
splitter. -/
theorem hover_result_is_split_node_with_mouse_in_band_witness :
    exampleRootLaidOut.GetHoverSplitter ⟨1023, 100⟩ = some (some []) ∧
    ∃ m, exampleRootLaidOut.nodeAt [] = some m ∧ m.IsLogicalDomain = true ∧
      IsMouseHoveringRect ⟨1023, 100⟩ m.splitterMin m.splitterMax = true := by
  have h : exampleRootLaidOut.GetHoverSplitter ⟨1023, 100⟩ = some (some []) := by
    apply hover_self
    norm_num [IsMouseHoveringRect, splitterMin, splitterMax, SplitterWidthPadding, GetLevel,
      GetDomainPos, GetDomainSize, splitterRatio, GetSplitterWidth]
  exact ⟨h, (hover_result_is_split_node_with_mouse_in_band exampleRootLaidOut
    ⟨1023, 100⟩).1 [] h⟩

/-- C5 as stated fails: on the laid out example root the splitter starts at `s = 1024`; the
mouse at (1027, 100) has its x in `[s - 2, s + 2 + 2]` and its y in the domain extent, yet
`GetHoverSplitter` does not return the root: it returns `nullptr`. -/
theorem hover_band_upper_padding_counterexample :
    exampleRootLaidOut.IsLogicalDomain = true ∧
    exampleRootLaidOut.GetSplitterStartCoord = 1024 ∧
    ((1024 : ℚ) - 2 ≤ 1027 ∧ (1027 : ℚ) ≤ 1024 + 2 + 2) ∧
    (exampleRootLaidOut.GetDomainPos.y ≤ 100 ∧
      (100 : ℚ) ≤ exampleRootLaidOut.GetDomainPos.y + exampleRootLaidOut.GetDomainSize.y) ∧
    exampleRootLaidOut.GetHoverSplitter ⟨1027, 100⟩ = some none ∧
    exampleRootLaidOut.GetHoverSplitter ⟨1027, 100⟩ ≠ some (some []) := by
  have h : exampleRootLaidOut.GetHoverSplitter ⟨1027, 100⟩ = some none := by
    unfold exampleRootLaidOut
    rw [hover_right]
    · simp [hover_leaf]
    · norm_num [IsMouseHoveringRect, splitterMin, splitterMax, SplitterWidthPadding, GetLevel,
        GetDomainPos, GetDomainSize, splitterRatio, GetSplitterWidth]
    · norm_num [IsMouseHoveringRect, leftRegionMax, splitterMin, splitterMax,
        SplitterWidthPadding, GetLevel, GetDomainPos, GetDomainSize, splitterRatio,
        GetSplitterWidth]
  refine ⟨rfl, ?_, by norm_num, ?_, h, by rw [h]; simp⟩
  · norm_num [exampleRootLaidOut, GetSplitterStartCoord, GetLevel, GetDomainPos, GetDomainSize,
      splitterRatio]
  · norm_num [exampleRootLaidOut, GetDomainPos, GetDomainSize]

/-- C5, amended: on a logical domain with splitter start coordinate `s`, width `t = 2` and
padding `p = 2`, `GetHoverSplitter` returns the node itself for every mouse position whose
coordinate along the split axis is in `[s - p, s + t]` (both ends included) and whose other
coordinate is in the extent of the domain: the padding widens the bar before it only. -/
theorem hover_returns_node_in_band (n : CustomLayoutNode) (mouse : ImVec2)
    (hsplit : n.IsLogicalDomain = true)
    (hlo : n.GetSplitterStartCoord - SplitterWidthPadding ≤ n.axisCoord mouse)
    (hhi : n.axisCoord mouse ≤ n.GetSplitterStartCoord + n.GetSplitterWidth)
    (hclo : n.crossCoord n.GetDomainPos ≤ n.crossCoord mouse)
    (hchi : n.crossCoord mouse ≤ n.crossCoord n.GetDomainPos + n.crossCoord n.GetDomainSize) :
    n.GetHoverSplitter mouse = some (some []) := by
  obtain ⟨l, r, lv, p, s, ratio, f, isLogical⟩ := n
  simp only [IsLogicalDomain] at hsplit
  subst hsplit
  apply hover_self
  by_cases hlv : lv % 2 = 1
  · simp only [GetSplitterStartCoord, axisCoord, crossCoord, GetLevel, GetDomainPos,
      GetDomainSize, splitterRatio, GetSplitterWidth, SplitterWidthPadding, hlv, if_true]
      at hlo hhi hclo hchi
    simp only [IsMouseHoveringRect, splitterMin, splitterMax, GetLevel, GetDomainPos,
      GetDomainSize, splitterRatio, GetSplitterWidth, SplitterWidthPadding, hlv, if_true,
      decide_eq_true_eq]
    refine ⟨hlo, hclo, ?_, hchi⟩
    linarith
  · simp only [GetSplitterStartCoord, axisCoord, crossCoord, GetLevel, GetDomainPos,
      GetDomainSize, splitterRatio, GetSplitterWidth, SplitterWidthPadding, hlv, if_false]
      at hlo hhi hclo hchi
    simp only [IsMouseHoveringRect, splitterMin, splitterMax, GetLevel, GetDomainPos,
      GetDomainSize, splitterRatio, GetSplitterWidth, SplitterWidthPadding, hlv, if_false,
      decide_eq_true_eq]
    refine ⟨hclo, hlo, hchi, ?_⟩
    linarith

/-- Witness of C5, amended: the mouse at (1025, 100), inside the bar of the root splitter of
the laid out example root, is over that splitter. -/
theorem hover_returns_node_in_band_witness :
    exampleRootLaidOut.GetHoverSplitter ⟨1025, 100⟩ = some (some []) :=
  hover_returns_node_in_band exampleRootLaidOut ⟨1025, 100⟩ rfl
    (by norm_num [exampleRootLaidOut, GetSplitterStartCoord, axisCoord, GetLevel, GetDomainPos,
      GetDomainSize, splitterRatio, SplitterWidthPadding])
    (by norm_num [exampleRootLaidOut, GetSplitterStartCoord, axisCoord, GetLevel, GetDomainPos,
      GetDomainSize, splitterRatio, GetSplitterWidth])
    (by norm_num [exampleRootLaidOut, crossCoord, GetLevel, GetDomainPos])
    (by norm_num [exampleRootLaidOut, crossCoord, GetLevel, GetDomainPos, GetDomainSize])

/-- C6: on a logical domain, for a mouse position inside the domain of the node and outside
its band, `GetHoverSplitter` returns the result of the first child when the coordinate of
the mouse along the split axis is before the splitter start coordinate, and the result of the
second child otherwise.  The other child pointer is arbitrary (it may even be null): it is
not looked at.  The node returned, if any, is therefore in the subtree of the chosen child. -/
theorem hover_descends_into_one_child (l r : Option CustomLayoutNode) (lv : Nat)
    (p s : ImVec2) (ratio : ℚ) (f : Option CustomWindowFunc) (mouse : ImVec2)
    (hdom : IsMouseHoveringRect mouse p (mk l r lv p s ratio f true).domainMax = true)
    (hband : IsMouseHoveringRect mouse (mk l r lv p s ratio f true).splitterMin
      (mk l r lv p s ratio f true).splitterMax = false) :
    (∀ a, l = some a →
      (mk l r lv p s ratio f true).axisCoord mouse <
        (mk l r lv p s ratio f true).GetSplitterStartCoord →
      (mk l r lv p s ratio f true).GetHoverSplitter mouse =
          (a.GetHoverSplitter mouse).map (Option.map (List.cons ChildLink.pLeft)) ∧
        ∀ ptr, (mk l r lv p s ratio f true).GetHoverSplitter mouse = some (some ptr) →
          ∃ rest, ptr = ChildLink.pLeft :: rest ∧ a.GetHoverSplitter mouse = some (some rest)) ∧
    (∀ b, r = some b →
      ¬ (mk l r lv p s ratio f true).axisCoord mouse <
        (mk l r lv p s ratio f true).GetSplitterStartCoord →
      (mk l r lv p s ratio f true).GetHoverSplitter mouse =
          (b.GetHoverSplitter mouse).map (Option.map (List.cons ChildLink.pRight)) ∧
        ∀ ptr, (mk l r lv p s ratio f true).GetHoverSplitter mouse = some (some ptr) →
          ∃ rest, ptr = ChildLink.pRight :: rest ∧
            b.GetHoverSplitter mouse = some (some rest)) := by
  have key : ∀ (c : ChildLink) (x : CustomLayoutNode) (ptr : NodePtr),
      (x.GetHoverSplitter mouse).map (Option.map (List.cons c)) = some (some ptr) →
      ∃ rest, ptr = c :: rest ∧ x.GetHoverSplitter mouse = some (some rest) := by
    intro c x ptr h
    simp only [Option.map_eq_some'] at h
    obtain ⟨res, hres, rest, rfl, rfl⟩ := h
    exact ⟨rest, rfl, hres⟩
  constructor
  · intro a hl hlt
    subst hl
    have hleft : IsMouseHoveringRect mouse p
        (mk (some a) r lv p s ratio f true).leftRegionMax = true := by
      by_cases hlv : lv % 2 = 1
      · simp only [IsMouseHoveringRect, splitterMin, splitterMax, leftRegionMax, domainMax,
          axisCoord, GetSplitterStartCoord, GetLevel, GetDomainPos, GetDomainSize, splitterRatio,
          GetSplitterWidth, SplitterWidthPadding, hlv, if_true, decide_eq_true_eq,
          decide_eq_false_iff_not] at hdom hband hlt ⊢
        refine ⟨hdom.1, hdom.2.1, ?_, hdom.2.2.2⟩
        by_contra hc
        exact hband ⟨by linarith, hdom.2.1, by linarith, hdom.2.2.2⟩
      · simp only [IsMouseHoveringRect, splitterMin, splitterMax, leftRegionMax, domainMax,
          axisCoord, GetSplitterStartCoord, GetLevel, GetDomainPos, GetDomainSize, splitterRatio,
          GetSplitterWidth, SplitterWidthPadding, hlv, if_false, decide_eq_true_eq,
          decide_eq_false_iff_not] at hdom hband hlt ⊢
        refine ⟨hdom.1, hdom.2.1, hdom.2.2.1, ?_⟩
        by_contra hc
        exact hband ⟨hdom.1, by linarith, hdom.2.2.1, by linarith⟩
    have heq := hover_left (some a) r lv p s ratio f mouse hband hleft
    simp only [Option.some_bind] at heq
    exact ⟨heq, fun ptr h => key ChildLink.pLeft a ptr (heq ▸ h)⟩
  · intro b hr hge
    subst hr
    have hleft : IsMouseHoveringRect mouse p
        (mk l (some b) lv p s ratio f true).leftRegionMax = false := by
      by_cases hlv : lv % 2 = 1
      · simp only [IsMouseHoveringRect, splitterMin, splitterMax, leftRegionMax, domainMax,
          axisCoord, GetSplitterStartCoord, GetLevel, GetDomainPos, GetDomainSize, splitterRatio,
          GetSplitterWidth, SplitterWidthPadding, hlv, if_true, decide_eq_true_eq,
          decide_eq_false_iff_not] at hdom hband hge ⊢
        intro hc
        linarith [hc.2.2.1]
      · simp only [IsMouseHoveringRect, splitterMin, splitterMax, leftRegionMax, domainMax,
          axisCoord, GetSplitterStartCoord, GetLevel, GetDomainPos, GetDomainSize, splitterRatio,
          GetSplitterWidth, SplitterWidthPadding, hlv, if_false, decide_eq_true_eq,
          decide_eq_false_iff_not] at hdom hband hge ⊢
        intro hc
        linarith [hc.2.2.2]
    have heq := hover_right l (some b) lv p s ratio f mouse hband hleft
    simp only [Option.some_bind] at heq
    exact ⟨heq, fun ptr h => key ChildLink.pRight b ptr (heq ▸ h)⟩

/-- Witness of C6: on the laid out example root the mouse at (974, 100), 50 units before the
splitter, gets the result of the first child. -/
theorem hover_descends_into_one_child_witness :
    exampleRootLaidOut.GetHoverSplitter ⟨974, 100⟩ =
      ((mk none none 2 ⟨0, 0⟩ ⟨1024, 720⟩ 0 (some 1) false).GetHoverSplitter ⟨974, 100⟩).map
        (Option.map (List.cons ChildLink.pLeft)) :=
  ((hover_descends_into_one_child
    (some (mk none none 2 ⟨0, 0⟩ ⟨1024, 720⟩ 0 (some 1) false))
    (some (mk none none 2 ⟨1026, 0⟩ ⟨254, 720⟩ 0 none false))
    1 ⟨0, 0⟩ ⟨1280, 720⟩ (4 / 5) none ⟨974, 100⟩
    (by norm_num [IsMouseHoveringRect, domainMax, GetDomainPos, GetDomainSize])
    (by norm_num [IsMouseHoveringRect, splitterMin, splitterMax, SplitterWidthPadding, GetLevel,
      GetDomainPos, GetDomainSize, splitterRatio, GetSplitterWidth])).1
    (mk none none 2 ⟨0, 0⟩ ⟨1024, 720⟩ 0 (some 1) false) rfl
    (by norm_num [axisCoord, GetSplitterStartCoord, GetLevel, GetDomainPos, GetDomainSize,
      splitterRatio])).1

namespace CustomLayoutNode

theorem beginEnd_window (l r : Option CustomLayoutNode) (lv : Nat) (p s : ImVec2) (ratio : ℚ)
    (f : Option CustomWindowFunc) :
    (mk l r lv p s ratio f false).BeginEndNodeAndChildren =
      windowCalls (mk l r lv p s ratio f false) := by
  rw [BeginEndNodeAndChildren.eq_def]
  cases f <;> simp [windowCalls, GetDomainPos, GetDomainSize, customWindowFunc]

theorem beginEnd_logical (l r : Option CustomLayoutNode) (lv : Nat) (p s : ImVec2) (ratio : ℚ)
    (f : Option CustomWindowFunc) :
    (mk l r lv p s ratio f true).BeginEndNodeAndChildren =
      (l.elim [] BeginEndNodeAndChildren) ++ (r.elim [] BeginEndNodeAndChildren) := by
  rw [BeginEndNodeAndChildren.eq_def]
  cases l <;> cases r <;> simp

theorem windows_window (l r : Option CustomLayoutNode) (lv : Nat) (p s : ImVec2) (ratio : ℚ)
    (f : Option CustomWindowFunc) :
    (mk l r lv p s ratio f false).windows = [mk l r lv p s ratio f false] := by
  rw [windows.eq_def]
  simp

theorem windows_logical (l r : Option CustomLayoutNode) (lv : Nat) (p s : ImVec2) (ratio : ℚ)
    (f : Option CustomWindowFunc) :
    (mk l r lv p s ratio f true).windows = (l.elim [] windows) ++ (r.elim [] windows) := by
  rw [windows.eq_def]
  cases l <;> cases r <;> simp

theorem beginEnd_eq_windows (n : CustomLayoutNode) :
    n.BeginEndNodeAndChildren = (windows n).flatMap windowCalls := by
  induction n using node_induction with
  | step l r lv p s ratio f isLogical iha ihb =>
    cases isLogical with
    | false => rw [beginEnd_window, windows_window]; simp
    | true =>
      rw [beginEnd_logical, windows_logical, List.flatMap_append]
      cases l with
      | none =>
        cases r with
        | none => simp
        | some b => simp [ihb b rfl]
      | some a =>
        cases r with
        | none => simp [iha a rfl]
        | some b => simp [iha a rfl, ihb b rfl]

end CustomLayoutNode

namespace CustomLayoutNode

theorem wellFormed_mk (l r : Option CustomLayoutNode) (lv : Nat) (p s : ImVec2) (ratio : ℚ)
    (f : Option CustomWindowFunc) (isLogical : Bool) :
    (mk l r lv p s ratio f isLogical).WellFormed =
      (!isLogical || ((l.elim false WellFormed) && (r.elim false WellFormed))) := by
  rw [WellFormed.eq_def]
  cases isLogical <;> cases l <;> cases r <;> simp

theorem wellFormed_clearDomains (n : CustomLayoutNode) :
    n.clearDomains.WellFormed = n.WellFormed := by
  induction n using node_induction with
  | step l r lv p s ratio f isLogical iha ihb =>
    rw [clearDomains_mk, wellFormed_mk, wellFormed_mk]
    cases l with
    | none => simp
    | some a =>
      cases r with
      | none => simp
      | some b => simp [iha a rfl, ihb b rfl]

theorem wellFormed_of_clearDomains_eq (n n' : CustomLayoutNode)
    (h : n'.clearDomains = n.clearDomains) : n'.WellFormed = n.WellFormed := by
  rw [← wellFormed_clearDomains n', ← wellFormed_clearDomains n, h]

theorem wellFormed_resize (n n' : CustomLayoutNode) (p s : ImVec2)
    (h : n.ResizeNodeAndChildren p s = some n') : n'.WellFormed = n.WellFormed :=
  wellFormed_of_clearDomains_eq n n' (clearDomains_resize n p s n' h)

theorem wellFormed_setSplitterRatio (n : CustomLayoutNode) (ratio : ℚ) :
    (n.SetSplitterRatio ratio).WellFormed = n.WellFormed := by
  obtain ⟨l, r, lv, p, s, ratio0, f, isLogical⟩ := n
  simp only [SetSplitterRatio, wellFormed_mk]

theorem hover_isSome_of_wellFormed (n : CustomLayoutNode) (mouse : ImVec2) :
    n.WellFormed = true → ∃ res, n.GetHoverSplitter mouse = some res := by
  induction n using node_induction with
  | step l r lv p s ratio f isLogical iha ihb =>
    intro h
    cases isLogical with
    | false => exact ⟨_, hover_leaf l r lv p s ratio f mouse⟩
    | true =>
      obtain ⟨a, b, rfl, rfl, ha, hb⟩ := wellFormed_children l r lv p s ratio f h
      cases hband : IsMouseHoveringRect mouse (mk (some a) (some b) lv p s ratio f true).splitterMin
          (mk (some a) (some b) lv p s ratio f true).splitterMax with
      | true => exact ⟨_, hover_self _ _ _ _ _ _ _ _ hband⟩
      | false =>
        cases hleft : IsMouseHoveringRect mouse p
            (mk (some a) (some b) lv p s ratio f true).leftRegionMax with
        | true =>
          obtain ⟨res, hres⟩ := iha a rfl ha
          exact ⟨_, by rw [hover_left _ _ _ _ _ _ _ _ hband hleft, Option.some_bind, hres]; rfl⟩
        | false =>
          obtain ⟨res, hres⟩ := ihb b rfl hb
          exact ⟨_, by rw [hover_right _ _ _ _ _ _ _ _ hband hleft, Option.some_bind, hres]; rfl⟩

theorem writeAt_nil (n new : CustomLayoutNode) : n.writeAt [] new = some new := by
  cases n; rfl

theorem writeAt_pLeft (l r : Option CustomLayoutNode) (lv : Nat) (p s : ImVec2) (ratio : ℚ)
    (f : Option CustomWindowFunc) (isLogical : Bool) (rest : NodePtr) (new : CustomLayoutNode) :
    (mk l r lv p s ratio f isLogical).writeAt (ChildLink.pLeft :: rest) new =
      l.bind (fun a => (a.writeAt rest new).map
        (fun a' => mk (some a') r lv p s ratio f isLogical)) := by
  cases l with
  | none => rfl
  | some a => rw [writeAt, Option.some_bind]; cases a.writeAt rest new <;> rfl

theorem writeAt_pRight (l r : Option CustomLayoutNode) (lv : Nat) (p s : ImVec2) (ratio : ℚ)
    (f : Option CustomWindowFunc) (isLogical : Bool) (rest : NodePtr) (new : CustomLayoutNode) :
    (mk l r lv p s ratio f isLogical).writeAt (ChildLink.pRight :: rest) new =
      r.bind (fun b => (b.writeAt rest new).map
        (fun b' => mk l (some b') lv p s ratio f isLogical)) := by
  cases r with
  | none => rfl
  | some b => rw [writeAt, Option.some_bind]; cases b.writeAt rest new <;> rfl

/-- Writing through a pointer that designates a node succeeds, and the pointer then
designates the state written. -/
theorem writeAt_isSome (n : CustomLayoutNode) (new : CustomLayoutNode) :
    ∀ (ptr : NodePtr) (old : CustomLayoutNode), n.nodeAt ptr = some old →
      ∃ n', n.writeAt ptr new = some n' ∧ n'.nodeAt ptr = some new := by
  induction n using node_induction with
  | step l r lv p s ratio f isLogical iha ihb =>
    intro ptr old h
    cases ptr with
    | nil => exact ⟨new, writeAt_nil _ _, nodeAt_nil _⟩
    | cons c rest =>
      cases c with
      | pLeft =>
        rw [nodeAt_pLeft] at h
        cases l with
        | none => cases h
        | some a =>
          obtain ⟨a', ha', hn⟩ := iha a rfl rest old h
          exact ⟨mk (some a') r lv p s ratio f isLogical,
            by rw [writeAt_pLeft, Option.some_bind, ha']; rfl,
            by rw [nodeAt_pLeft]; exact hn⟩
      | pRight =>
        rw [nodeAt_pRight] at h
        cases r with
        | none => cases h
        | some b =>
          obtain ⟨b', hb', hn⟩ := ihb b rfl rest old h
          exact ⟨mk l (some b') lv p s ratio f isLogical,
            by rw [writeAt_pRight, Option.some_bind, hb']; rfl,
            by rw [nodeAt_pRight]; exact hn⟩

/-- Writing a state with the domain of the node it replaces leaves the domain of the root of
the tree as it was. -/
theorem writeAt_domain (n new n' : CustomLayoutNode) (ptr : NodePtr) (old : CustomLayoutNode)
    (hold : n.nodeAt ptr = some old) (hw : n.writeAt ptr new = some n')
    (hp : new.GetDomainPos = old.GetDomainPos) (hs : new.GetDomainSize = old.GetDomainSize) :
    n'.GetDomainPos = n.GetDomainPos ∧ n'.GetDomainSize = n.GetDomainSize := by
  obtain ⟨l, r, lv, p, s, ratio, f, isLogical⟩ := n
  cases ptr with
  | nil =>
    rw [nodeAt_nil] at hold
    rw [writeAt_nil] at hw
    cases hold
    cases hw
    exact ⟨hp, hs⟩
  | cons c rest =>
    cases c with
    | pLeft =>
      rw [writeAt_pLeft] at hw
      simp only [Option.bind_eq_some, Option.map_eq_some'] at hw
      obtain ⟨a, -, a', -, rfl⟩ := hw
      exact ⟨rfl, rfl⟩
    | pRight =>
      rw [writeAt_pRight] at hw
      simp only [Option.bind_eq_some, Option.map_eq_some'] at hw
      obtain ⟨b, -, b', -, rfl⟩ := hw
      exact ⟨rfl, rfl⟩

theorem nodeAt_of_clearDomains_eq (n n' : CustomLayoutNode)
    (h : n'.clearDomains = n.clearDomains) (ptr : NodePtr) (m : CustomLayoutNode)
    (hm : n.nodeAt ptr = some m) :
    ∃ m', n'.nodeAt ptr = some m' ∧ m'.clearDomains = m.clearDomains := by
  have hptr : (n'.nodeAt ptr).map clearDomains = (n.nodeAt ptr).map clearDomains := by
    rw [← nodeAt_clearDomains, ← nodeAt_clearDomains, h]
  rw [hm] at hptr
  cases hm' : n'.nodeAt ptr with
  | none => rw [hm'] at hptr; simp at hptr
  | some m' =>
    rw [hm'] at hptr
    simp only [Option.map_some', Option.some.injEq] at hptr
    exact ⟨m', rfl, hptr⟩

end CustomLayoutNode

namespace CustomLayout

theorem valid_iff (self : CustomLayout) :
    self.Valid = true ↔
      ∃ root, self.m_pRoot = some root ∧ root.WellFormed = true ∧
        (self.m_splitterHeld = true →
          ∃ pHeld held, self.m_pHeldSplitterDomain = some pHeld ∧
            root.nodeAt pHeld = some held ∧ held.WellFormed = true) := by
  unfold Valid
  cases hroot : self.m_pRoot with
  | none => simp
  | some root =>
    cases hheld : self.m_splitterHeld with
    | false => simp
    | true =>
      cases hptr : self.m_pHeldSplitterDomain with
      | none => simp
      | some pHeld =>
        cases hnode : root.nodeAt pHeld with
        | none => simp [hnode]
        | some held => simp [hnode]

theorem viewportResize_same (self : CustomLayout) (io : ImGuiFrame)
    (h : ¬ (io.WorkSize.x ≠ self.m_lastViewport.x ∨ io.WorkSize.y ≠ self.m_lastViewport.y)) :
    self.viewportResize io = some self.m_pRoot := by
  unfold viewportResize
  rw [if_neg h]

theorem viewportResize_differs (self : CustomLayout) (io : ImGuiFrame)
    (root root1 : CustomLayoutNode) (hroot : self.m_pRoot = some root)
    (h : io.WorkSize.x ≠ self.m_lastViewport.x ∨ io.WorkSize.y ≠ self.m_lastViewport.y)
    (hres : root.ResizeNodeAndChildren io.WorkPos io.WorkSize = some root1) :
    self.viewportResize io = some (some root1) := by
  unfold viewportResize
  rw [if_pos h, hroot]
  simp only [hres]

/-- On a well-formed root the viewport part returns a root with the same nodes: the root
itself when the size is the recorded one, the resized root otherwise. -/
theorem viewportResize_spec (self : CustomLayout) (io : ImGuiFrame) (root : CustomLayoutNode)
    (hroot : self.m_pRoot = some root) (hwf : root.WellFormed = true) :
    ∃ root1, self.viewportResize io = some (some root1) ∧
      root1.clearDomains = root.clearDomains ∧
      ((io.WorkSize.x ≠ self.m_lastViewport.x ∨ io.WorkSize.y ≠ self.m_lastViewport.y) →
        root.ResizeNodeAndChildren io.WorkPos io.WorkSize = some root1) ∧
      (¬ (io.WorkSize.x ≠ self.m_lastViewport.x ∨ io.WorkSize.y ≠ self.m_lastViewport.y) →
        root1 = root) := by
  by_cases h : io.WorkSize.x ≠ self.m_lastViewport.x ∨ io.WorkSize.y ≠ self.m_lastViewport.y
  · obtain ⟨root1, hres⟩ := resize_isSome_of_wellFormed root io.WorkPos io.WorkSize hwf
    exact ⟨root1, viewportResize_differs self io root root1 hroot h hres,
      clearDomains_resize root _ _ root1 hres, fun _ => hres, fun hn => absurd h hn⟩
  · exact ⟨root, by rw [viewportResize_same self io h, hroot], rfl, fun hp => absurd hp h,
      fun _ => rfl⟩

theorem beginEndLayout_of_parts (self : CustomLayout) (io : ImGuiFrame)
    (pRoot : Option CustomLayoutNode) (layout : CustomLayout) (calls : List ImGuiCall)
    (hv : self.viewportResize io = some pRoot)
    (hm : mouseInteractions { self with m_pRoot := pRoot } io = some (layout, calls)) :
    self.BeginEndLayout io =
      some ({ layout with m_lastViewport := io.WorkSize },
        calls ++ (layout.m_pRoot.elim [] BeginEndNodeAndChildren)) := by
  unfold BeginEndLayout
  rw [hv]
  simp only [hm]
  cases layout.m_pRoot <;> rfl

theorem mouse_idle_nohit (self : CustomLayout) (io : ImGuiFrame) (root : CustomLayoutNode)
    (hheld : self.m_splitterHeld = false) (hroot : self.m_pRoot = some root)
    (hhover : root.GetHoverSplitter io.MousePos = some none) :
    mouseInteractions self io = some (self, []) := by
  unfold mouseInteractions
  simp only [hheld, hroot, hhover, if_true]

theorem mouse_idle_hit (self : CustomLayout) (io : ImGuiFrame) (root : CustomLayoutNode)
    (ptr : NodePtr) (m : CustomLayoutNode)
    (hheld : self.m_splitterHeld = false) (hroot : self.m_pRoot = some root)
    (hhover : root.GetHoverSplitter io.MousePos = some (some ptr))
    (hm : root.nodeAt ptr = some m) (hclick : io.MouseClicked = false) :
    mouseInteractions self io = some (self, [ImGuiCall.SetMouseCursor (splitterCursor m)]) := by
  unfold mouseInteractions
  simp [hheld, hroot, hhover, hm, hclick]

theorem mouse_idle_click (self : CustomLayout) (io : ImGuiFrame) (root : CustomLayoutNode)
    (ptr : NodePtr) (m : CustomLayoutNode)
    (hheld : self.m_splitterHeld = false) (hroot : self.m_pRoot = some root)
    (hhover : root.GetHoverSplitter io.MousePos = some (some ptr))
    (hm : root.nodeAt ptr = some m) (hclick : io.MouseClicked = true) :
    mouseInteractions self io =
      some ({ self with
              m_splitterHeld := true
              m_splitterBottonDownDelta := bottonDownDelta m io.MousePos
              m_pHeldSplitterDomain := some ptr },
            [ImGuiCall.SetMouseCursor (splitterCursor m)]) := by
  unfold mouseInteractions
  simp [hheld, hroot, hhover, hm, hclick]

theorem mouse_drag_down (self : CustomLayout) (io : ImGuiFrame) (root : CustomLayoutNode)
    (ptr : NodePtr) (held held' root' : CustomLayoutNode)
    (hheld : self.m_splitterHeld = true) (hroot : self.m_pRoot = some root)
    (hdown : io.MouseDown = true) (hptr : self.m_pHeldSplitterDomain = some ptr)
    (hnode : root.nodeAt ptr = some held)
    (hres : (held.SetSplitterRatio
      (newSplitterRatio held self.m_splitterBottonDownDelta io.MousePos)).ResizeNodeAndChildren
        held.GetDomainPos held.GetDomainSize = some held')
    (hw : root.writeAt ptr held' = some root') :
    mouseInteractions self io =
      some ({ self with m_pRoot := some root' },
        [ImGuiCall.SetMouseCursor (splitterCursor held)]) := by
  unfold mouseInteractions
  simp [hheld, hroot, hdown, hptr, hnode, hres, hw]

theorem mouse_drag_up (self : CustomLayout) (io : ImGuiFrame)
    (hheld : self.m_splitterHeld = true) (hdown : io.MouseDown = false) :
    mouseInteractions self io = some ({ self with m_splitterHeld := false }, []) := by
  unfold mouseInteractions
  simp [hheld, hdown]

theorem mouse_lastViewport (self : CustomLayout) (io : ImGuiFrame) (v : ImVec2) :
    mouseInteractions { self with m_lastViewport := v } io =
      (mouseInteractions self io).map
        (fun out => ({ out.1 with m_lastViewport := v }, out.2)) := by
  obtain ⟨pRoot, splitterHeld, delta, cursor, pHeld, lastViewport⟩ := self
  unfold mouseInteractions
  cases splitterHeld with
  | true =>
    simp only [Bool.true_eq_false, if_false]
    cases io.MouseDown with
    | true =>
      simp only [if_true]
      cases pHeld with
      | none => rfl
      | some ptr =>
        cases pRoot with
        | none => rfl
        | some root =>
          dsimp only
          cases root.nodeAt ptr with
          | none => rfl
          | some held =>
            dsimp only
            cases (held.SetSplitterRatio (newSplitterRatio held delta
              io.MousePos)).ResizeNodeAndChildren held.GetDomainPos held.GetDomainSize with
            | none => rfl
            | some held' =>
              dsimp only
              cases root.writeAt ptr held' <;> rfl
    | false => rfl
  | false =>
    simp only [if_true]
    cases pRoot with
    | none => rfl
    | some root =>
      dsimp only
      cases root.GetHoverSplitter io.MousePos with
      | none => rfl
      | some res =>
        cases res with
        | none => rfl
        | some ptr =>
          dsimp only
          cases root.nodeAt ptr with
          | none => rfl
          | some m =>
            dsimp only
            cases io.MouseClicked <;> rfl

/-- What a frame does on a valid layout, by the state it starts in and the mouse: no splitter
under the mouse; a splitter under the mouse without or with a click; a held splitter with the
button down; a held splitter with the button up. -/
theorem frame_cases (self : CustomLayout) (io : ImGuiFrame) (hvalid : self.Valid = true) :
    ∃ root1, self.viewportResize io = some (some root1) ∧
      ((self.m_splitterHeld = false ∧ root1.GetHoverSplitter io.MousePos = some none ∧
          self.BeginEndLayout io =
            some ({ self with m_pRoot := some root1, m_lastViewport := io.WorkSize },
              [] ++ root1.BeginEndNodeAndChildren)) ∨
        (self.m_splitterHeld = false ∧ io.MouseClicked = false ∧
          ∃ ptr m, root1.GetHoverSplitter io.MousePos = some (some ptr) ∧
            root1.nodeAt ptr = some m ∧
            self.BeginEndLayout io =
              some ({ self with m_pRoot := some root1, m_lastViewport := io.WorkSize },
                [ImGuiCall.SetMouseCursor (splitterCursor m)] ++
                  root1.BeginEndNodeAndChildren)) ∨
        (self.m_splitterHeld = false ∧ io.MouseClicked = true ∧
          ∃ ptr m, root1.GetHoverSplitter io.MousePos = some (some ptr) ∧
            root1.nodeAt ptr = some m ∧
            self.BeginEndLayout io =
              some ({ self with
                      m_pRoot := some root1
                      m_splitterHeld := true
                      m_splitterBottonDownDelta := bottonDownDelta m io.MousePos
                      m_pHeldSplitterDomain := some ptr
                      m_lastViewport := io.WorkSize },
                [ImGuiCall.SetMouseCursor (splitterCursor m)] ++
                  root1.BeginEndNodeAndChildren)) ∨
        (self.m_splitterHeld = true ∧ io.MouseDown = true ∧
          ∃ ptr held held' root', self.m_pHeldSplitterDomain = some ptr ∧
            root1.nodeAt ptr = some held ∧
            (held.SetSplitterRatio (newSplitterRatio held self.m_splitterBottonDownDelta
              io.MousePos)).ResizeNodeAndChildren held.GetDomainPos held.GetDomainSize =
                some held' ∧
            root1.writeAt ptr held' = some root' ∧ root'.nodeAt ptr = some held' ∧
            self.BeginEndLayout io =
              some ({ self with m_pRoot := some root', m_lastViewport := io.WorkSize },
                [ImGuiCall.SetMouseCursor (splitterCursor held)] ++
                  root'.BeginEndNodeAndChildren)) ∨
        (self.m_splitterHeld = true ∧ io.MouseDown = false ∧
          self.BeginEndLayout io =
            some ({ self with
                    m_pRoot := some root1
                    m_splitterHeld := false
                    m_lastViewport := io.WorkSize },
              [] ++ root1.BeginEndNodeAndChildren))) := by
  obtain ⟨root, hroot, hwf, hheldnode⟩ := (valid_iff self).1 hvalid
  obtain ⟨root1, hv, hclear, -, -⟩ := viewportResize_spec self io root hroot hwf
  have hwf1 : root1.WellFormed = true := by
    rw [wellFormed_of_clearDomains_eq root root1 hclear]; exact hwf
  refine ⟨root1, hv, ?_⟩
  rcases Bool.eq_false_or_eq_true self.m_splitterHeld with hheld | hheld
  · rcases Bool.eq_false_or_eq_true io.MouseDown with hdown | hdown
    · obtain ⟨ptr, held, hptr, hnode, hwfh⟩ := hheldnode hheld
      obtain ⟨held1, hnode1, hclear1⟩ :=
        nodeAt_of_clearDomains_eq root root1 hclear ptr held hnode
      have hwfh1 : held1.WellFormed = true := by
        rw [wellFormed_of_clearDomains_eq held held1 hclear1]; exact hwfh
      obtain ⟨held', hres⟩ := resize_isSome_of_wellFormed
        (held1.SetSplitterRatio
          (newSplitterRatio held1 self.m_splitterBottonDownDelta io.MousePos))
        held1.GetDomainPos held1.GetDomainSize
        (by rw [wellFormed_setSplitterRatio]; exact hwfh1)
      obtain ⟨root', hw, hn'⟩ := writeAt_isSome root1 held' ptr held1 hnode1
      refine Or.inr (Or.inr (Or.inr (Or.inl ⟨hheld, hdown, ptr, held1, held', root', hptr,
        hnode1, hres, hw, hn', ?_⟩)))
      rw [beginEndLayout_of_parts self io (some root1) _ _ hv
        (mouse_drag_down { self with m_pRoot := some root1 } io root1 ptr held1 held' root'
          hheld rfl hdown hptr hnode1 hres hw)]
      rfl
    · refine Or.inr (Or.inr (Or.inr (Or.inr ⟨hheld, hdown, ?_⟩)))
      rw [beginEndLayout_of_parts self io (some root1) _ _ hv
        (mouse_drag_up { self with m_pRoot := some root1 } io hheld hdown)]
      rfl
  · obtain ⟨res, hres⟩ := hover_isSome_of_wellFormed root1 io.MousePos hwf1
    cases res with
    | none =>
      refine Or.inl ⟨hheld, hres, ?_⟩
      rw [beginEndLayout_of_parts self io (some root1) _ _ hv
        (mouse_idle_nohit { self with m_pRoot := some root1 } io root1 hheld rfl hres)]
      rfl
    | some ptr =>
      obtain ⟨m, hm, -, -⟩ := hover_sound root1 io.MousePos ptr hres
      rcases Bool.eq_false_or_eq_true io.MouseClicked with hclick | hclick
      · refine Or.inr (Or.inr (Or.inl ⟨hheld, hclick, ptr, m, hres, hm, ?_⟩))
        rw [beginEndLayout_of_parts self io (some root1) _ _ hv
          (mouse_idle_click { self with m_pRoot := some root1 } io root1 ptr m hheld rfl hres
            hm hclick)]
        rfl
      · refine Or.inr (Or.inl ⟨hheld, hclick, ptr, m, hres, hm, ?_⟩)
        rw [beginEndLayout_of_parts self io (some root1) _ _ hv
          (mouse_idle_hit { self with m_pRoot := some root1 } io root1 ptr m hheld rfl hres hm
            hclick)]
        rfl

end CustomLayout

open CustomLayout

/-- C7: `BeginEndNodeAndChildren` makes, for each window node (leaf) of the tree in the order
first child before second child, the placement calls with the domain of that window
followed by one call of its callback when it has one; logical domains add nothing.  Every
frame of `BeginEndLayout` on a valid layout, idle or dragging, returns and ends with this
sequence for the root the layout has after the frame; only cursor calls precede it. -/
theorem traversal_places_each_window_in_order (n : CustomLayoutNode) (self : CustomLayout)
    (io : ImGuiFrame) :
    n.BeginEndNodeAndChildren = (windows n).flatMap windowCalls ∧
    (self.Valid = true →
      ∃ layout calls root cursorCalls, self.BeginEndLayout io = some (layout, calls) ∧
        layout.m_pRoot = some root ∧
        calls = cursorCalls ++ (windows root).flatMap windowCalls ∧
        ∀ c ∈ cursorCalls, ∃ k, c = ImGuiCall.SetMouseCursor k) := by
  refine ⟨beginEnd_eq_windows n, fun hvalid => ?_⟩
  obtain ⟨root1, -, h⟩ := frame_cases self io hvalid
  rcases h with ⟨-, -, h⟩ | ⟨-, -, ptr, m, -, -, h⟩ | ⟨-, -, ptr, m, -, -, h⟩ |
    ⟨-, -, ptr, held, held', root', -, -, -, -, -, h⟩ | ⟨-, -, h⟩
  · exact ⟨_, _, root1, [], h, rfl, by rw [beginEnd_eq_windows], fun c hc => by cases hc⟩
  · exact ⟨_, _, root1, _, h, rfl, by rw [beginEnd_eq_windows],
      fun c hc => ⟨_, List.mem_singleton.1 hc⟩⟩
  · exact ⟨_, _, root1, _, h, rfl, by rw [beginEnd_eq_windows],
      fun c hc => ⟨_, List.mem_singleton.1 hc⟩⟩
  · exact ⟨_, _, root', _, h, rfl, by rw [beginEnd_eq_windows],
      fun c hc => ⟨_, List.mem_singleton.1 hc⟩⟩
  · exact ⟨_, _, root1, [], h, rfl, by rw [beginEnd_eq_windows], fun c hc => by cases hc⟩

/-- Witness of C7: a frame of the example layout while its root splitter is held. -/
theorem traversal_places_each_window_in_order_witness :
    ∃ layout calls root cursorCalls,
      exampleLayoutDragging.BeginEndLayout (exampleFrame ⟨900, 100⟩ false true) =
        some (layout, calls) ∧
      layout.m_pRoot = some root ∧
      calls = cursorCalls ++ (windows root).flatMap windowCalls ∧
      ∀ c ∈ cursorCalls, ∃ k, c = ImGuiCall.SetMouseCursor k :=
  (traversal_places_each_window_in_order exampleRoot exampleLayoutDragging
    (exampleFrame ⟨900, 100⟩ false true)).2 rfl

/-- C8: the viewport check of `BeginEndLayout`, in either state.  When the size of the
viewport differs from the recorded one in x or in y, the root is resized with
`ResizeNodeAndChildren(WorkPos, WorkSize)` first: the frame is the frame of the layout that
already holds the resized root and the new size.  When the size is the recorded one the root
goes to the mouse part as it is, the frame does not depend on `WorkPos`, the root keeps its
domain, and in the idle state the whole tree is kept.  In both cases the recorded size after
the frame is the size of the viewport of the frame. -/
theorem viewport_resize_check (self : CustomLayout) (io : ImGuiFrame) (root : CustomLayoutNode)
    (hvalid : self.Valid = true) (hroot : self.m_pRoot = some root) :
    ((io.WorkSize.x ≠ self.m_lastViewport.x ∨ io.WorkSize.y ≠ self.m_lastViewport.y) →
      ∃ root1, root.ResizeNodeAndChildren io.WorkPos io.WorkSize = some root1 ∧
        self.viewportResize io = some (some root1) ∧
        self.BeginEndLayout io =
          BeginEndLayout { self with m_pRoot := some root1, m_lastViewport := io.WorkSize } io) ∧
    (¬ (io.WorkSize.x ≠ self.m_lastViewport.x ∨ io.WorkSize.y ≠ self.m_lastViewport.y) →
      self.viewportResize io = some (some root) ∧
      (∀ workPos, self.BeginEndLayout { io with WorkPos := workPos } = self.BeginEndLayout io) ∧
      ∃ layout calls root', self.BeginEndLayout io = some (layout, calls) ∧
        layout.m_pRoot = some root' ∧
        root'.GetDomainPos = root.GetDomainPos ∧ root'.GetDomainSize = root.GetDomainSize ∧
        (self.m_splitterHeld = false → root' = root)) ∧
    (∃ layout calls, self.BeginEndLayout io = some (layout, calls) ∧
      layout.m_lastViewport = io.WorkSize) := by
  have hwf : root.WellFormed = true := by
    obtain ⟨root0, hroot0, hwf0, -⟩ := (valid_iff self).1 hvalid
    rw [hroot] at hroot0
    cases hroot0
    exact hwf0
  obtain ⟨root1, hv, h⟩ := frame_cases self io hvalid
  refine ⟨?_, ?_, ?_⟩
  · intro hdiff
    obtain ⟨root2, hv2, -, hres, -⟩ := viewportResize_spec self io root hroot hwf
    have hres2 := hres hdiff
    refine ⟨root2, hres2, hv2, ?_⟩
    have hsame : ¬ (io.WorkSize.x ≠
          ({ self with m_pRoot := some root2, m_lastViewport := io.WorkSize } :
            CustomLayout).m_lastViewport.x ∨
        io.WorkSize.y ≠
          ({ self with m_pRoot := some root2, m_lastViewport := io.WorkSize } :
            CustomLayout).m_lastViewport.y) := by
      simp
    have hv3 := viewportResize_same
      { self with m_pRoot := some root2, m_lastViewport := io.WorkSize } io hsame
    unfold BeginEndLayout
    rw [hv2, hv3]
    have hm := mouse_lastViewport { self with m_pRoot := some root2 } io io.WorkSize
    simp only [] at hm ⊢
    rw [hm]
    cases mouseInteractions { self with m_pRoot := some root2 } io with
    | none => rfl
    | some out => rfl
  · intro hsame
    have hv0 : self.viewportResize io = some (some root) := by
      rw [viewportResize_same self io hsame, hroot]
    have hr1 : root1 = root := by
      rw [hv0] at hv
      cases hv
      rfl
    subst hr1
    refine ⟨hv0, ?_, ?_⟩
    · intro workPos
      unfold BeginEndLayout
      have hvw : self.viewportResize { io with WorkPos := workPos } = self.viewportResize io := by
        rw [viewportResize_same self io hsame]
        exact viewportResize_same self { io with WorkPos := workPos } hsame
      rw [hvw]
      rfl
    · rcases h with ⟨hh, -, h⟩ | ⟨hh, -, ptr, m, -, -, h⟩ | ⟨hh, -, ptr, m, -, -, h⟩ |
        ⟨hh, -, ptr, held, held', root', -, hnode, hres, hw, -, h⟩ | ⟨hh, -, h⟩
      · exact ⟨_, _, root1, h, rfl, rfl, rfl, fun _ => rfl⟩
      · exact ⟨_, _, root1, h, rfl, rfl, rfl, fun _ => rfl⟩
      · exact ⟨_, _, root1, h, rfl, rfl, rfl, fun _ => rfl⟩
      · obtain ⟨hp, hs, -⟩ := resize_fields _ _ _ _ hres
        have hd := writeAt_domain root1 held' root' ptr held hnode hw
          (by rw [hp]) (by rw [hs])
        exact ⟨_, _, root', h, rfl, hd.1, hd.2, fun hidle => by rw [hh] at hidle; cases hidle⟩
      · exact ⟨_, _, root1, h, rfl, rfl, rfl, fun _ => rfl⟩
  · rcases h with ⟨-, -, h⟩ | ⟨-, -, ptr, m, -, -, h⟩ | ⟨-, -, ptr, m, -, -, h⟩ |
      ⟨-, -, ptr, held, held', root', -, -, -, -, -, h⟩ | ⟨-, -, h⟩ <;>
    exact ⟨_, _, h, rfl⟩

/-- Witness of C8: the example layout, which recorded 1280 x 720, in a frame over a
1920 x 1080 viewport. -/
theorem viewport_resize_check_witness :
    (∃ root1, exampleRootLaidOut.ResizeNodeAndChildren exampleFrameLarge.WorkPos
        exampleFrameLarge.WorkSize = some root1 ∧
      exampleLayout.viewportResize exampleFrameLarge = some (some root1) ∧
      exampleLayout.BeginEndLayout exampleFrameLarge =
        BeginEndLayout { exampleLayout with
          m_pRoot := some root1, m_lastViewport := exampleFrameLarge.WorkSize }
          exampleFrameLarge) ∧
    (∃ layout calls, exampleLayout.BeginEndLayout exampleFrameLarge = some (layout, calls) ∧
      layout.m_lastViewport = exampleFrameLarge.WorkSize) :=
  ⟨(viewport_resize_check exampleLayout exampleFrameLarge exampleRootLaidOut rfl rfl).1
      (by norm_num [exampleLayout, exampleFrameLarge]),
    (viewport_resize_check exampleLayout exampleFrameLarge exampleRootLaidOut rfl rfl).2.2⟩

theorem bottonDownDelta_eq (m : CustomLayoutNode) (mousePos : ImVec2) :
    bottonDownDelta m mousePos = m.GetSplitterStartCoord - m.axisCoord mousePos := by
  unfold bottonDownDelta GetSplitterPos GetSplitterStartCoord axisCoord
  by_cases hlv : m.GetLevel % 2 = 1 <;> simp [hlv]

theorem newSplitterRatio_eq (held : CustomLayoutNode) (delta : ℚ) (mousePos : ImVec2) :
    newSplitterRatio held delta mousePos =
      (held.axisCoord mousePos + delta - held.axisCoord held.GetDomainPos) /
        held.axisCoord held.GetDomainSize := by
  unfold newSplitterRatio axisCoord
  by_cases hlv : held.GetLevel % 2 = 1 <;> simp [hlv, add_comm]

/-- C9: in the idle state a frame moves to the dragging state exactly when `GetHoverSplitter`
on the root (as the viewport check of the frame leaves it) finds a splitter and the host
reports a click of the left button.  The held node is then the node found and the recorded
offset is the splitter start coordinate of that node minus the coordinate of the mouse along
its split axis (x at an odd level, y at an even level).  In the idle state the frame leaves
the root it tested in the layout. -/
theorem idle_frame_starts_drag_iff_hover_and_click (self : CustomLayout) (io : ImGuiFrame)
    (hvalid : self.Valid = true) (hidle : self.m_splitterHeld = false) :
    ∃ root1 layout calls, self.viewportResize io = some (some root1) ∧
      self.BeginEndLayout io = some (layout, calls) ∧
      layout.m_pRoot = some root1 ∧
      (layout.m_splitterHeld = true ↔
        (∃ ptr, root1.GetHoverSplitter io.MousePos = some (some ptr)) ∧
          io.MouseClicked = true) ∧
      (∀ ptr, root1.GetHoverSplitter io.MousePos = some (some ptr) → io.MouseClicked = true →
        ∃ found, root1.nodeAt ptr = some found ∧ found.IsLogicalDomain = true ∧
          layout.m_pHeldSplitterDomain = some ptr ∧
          layout.m_splitterBottonDownDelta =
            found.GetSplitterStartCoord - found.axisCoord io.MousePos) := by
  obtain ⟨root1, hv, h⟩ := frame_cases self io hvalid
  rcases h with ⟨-, hhover, h⟩ | ⟨-, hclick, ptr, m, hhover, hm, h⟩ |
    ⟨-, hclick, ptr, m, hhover, hm, h⟩ | ⟨hh, -⟩ | ⟨hh, -⟩
  · refine ⟨root1, _, _, hv, h, rfl, ?_, ?_⟩
    · simp [hidle, hhover]
    · intro ptr hp
      rw [hhover] at hp
      cases hp
  · refine ⟨root1, _, _, hv, h, rfl, ?_, ?_⟩
    · simp [hidle, hclick]
    · intro ptr' _ hc
      rw [hclick] at hc
      cases hc
  · refine ⟨root1, _, _, hv, h, rfl, ?_, ?_⟩
    · simp [hclick, hhover]
    · intro ptr' hp _
      rw [hhover] at hp
      cases hp
      obtain ⟨m', hm', hlog, -⟩ := hover_sound root1 io.MousePos ptr hhover
      rw [hm] at hm'
      cases hm'
      exact ⟨m, hm, hlog, rfl, bottonDownDelta_eq m io.MousePos⟩
  · rw [hidle] at hh; cases hh
  · rw [hidle] at hh; cases hh

/-- Witness of C9: a click at (1023, 100), one unit before the root splitter of the example
layout. -/
theorem idle_frame_starts_drag_iff_hover_and_click_witness :
    ∃ root1 layout calls,
      exampleLayout.viewportResize (exampleFrame ⟨1023, 100⟩ true true) = some (some root1) ∧
      exampleLayout.BeginEndLayout (exampleFrame ⟨1023, 100⟩ true true) = some (layout, calls) ∧
      layout.m_pRoot = some root1 ∧
      (layout.m_splitterHeld = true ↔
        (∃ ptr, root1.GetHoverSplitter (exampleFrame ⟨1023, 100⟩ true true).MousePos =
          some (some ptr)) ∧
          (exampleFrame ⟨1023, 100⟩ true true).MouseClicked = true) ∧
      (∀ ptr, root1.GetHoverSplitter (exampleFrame ⟨1023, 100⟩ true true).MousePos =
          some (some ptr) →
        (exampleFrame ⟨1023, 100⟩ true true).MouseClicked = true →
        ∃ found, root1.nodeAt ptr = some found ∧ found.IsLogicalDomain = true ∧
          layout.m_pHeldSplitterDomain = some ptr ∧
          layout.m_splitterBottonDownDelta =
            found.GetSplitterStartCoord -
              found.axisCoord (exampleFrame ⟨1023, 100⟩ true true).MousePos) :=
  idle_frame_starts_drag_iff_hover_and_click exampleLayout (exampleFrame ⟨1023, 100⟩ true true)
    rfl rfl

/-- C10: in the dragging state with the left button down, a frame returns and stays in the
dragging state with the same held node and offset.  When the size of the domain of the held
node along its split axis is not zero, the frame sets the ratio of the held node to
`(mouse.axis + offset - domainPos.axis) / domainSize.axis`, the axis being x for a held node
at an odd level and y at an even level, and lays the held subtree out again with
`ResizeNodeAndChildren(domainPos, domainSize)` of the held node.  The held node is read in
the tree as the viewport check of the frame leaves it.  At the size zero the quotient of the
source is a division of floats by zero, which the exact arithmetic here does not describe;
nothing is stated about the ratio or the tree after the frame then. -/
theorem dragging_frame_sets_ratio_and_relayouts (self : CustomLayout) (io : ImGuiFrame)
    (hvalid : self.Valid = true) (hheld : self.m_splitterHeld = true)
    (hdown : io.MouseDown = true) :
    ∃ root1 ptr held layout calls,
      self.viewportResize io = some (some root1) ∧
      self.m_pHeldSplitterDomain = some ptr ∧ root1.nodeAt ptr = some held ∧
      self.BeginEndLayout io = some (layout, calls) ∧
      layout.m_splitterHeld = true ∧
      layout.m_pHeldSplitterDomain = some ptr ∧
      layout.m_splitterBottonDownDelta = self.m_splitterBottonDownDelta ∧
      (held.axisCoord held.GetDomainSize ≠ 0 →
        ∃ held' root',
          (held.SetSplitterRatio
              ((held.axisCoord io.MousePos + self.m_splitterBottonDownDelta -
                held.axisCoord held.GetDomainPos) / held.axisCoord held.GetDomainSize)
            ).ResizeNodeAndChildren held.GetDomainPos held.GetDomainSize = some held' ∧
          held'.splitterRatio =
            (held.axisCoord io.MousePos + self.m_splitterBottonDownDelta -
              held.axisCoord held.GetDomainPos) / held.axisCoord held.GetDomainSize ∧
          held'.GetDomainPos = held.GetDomainPos ∧
          held'.GetDomainSize = held.GetDomainSize ∧
          root1.writeAt ptr held' = some root' ∧ root'.nodeAt ptr = some held' ∧
          layout.m_pRoot = some root') := by
  obtain ⟨root1, hv, h⟩ := frame_cases self io hvalid
  rcases h with ⟨hh, -⟩ | ⟨hh, -⟩ | ⟨hh, -⟩ |
    ⟨-, -, ptr, held, held', root', hptr, hnode, hres, hw, hn', h⟩ | ⟨-, hup, -⟩
  · rw [hheld] at hh; cases hh
  · rw [hheld] at hh; cases hh
  · rw [hheld] at hh; cases hh
  · rw [newSplitterRatio_eq] at hres
    obtain ⟨hp, hs, -, hr, -⟩ := resize_fields _ _ _ _ hres
    refine ⟨root1, ptr, held, _, _, hv, hptr, hnode, h, hheld, hptr, rfl, fun _ => ?_⟩
    refine ⟨held', root', hres, ?_, hp, hs, hw, hn', rfl⟩
    rw [hr]
    cases held
    rfl
  · rw [hdown] at hup; cases hup

/-- Witness of C10: the example layout with its root splitter held (a domain 1280 wide, not
zero) and the mouse moved to x = 900 with the button down; the ratio becomes 901/1280. -/
theorem dragging_frame_sets_ratio_and_relayouts_witness :
    exampleRootLaidOut.axisCoord exampleRootLaidOut.GetDomainSize ≠ 0 ∧
    ∃ held' root' layout calls,
      exampleLayoutDragging.BeginEndLayout (exampleFrame ⟨900, 100⟩ false true) =
        some (layout, calls) ∧
      layout.m_splitterHeld = true ∧
      layout.m_pHeldSplitterDomain = some [] ∧
      layout.m_splitterBottonDownDelta = exampleLayoutDragging.m_splitterBottonDownDelta ∧
      (exampleRootLaidOut.SetSplitterRatio
          ((exampleRootLaidOut.axisCoord (exampleFrame ⟨900, 100⟩ false true).MousePos +
            exampleLayoutDragging.m_splitterBottonDownDelta -
            exampleRootLaidOut.axisCoord exampleRootLaidOut.GetDomainPos) /
              exampleRootLaidOut.axisCoord exampleRootLaidOut.GetDomainSize)
        ).ResizeNodeAndChildren exampleRootLaidOut.GetDomainPos
          exampleRootLaidOut.GetDomainSize = some held' ∧
      held'.splitterRatio = 901 / 1280 ∧
      held'.GetDomainPos = exampleRootLaidOut.GetDomainPos ∧
      held'.GetDomainSize = exampleRootLaidOut.GetDomainSize ∧
      exampleRootLaidOut.writeAt [] held' = some root' ∧ root'.nodeAt [] = some held' ∧
      layout.m_pRoot = some root' := by
  have hnz : exampleRootLaidOut.axisCoord exampleRootLaidOut.GetDomainSize ≠ 0 := by
    norm_num [exampleRootLaidOut, axisCoord, GetLevel, GetDomainSize]
  obtain ⟨root1, ptr, held, layout, calls, hv, hptr, hnode, hbe, h1, h2, h3, hg⟩ :=
    dragging_frame_sets_ratio_and_relayouts exampleLayoutDragging
      (exampleFrame ⟨900, 100⟩ false true) rfl rfl rfl
  have hv0 : exampleLayoutDragging.viewportResize (exampleFrame ⟨900, 100⟩ false true) =
      some (some exampleRootLaidOut) :=
    viewportResize_same exampleLayoutDragging (exampleFrame ⟨900, 100⟩ false true)
      (by simp [exampleFrame, exampleLayoutDragging])
  rw [hv0] at hv
  cases hv
  have hp : ptr = [] := by
    simp only [exampleLayoutDragging, Option.some.injEq] at hptr
    exact hptr.symm
  subst hp
  rw [nodeAt_nil] at hnode
  cases hnode
  obtain ⟨held', root', hres, hratio, hpos, hsize, hw, hn', hroot'⟩ := hg hnz
  refine ⟨hnz, held', root', layout, calls, hbe, h1, h2, h3, hres, ?_, hpos, hsize, hw, hn',
    hroot'⟩
  rw [hratio]
  norm_num [exampleRootLaidOut, exampleFrame, exampleLayoutDragging, axisCoord, GetLevel,
    GetDomainPos, GetDomainSize]

/-- C18: `GetSplitterStartCoord` is `domainPos.x + splitRatio * domainSize.x` at an odd level
and `domainPos.y + splitRatio * domainSize.y` at an even level; `GetSplitterPos` is the point
with that coordinate on the split axis and the domain origin on the other axis:
`(start, domainPos.y)` at an odd level and `(domainPos.x, start)` at an even level. -/
theorem splitter_start_coord_and_pos (n : CustomLayoutNode) :
    (n.GetLevel % 2 = 1 →
      n.GetSplitterStartCoord = n.GetDomainPos.x + n.splitterRatio * n.GetDomainSize.x ∧
      n.GetSplitterPos = ⟨n.GetSplitterStartCoord, n.GetDomainPos.y⟩) ∧
    (n.GetLevel % 2 = 0 →
      n.GetSplitterStartCoord = n.GetDomainPos.y + n.splitterRatio * n.GetDomainSize.y ∧
      n.GetSplitterPos = ⟨n.GetDomainPos.x, n.GetSplitterStartCoord⟩) := by
  constructor
  · intro hlv
    simp [GetSplitterStartCoord, GetSplitterPos, hlv]
  · intro hlv
    have hlv' : ¬ n.GetLevel % 2 = 1 := by omega
    simp [GetSplitterStartCoord, GetSplitterPos, hlv']

/-- Witness of C18: the splitter of the laid out example root starts at x = 1024. -/
theorem splitter_start_coord_and_pos_witness :
    exampleRootLaidOut.GetSplitterStartCoord =
        exampleRootLaidOut.GetDomainPos.x +
          exampleRootLaidOut.splitterRatio * exampleRootLaidOut.GetDomainSize.x ∧
      exampleRootLaidOut.GetSplitterPos =
        ⟨exampleRootLaidOut.GetSplitterStartCoord, exampleRootLaidOut.GetDomainPos.y⟩ :=
  (splitter_start_coord_and_pos exampleRootLaidOut).1 rfl

/-- C15: `CreateLeftChild` and `CreateRightChild`, with a ratio or with a window callback,
fail (the assertion fails and nothing is attached) exactly when the node is a window node
(leaf).  On a logical domain they return the node with the new child in the link and every
other member as it was; the child has no children and is a logical domain with the given
ratio, or a window node with the given callback. -/
theorem create_child_fails_exactly_on_leaf (n : CustomLayoutNode) (arg : ChildArg) :
    (n.CreateLeftChild arg = none ↔ n.IsLogicalDomain = false) ∧
    (n.CreateRightChild arg = none ↔ n.IsLogicalDomain = false) ∧
    (n.IsLogicalDomain = true →
      (∃ n' child, n.CreateLeftChild arg = some n' ∧
        n'.GetLeftChild = some child ∧ n'.GetRightChild = n.GetRightChild ∧
        n'.GetLevel = n.GetLevel ∧ n'.GetDomainPos = n.GetDomainPos ∧
        n'.GetDomainSize = n.GetDomainSize ∧ n'.splitterRatio = n.splitterRatio ∧
        n'.customWindowFunc = n.customWindowFunc ∧ n'.IsLogicalDomain = true ∧
        child.GetLeftChild = none ∧ child.GetRightChild = none ∧
        (∀ ratio, arg = ChildArg.ratio ratio →
          child.IsLogicalDomain = true ∧ child.splitterRatio = ratio ∧
            child.customWindowFunc = none) ∧
        (∀ windowFunc, arg = ChildArg.windowFunc windowFunc →
          child.IsLogicalDomain = false ∧ child.customWindowFunc = windowFunc)) ∧
      (∃ n' child, n.CreateRightChild arg = some n' ∧
        n'.GetRightChild = some child ∧ n'.GetLeftChild = n.GetLeftChild ∧
        n'.GetLevel = n.GetLevel ∧ n'.GetDomainPos = n.GetDomainPos ∧
        n'.GetDomainSize = n.GetDomainSize ∧ n'.splitterRatio = n.splitterRatio ∧
        n'.customWindowFunc = n.customWindowFunc ∧ n'.IsLogicalDomain = true ∧
        child.GetLeftChild = none ∧ child.GetRightChild = none ∧
        (∀ ratio, arg = ChildArg.ratio ratio →
          child.IsLogicalDomain = true ∧ child.splitterRatio = ratio ∧
            child.customWindowFunc = none) ∧
        (∀ windowFunc, arg = ChildArg.windowFunc windowFunc →
          child.IsLogicalDomain = false ∧ child.customWindowFunc = windowFunc))) := by
  obtain ⟨l, r, lv, p, s, ratio, f, isLogical⟩ := n
  have hchild : ∀ level : Nat,
      (setLevel (newChild arg) level).GetLeftChild = none ∧
      (setLevel (newChild arg) level).GetRightChild = none ∧
      (∀ ratio, arg = ChildArg.ratio ratio →
        (setLevel (newChild arg) level).IsLogicalDomain = true ∧
          (setLevel (newChild arg) level).splitterRatio = ratio ∧
          (setLevel (newChild arg) level).customWindowFunc = none) ∧
      (∀ windowFunc, arg = ChildArg.windowFunc windowFunc →
        (setLevel (newChild arg) level).IsLogicalDomain = false ∧
          (setLevel (newChild arg) level).customWindowFunc = windowFunc) := by
    intro level
    cases arg with
    | ratio r0 =>
      refine ⟨rfl, rfl, ?_, ?_⟩
      · intro r1 h; cases h; exact ⟨rfl, rfl, rfl⟩
      · intro f1 h; cases h
    | windowFunc f0 =>
      refine ⟨rfl, rfl, ?_, ?_⟩
      · intro r1 h; cases h
      · intro f1 h; cases h; exact ⟨rfl, rfl⟩
  cases isLogical with
  | false =>
    refine ⟨by simp [CreateLeftChild, IsLogicalDomain], by simp [CreateRightChild, IsLogicalDomain], ?_⟩
    intro h
    simp [IsLogicalDomain] at h
  | true =>
    refine ⟨by simp [CreateLeftChild, IsLogicalDomain], by simp [CreateRightChild, IsLogicalDomain], ?_⟩
    intro _
    obtain ⟨h1, h2, h3, h4⟩ := hchild ((lv + 1) % UINT32_SIZE)
    exact ⟨⟨_, _, rfl, rfl, rfl, rfl, rfl, rfl, rfl, rfl, rfl, h1, h2, h3, h4⟩,
      ⟨_, _, rfl, rfl, rfl, rfl, rfl, rfl, rfl, rfl, rfl, h1, h2, h3, h4⟩⟩

/-- Witness of C15: a logical domain made by the constructor gets a window as first child,
and that window gets no child. -/
theorem create_child_fails_exactly_on_leaf_witness :
    ((newWindow (some 1)).CreateLeftChild (ChildArg.ratio (1 / 2)) = none ↔
      (newWindow (some 1)).IsLogicalDomain = false) ∧
    ∃ n' child,
      (newLogicalDomain (4 / 5)).CreateLeftChild (ChildArg.windowFunc (some 1)) = some n' ∧
      n'.GetLeftChild = some child ∧ child.IsLogicalDomain = false ∧
      child.customWindowFunc = some 1 := by
  refine ⟨(create_child_fails_exactly_on_leaf (newWindow (some 1))
    (ChildArg.ratio (1 / 2))).1, ?_⟩
  obtain ⟨⟨n', child, h, hl, -, -, -, -, -, -, -, -, -, -, hw⟩, -⟩ :=
    (create_child_fails_exactly_on_leaf (newLogicalDomain (4 / 5))
      (ChildArg.windowFunc (some 1))).2.2 rfl
  exact ⟨n', child, h, hl, (hw (some 1) rfl).1, (hw (some 1) rfl).2⟩

/-- C17 as stated fails: the node made by the constructor for logical domains, and the node
made by the general constructor with the flag set, are logical domains without a first and
without a second child. -/
theorem split_constructor_has_no_children_counterexample :
    (newLogicalDomain (4 / 5)).IsLogicalDomain = true ∧
    (newLogicalDomain (4 / 5)).GetLeftChild = none ∧
    (newLogicalDomain (4 / 5)).GetRightChild = none ∧
    (newGeneral true 1 ⟨0, 0⟩ ⟨1280, 720⟩ (4 / 5) none).IsLogicalDomain = true ∧
    (newGeneral true 1 ⟨0, 0⟩ ⟨1280, 720⟩ (4 / 5) none).GetLeftChild = none ∧
    (newGeneral true 1 ⟨0, 0⟩ ⟨1280, 720⟩ (4 / 5) none).GetRightChild = none :=
  ⟨rfl, rfl, rfl, rfl, rfl, rfl⟩

/-- C17, amended: every node made by a constructor has no children, with the flag set or
not; a logical domain has a first and a second child once `CreateLeftChild` and
`CreateRightChild` have both been called on it, in either order. -/
theorem split_node_has_children_after_both_creates (n : CustomLayoutNode)
    (argLeft argRight : ChildArg) (hsplit : n.IsLogicalDomain = true) :
    (∀ isLogicalDomain level domainPos domainSize splitterRatio customFunc,
      (newGeneral isLogicalDomain level domainPos domainSize splitterRatio
          customFunc).GetLeftChild = none ∧
        (newGeneral isLogicalDomain level domainPos domainSize splitterRatio
          customFunc).GetRightChild = none) ∧
    (∀ splitterRatio, (newLogicalDomain splitterRatio).GetLeftChild = none ∧
      (newLogicalDomain splitterRatio).GetRightChild = none) ∧
    (∀ customFunc, (newWindow customFunc).GetLeftChild = none ∧
      (newWindow customFunc).GetRightChild = none) ∧
    (∃ n1 n2, n.CreateLeftChild argLeft = some n1 ∧ n1.CreateRightChild argRight = some n2 ∧
      n2.GetLeftChild.isSome = true ∧ n2.GetRightChild.isSome = true) ∧
    (∃ n1 n2, n.CreateRightChild argRight = some n1 ∧ n1.CreateLeftChild argLeft = some n2 ∧
      n2.GetLeftChild.isSome = true ∧ n2.GetRightChild.isSome = true) := by
  obtain ⟨l, r, lv, p, s, ratio, f, isLogical⟩ := n
  simp only [IsLogicalDomain] at hsplit
  subst hsplit
  refine ⟨fun _ _ _ _ _ _ => ⟨rfl, rfl⟩, fun _ => ⟨rfl, rfl⟩, fun _ => ⟨rfl, rfl⟩, ?_, ?_⟩
  · exact ⟨_, _, rfl, rfl, rfl, rfl⟩
  · exact ⟨_, _, rfl, rfl, rfl, rfl⟩

/-- Witness of C17, amended: the logical domain made by the constructor, after both calls. -/
theorem split_node_has_children_after_both_creates_witness :
    ∃ n1 n2, (newLogicalDomain (4 / 5)).CreateLeftChild (ChildArg.windowFunc (some 1)) =
        some n1 ∧
      n1.CreateRightChild (ChildArg.windowFunc none) = some n2 ∧
      n2.GetLeftChild.isSome = true ∧ n2.GetRightChild.isSome = true :=
  (split_node_has_children_after_both_creates (newLogicalDomain (4 / 5))
    (ChildArg.windowFunc (some 1)) (ChildArg.windowFunc none) rfl).2.2.2.1

/-- C19 as stated fails: on the first window of the laid out example root, a leaf,
`GetSplitterStartCoord` and `GetSplitterPos` return a coordinate and a point. -/
theorem splitter_query_on_leaf_counterexample :
    (mk none none 2 ⟨0, 0⟩ ⟨1024, 720⟩ 0 (some 1) false).IsLogicalDomain = false ∧
    (mk none none 2 ⟨0, 0⟩ ⟨1024, 720⟩ 0 (some 1) false).GetSplitterStartCoord = 0 ∧
    (mk none none 2 ⟨0, 0⟩ ⟨1024, 720⟩ 0 (some 1) false).GetSplitterPos = ⟨0, 0⟩ := by
  refine ⟨rfl, ?_, ?_⟩
  · norm_num [GetSplitterStartCoord, GetLevel, GetDomainPos, GetDomainSize, splitterRatio]
  · norm_num [GetSplitterPos, GetLevel, GetDomainPos, GetDomainSize, splitterRatio]

/-- C19, amended: `GetSplitterStartCoord` and `GetSplitterPos` check nothing.  On every
node, window node (leaf) or logical domain, they return the value of the same formula; with
the ratio 0 that the constructor for window nodes stores, this is the origin of the
domain. -/
theorem splitter_query_on_leaf_returns_formula (n : CustomLayoutNode) :
    n.GetSplitterStartCoord =
        n.axisCoord n.GetDomainPos + n.splitterRatio * n.axisCoord n.GetDomainSize ∧
    n.axisCoord n.GetSplitterPos = n.GetSplitterStartCoord ∧
    n.crossCoord n.GetSplitterPos = n.crossCoord n.GetDomainPos ∧
    (n.splitterRatio = 0 →
      n.GetSplitterStartCoord = n.axisCoord n.GetDomainPos ∧
        n.GetSplitterPos = n.GetDomainPos) := by
  by_cases hlv : n.GetLevel % 2 = 1
  · refine ⟨by simp [GetSplitterStartCoord, axisCoord, hlv],
      by simp [GetSplitterStartCoord, GetSplitterPos, axisCoord, hlv],
      by simp [GetSplitterPos, crossCoord, hlv], ?_⟩
    intro hr
    simp [GetSplitterStartCoord, GetSplitterPos, axisCoord, hlv, hr]
  · refine ⟨by simp [GetSplitterStartCoord, axisCoord, hlv],
      by simp [GetSplitterStartCoord, GetSplitterPos, axisCoord, hlv],
      by simp [GetSplitterPos, crossCoord, hlv], ?_⟩
    intro hr
    simp [GetSplitterStartCoord, GetSplitterPos, axisCoord, hlv, hr]

/-- Witness of C19, amended: the window made by the constructor for window nodes, placed at
(1026, 0) with size (254, 720). -/
theorem splitter_query_on_leaf_returns_formula_witness :
    (((newWindow none).SetDomainPos ⟨1026, 0⟩).SetDomainSize ⟨254, 720⟩).GetSplitterPos =
      ⟨1026, 0⟩ :=
  ((splitter_query_on_leaf_returns_formula
    (((newWindow none).SetDomainPos ⟨1026, 0⟩).SetDomainSize ⟨254, 720⟩)).2.2.2 rfl).2

/-- C20 as stated fails: the general constructor makes a logical domain that has a window
callback, and a window node that has the ratio 1/2. -/
theorem general_constructor_accepts_conflict_counterexample :
    (newGeneral true 1 ⟨0, 0⟩ ⟨1280, 720⟩ (4 / 5) (some 7)).IsLogicalDomain = true ∧
    (newGeneral true 1 ⟨0, 0⟩ ⟨1280, 720⟩ (4 / 5) (some 7)).customWindowFunc = some 7 ∧
    (newGeneral false 2 ⟨0, 0⟩ ⟨1024, 720⟩ (1 / 2) (some 7)).IsLogicalDomain = false ∧
    (newGeneral false 2 ⟨0, 0⟩ ⟨1024, 720⟩ (1 / 2) (some 7)).splitterRatio = 1 / 2 :=
  ⟨rfl, rfl, rfl, rfl⟩

/-- C20, amended: the general constructor checks nothing.  For every combination of its
parameters it makes a node that stores the flag, the level, the domain, the ratio and the
callback as given and has no children. -/
theorem general_constructor_stores_parameters (isLogicalDomain : Bool) (level : Nat)
    (domainPos domainSize : ImVec2) (splitterRatio : ℚ)
    (customFunc : Option CustomWindowFunc) :
    (newGeneral isLogicalDomain level domainPos domainSize splitterRatio
        customFunc).IsLogicalDomain = isLogicalDomain ∧
    (newGeneral isLogicalDomain level domainPos domainSize splitterRatio
        customFunc).GetLevel = level ∧
    (newGeneral isLogicalDomain level domainPos domainSize splitterRatio
        customFunc).GetDomainPos = domainPos ∧
    (newGeneral isLogicalDomain level domainPos domainSize splitterRatio
        customFunc).GetDomainSize = domainSize ∧
    (newGeneral isLogicalDomain level domainPos domainSize splitterRatio
        customFunc).splitterRatio = splitterRatio ∧
    (newGeneral isLogicalDomain level domainPos domainSize splitterRatio
        customFunc).customWindowFunc = customFunc ∧
    (newGeneral isLogicalDomain level domainPos domainSize splitterRatio
        customFunc).GetLeftChild = none ∧
    (newGeneral isLogicalDomain level domainPos domainSize splitterRatio
        customFunc).GetRightChild = none :=
  ⟨rfl, rfl, rfl, rfl, rfl, rfl, rfl, rfl⟩

namespace CustomLayoutNode

theorem clearGeometry_mk (l r : Option CustomLayoutNode) (lv : Nat) (p s : ImVec2) (ratio : ℚ)
    (f : Option CustomWindowFunc) (isLogical : Bool) :
    (mk l r lv p s ratio f isLogical).clearGeometry =
      mk (l.map clearGeometry) (r.map clearGeometry) lv ⟨0, 0⟩ ⟨0, 0⟩ 0 f isLogical := by
  cases l <;> cases r <;> rw [clearGeometry] <;> rfl

theorem clearGeometry_clearDomains (n : CustomLayoutNode) :
    n.clearDomains.clearGeometry = n.clearGeometry := by
  induction n using node_induction with
  | step l r lv p s ratio f isLogical iha ihb =>
    rw [clearDomains_mk, clearGeometry_mk, clearGeometry_mk]
    cases l with
    | none =>
      cases r with
      | none => rfl
      | some b => simp [ihb b rfl]
    | some a =>
      cases r with
      | none => simp [iha a rfl]
      | some b => simp [iha a rfl, ihb b rfl]

theorem clearGeometry_of_clearDomains_eq (n n' : CustomLayoutNode)
    (h : n'.clearDomains = n.clearDomains) : n'.clearGeometry = n.clearGeometry := by
  rw [← clearGeometry_clearDomains n', ← clearGeometry_clearDomains n, h]

theorem clearGeometry_setSplitterRatio (n : CustomLayoutNode) (ratio : ℚ) :
    (n.SetSplitterRatio ratio).clearGeometry = n.clearGeometry := by
  obtain ⟨l, r, lv, p, s, ratio0, f, isLogical⟩ := n
  simp only [SetSplitterRatio, clearGeometry_mk]

/-- Writing, through a pointer, a state with the levels, kinds, callbacks and children of the
node it replaces leaves the levels, kinds, callbacks and children of the tree as they were. -/
theorem clearGeometry_writeAt (n : CustomLayoutNode) (new old : CustomLayoutNode)
    (hnew : new.clearGeometry = old.clearGeometry) :
    ∀ (ptr : NodePtr) (n' : CustomLayoutNode), n.nodeAt ptr = some old →
      n.writeAt ptr new = some n' → n'.clearGeometry = n.clearGeometry := by
  induction n using node_induction with
  | step l r lv p s ratio f isLogical iha ihb =>
    intro ptr n' hold hw
    cases ptr with
    | nil =>
      rw [nodeAt_nil] at hold
      rw [writeAt_nil] at hw
      cases hold
      cases hw
      exact hnew
    | cons c rest =>
      cases c with
      | pLeft =>
        rw [nodeAt_pLeft] at hold
        rw [writeAt_pLeft] at hw
        cases l with
        | none => cases hold
        | some a =>
          simp only [Option.some_bind, Option.map_eq_some'] at hw hold
          obtain ⟨a', ha', rfl⟩ := hw
          simp [clearGeometry_mk, iha a rfl rest a' hold ha']
      | pRight =>
        rw [nodeAt_pRight] at hold
        rw [writeAt_pRight] at hw
        cases r with
        | none => cases hold
        | some b =>
          simp only [Option.some_bind, Option.map_eq_some'] at hw hold
          obtain ⟨b', hb', rfl⟩ := hw
          simp [clearGeometry_mk, ihb b rfl rest b' hold hb']

theorem levelInvariant_mk (l r : Option CustomLayoutNode) (lv : Nat) (p s : ImVec2) (ratio : ℚ)
    (f : Option CustomWindowFunc) (isLogical : Bool) :
    (mk l r lv p s ratio f isLogical).LevelInvariant = true ↔
      (∀ a, l = some a → a.GetLevel = (lv + 1) % UINT32_SIZE ∧ a.LevelInvariant = true) ∧
      (∀ b, r = some b → b.GetLevel = (lv + 1) % UINT32_SIZE ∧ b.LevelInvariant = true) := by
  rw [LevelInvariant.eq_def]
  cases l <;> cases r <;> simp

theorem getLevel_clearGeometry (n : CustomLayoutNode) :
    n.clearGeometry.GetLevel = n.GetLevel := by
  obtain ⟨l, r, lv, p, s, ratio, f, isLogical⟩ := n
  rw [clearGeometry_mk]
  rfl

theorem levelInvariant_clearGeometry (n : CustomLayoutNode) :
    n.clearGeometry.LevelInvariant = n.LevelInvariant := by
  induction n using node_induction with
  | step l r lv p s ratio f isLogical iha ihb =>
    rw [Bool.eq_iff_iff, clearGeometry_mk, levelInvariant_mk, levelInvariant_mk]
    constructor
    · rintro ⟨hl, hr⟩
      refine ⟨fun a ha => ?_, fun b hb => ?_⟩
      · subst ha
        obtain ⟨h1, h2⟩ := hl a.clearGeometry rfl
        exact ⟨by rw [← getLevel_clearGeometry a]; exact h1, by rw [← iha a rfl]; exact h2⟩
      · subst hb
        obtain ⟨h1, h2⟩ := hr b.clearGeometry rfl
        exact ⟨by rw [← getLevel_clearGeometry b]; exact h1, by rw [← ihb b rfl]; exact h2⟩
    · rintro ⟨hl, hr⟩
      refine ⟨fun a' ha' => ?_, fun b' hb' => ?_⟩
      · cases l with
        | none => cases ha'
        | some a =>
          cases ha'
          obtain ⟨h1, h2⟩ := hl a rfl
          exact ⟨by rw [getLevel_clearGeometry a]; exact h1, by rw [iha a rfl]; exact h2⟩
      · cases r with
        | none => cases hb'
        | some b =>
          cases hb'
          obtain ⟨h1, h2⟩ := hr b rfl
          exact ⟨by rw [getLevel_clearGeometry b]; exact h1, by rw [ihb b rfl]; exact h2⟩

theorem levelInvariant_of_clearGeometry_eq (n n' : CustomLayoutNode)
    (h : n'.clearGeometry = n.clearGeometry) : n'.LevelInvariant = n.LevelInvariant := by
  rw [← levelInvariant_clearGeometry n', ← levelInvariant_clearGeometry n, h]

end CustomLayoutNode

namespace CustomLayoutNode

theorem writeAt_getLevel (n new n' old : CustomLayoutNode) (ptr : NodePtr)
    (hold : n.nodeAt ptr = some old) (hw : n.writeAt ptr new = some n')
    (hlevel : new.GetLevel = old.GetLevel) : n'.GetLevel = n.GetLevel := by
  obtain ⟨l, r, lv, p, s, ratio, f, isLogical⟩ := n
  cases ptr with
  | nil =>
    rw [nodeAt_nil] at hold
    rw [writeAt_nil] at hw
    cases hold
    cases hw
    exact hlevel
  | cons c rest =>
    cases c with
    | pLeft =>
      rw [writeAt_pLeft] at hw
      simp only [Option.bind_eq_some, Option.map_eq_some'] at hw
      obtain ⟨a, -, a', -, rfl⟩ := hw
      rfl
    | pRight =>
      rw [writeAt_pRight] at hw
      simp only [Option.bind_eq_some, Option.map_eq_some'] at hw
      obtain ⟨b, -, b', -, rfl⟩ := hw
      rfl

theorem levelInvariant_nodeAt (n : CustomLayoutNode) :
    ∀ (ptr : NodePtr) (m : CustomLayoutNode), n.LevelInvariant = true →
      n.nodeAt ptr = some m → m.LevelInvariant = true := by
  induction n using node_induction with
  | step l r lv p s ratio f isLogical iha ihb =>
    intro ptr m hinv hm
    cases ptr with
    | nil =>
      rw [nodeAt_nil] at hm
      cases hm
      exact hinv
    | cons c rest =>
      rw [levelInvariant_mk] at hinv
      cases c with
      | pLeft =>
        rw [nodeAt_pLeft] at hm
        cases l with
        | none => cases hm
        | some a => exact iha a rfl rest m (hinv.1 a rfl).2 hm
      | pRight =>
        rw [nodeAt_pRight] at hm
        cases r with
        | none => cases hm
        | some b => exact ihb b rfl rest m (hinv.2 b rfl).2 hm

/-- Writing, through a pointer, a state that satisfies the level invariant and has the level
of the node it replaces keeps the level invariant of the tree. -/
theorem levelInvariant_writeAt (n : CustomLayoutNode) (new old : CustomLayoutNode)
    (hnew : new.LevelInvariant = true) (hlevel : new.GetLevel = old.GetLevel) :
    ∀ (ptr : NodePtr) (n' : CustomLayoutNode), n.LevelInvariant = true →
      n.nodeAt ptr = some old → n.writeAt ptr new = some n' → n'.LevelInvariant = true := by
  induction n using node_induction with
  | step l r lv p s ratio f isLogical iha ihb =>
    intro ptr n' hinv hold hw
    cases ptr with
    | nil =>
      rw [writeAt_nil] at hw
      cases hw
      exact hnew
    | cons c rest =>
      rw [levelInvariant_mk] at hinv
      cases c with
      | pLeft =>
        rw [nodeAt_pLeft] at hold
        rw [writeAt_pLeft] at hw
        cases l with
        | none => cases hold
        | some a =>
          simp only [Option.some_bind, Option.map_eq_some'] at hw hold
          obtain ⟨a', ha', rfl⟩ := hw
          rw [levelInvariant_mk]
          refine ⟨fun x hx => ?_, hinv.2⟩
          cases hx
          exact ⟨by rw [writeAt_getLevel a new a' old rest hold ha' hlevel]; exact (hinv.1 a rfl).1,
            iha a rfl rest a' (hinv.1 a rfl).2 hold ha'⟩
      | pRight =>
        rw [nodeAt_pRight] at hold
        rw [writeAt_pRight] at hw
        cases r with
        | none => cases hold
        | some b =>
          simp only [Option.some_bind, Option.map_eq_some'] at hw hold
          obtain ⟨b', hb', rfl⟩ := hw
          rw [levelInvariant_mk]
          refine ⟨hinv.1, fun x hx => ?_⟩
          cases hx
          exact ⟨by rw [writeAt_getLevel b new b' old rest hold hb' hlevel]; exact (hinv.2 b rfl).1,
            ihb b rfl rest b' (hinv.2 b rfl).2 hold hb'⟩

theorem levelInvariant_newChild (arg : ChildArg) (level : Nat) :
    (setLevel (newChild arg) level).LevelInvariant = true ∧
      (setLevel (newChild arg) level).GetLevel = level := by
  cases arg <;> exact ⟨rfl, rfl⟩

/-- What `CreateLeftChild` and `CreateRightChild` return: the node with the new child, whose
level is the level of the node plus one in `uint32_t`. -/
theorem createChild_spec (n n' : CustomLayoutNode) (link : ChildLink) (arg : ChildArg)
    (h : n.CreateChild link arg = some n') :
    n'.GetLevel = n.GetLevel ∧
      n'.child link = some (setLevel (newChild arg) ((n.GetLevel + 1) % UINT32_SIZE)) ∧
      (n.LevelInvariant = true → n'.LevelInvariant = true) := by
  obtain ⟨l, r, lv, p, s, ratio, f, isLogical⟩ := n
  cases isLogical with
  | false => cases link <;> simp [CreateChild, CreateLeftChild, CreateRightChild] at h
  | true =>
    cases link with
    | pLeft =>
      simp only [CreateChild, CreateLeftChild, if_true, Option.some.injEq] at h
      subst h
      refine ⟨rfl, rfl, fun hinv => ?_⟩
      rw [levelInvariant_mk] at hinv ⊢
      refine ⟨fun a ha => ?_, hinv.2⟩
      cases ha
      exact ⟨(levelInvariant_newChild arg _).2, (levelInvariant_newChild arg _).1⟩
    | pRight =>
      simp only [CreateChild, CreateRightChild, if_true, Option.some.injEq] at h
      subst h
      refine ⟨rfl, rfl, fun hinv => ?_⟩
      rw [levelInvariant_mk] at hinv ⊢
      refine ⟨hinv.1, fun b hb => ?_⟩
      cases hb
      exact ⟨(levelInvariant_newChild arg _).2, (levelInvariant_newChild arg _).1⟩

theorem levelInvariant_createChildAt (root tree : CustomLayoutNode) (call : CreateChildCall)
    (hinv : root.LevelInvariant = true) (h : root.createChildAt call = some tree) :
    tree.LevelInvariant = true := by
  unfold createChildAt at h
  cases hn : root.nodeAt call.target with
  | none => rw [hn] at h; cases h
  | some n =>
    rw [hn] at h
    simp only at h
    cases hc : n.CreateChild call.link call.arg with
    | none => rw [hc] at h; cases h
    | some n' =>
      rw [hc] at h
      simp only at h
      obtain ⟨hlevel, -, hinv'⟩ := createChild_spec n n' call.link call.arg hc
      exact levelInvariant_writeAt root n' n
        (hinv' (levelInvariant_nodeAt root call.target n hinv hn)) hlevel call.target tree hinv hn h

theorem levelInvariant_createChildren (calls : List CreateChildCall) :
    ∀ (root tree : CustomLayoutNode), root.LevelInvariant = true →
      root.createChildren calls = some tree → tree.LevelInvariant = true := by
  induction calls with
  | nil =>
    intro root tree hinv h
    simp only [createChildren, Option.some.injEq] at h
    subst h
    exact hinv
  | cons call rest ih =>
    intro root tree hinv h
    rw [createChildren] at h
    cases hc : root.createChildAt call with
    | none => rw [hc] at h; cases h
    | some root' =>
      rw [hc] at h
      exact ih root' tree (levelInvariant_createChildAt root root' call hinv hc) h

/-- In a tree that satisfies the level invariant, the level of a child is the level of its
parent plus one in `uint32_t`, and one of the two levels is odd and the other even. -/
theorem levelInvariant_child (n : CustomLayoutNode) (ptr : NodePtr)
    (parent c : CustomLayoutNode) (link : ChildLink) (hinv : n.LevelInvariant = true)
    (hp : n.nodeAt ptr = some parent) (hc : parent.child link = some c) :
    c.GetLevel = (parent.GetLevel + 1) % UINT32_SIZE ∧
      (c.GetLevel % 2 = 1 ↔ parent.GetLevel % 2 = 0) := by
  have hpinv := levelInvariant_nodeAt n ptr parent hinv hp
  obtain ⟨l, r, lv, p, s, ratio, f, isLogical⟩ := parent
  rw [levelInvariant_mk] at hpinv
  have hlevel : c.GetLevel = (lv + 1) % UINT32_SIZE := by
    cases link with
    | pLeft => exact (hpinv.1 c hc).1
    | pRight => exact (hpinv.2 c hc).1
  refine ⟨hlevel, ?_⟩
  rw [hlevel]
  show (lv + 1) % UINT32_SIZE % 2 = 1 ↔ lv % 2 = 0
  unfold UINT32_SIZE
  omega

end CustomLayoutNode

namespace CustomLayout

/-- The root after a frame on a valid layout: the viewport part gives a root with the same
ratios, levels, kinds, callbacks and children; the frame keeps that root unless a held
splitter is dragged, and in every case keeps levels, kinds, callbacks and children. -/
theorem frame_root (self : CustomLayout) (io : ImGuiFrame) (root : CustomLayoutNode)
    (hvalid : self.Valid = true) (hroot : self.m_pRoot = some root) :
    ∃ root1 layout calls root', self.viewportResize io = some (some root1) ∧
      root1.clearDomains = root.clearDomains ∧
      (¬ (io.WorkSize.x ≠ self.m_lastViewport.x ∨ io.WorkSize.y ≠ self.m_lastViewport.y) →
        root1 = root) ∧
      self.BeginEndLayout io = some (layout, calls) ∧ layout.m_pRoot = some root' ∧
      root'.clearGeometry = root.clearGeometry ∧
      (¬ (self.m_splitterHeld = true ∧ io.MouseDown = true) → root' = root1) := by
  have hwf : root.WellFormed = true := by
    obtain ⟨root0, hroot0, hwf0, -⟩ := (valid_iff self).1 hvalid
    rw [hroot] at hroot0
    cases hroot0
    exact hwf0
  obtain ⟨root1, hv, hclear, -, hsame⟩ := viewportResize_spec self io root hroot hwf
  obtain ⟨root2, hv2, h⟩ := frame_cases self io hvalid
  have h12 : root2 = root1 := by
    rw [hv] at hv2
    cases hv2
    rfl
  subst h12
  have hgeo : root2.clearGeometry = root.clearGeometry :=
    clearGeometry_of_clearDomains_eq root root2 hclear
  rcases h with ⟨-, -, h⟩ | ⟨-, -, ptr, m, -, -, h⟩ | ⟨-, -, ptr, m, -, -, h⟩ |
    ⟨hh, hd, ptr, held, held', root', -, hnode, hres, hw, -, h⟩ | ⟨-, -, h⟩
  · exact ⟨root2, _, _, root2, hv, hclear, hsame, h, rfl, hgeo, fun _ => rfl⟩
  · exact ⟨root2, _, _, root2, hv, hclear, hsame, h, rfl, hgeo, fun _ => rfl⟩
  · exact ⟨root2, _, _, root2, hv, hclear, hsame, h, rfl, hgeo, fun _ => rfl⟩
  · refine ⟨root2, _, _, root', hv, hclear, hsame, h, rfl, ?_, fun hn => absurd ⟨hh, hd⟩ hn⟩
    have hheld' : held'.clearGeometry = held.clearGeometry := by
      rw [clearGeometry_of_clearDomains_eq _ held' (clearDomains_resize _ _ _ held' hres),
        clearGeometry_setSplitterRatio]
    rw [clearGeometry_writeAt root2 held' held hheld' ptr root' hnode hw]
    exact hgeo
  · exact ⟨root2, _, _, root2, hv, hclear, hsame, h, rfl, hgeo, fun _ => rfl⟩

end CustomLayout

open CustomLayoutNode CustomLayout

/-- C16 as stated fails: the general constructor takes any `uint32_t` level; on a logical
domain at level 4294967295 `CreateLeftChild` gives the child the level 0, which is not the
level of the parent plus one. -/
theorem child_level_wraps_counterexample :
    (4294967295 : Nat) < UINT32_SIZE ∧
    ∃ n' c,
      (newGeneral true 4294967295 ⟨0, 0⟩ ⟨1280, 720⟩ (1 / 2) none).CreateLeftChild
        (ChildArg.ratio (1 / 2)) = some n' ∧
      n'.GetLeftChild = some c ∧ c.GetLevel = 0 ∧
      c.GetLevel ≠ (newGeneral true 4294967295 ⟨0, 0⟩ ⟨1280, 720⟩ (1 / 2) none).GetLevel + 1 := by
  refine ⟨by unfold UINT32_SIZE; omega, _, _, rfl, rfl, rfl, ?_⟩
  intro h
  have h0 : (setLevel (newChild (ChildArg.ratio (1 / 2)))
      ((4294967295 + 1) % UINT32_SIZE)).GetLevel = 0 := rfl
  rw [h0] at h
  simp [newGeneral, GetLevel] at h

/-- C16, amended: `CreateLeftChild` and `CreateRightChild` set the level of the new child to
the level of the parent plus one computed in `uint32_t`, which is the level of the parent
plus one whenever that is below 2^32.  In every tree built from a root that has the
invariant (every constructor makes one) by these calls, the level of every child is the
level of its parent plus one in `uint32_t`; `ResizeNodeAndChildren` and every frame of
`BeginEndLayout` on a valid layout keep this, and under it one of the levels of a parent
and its child is odd and the other even. -/
theorem child_level_is_parent_level_plus_one_mod_uint32 :
    (∀ (n n' : CustomLayoutNode) (link : ChildLink) (arg : ChildArg),
      n.CreateChild link arg = some n' →
      n'.GetLevel = n.GetLevel ∧
      ∃ c, n'.child link = some c ∧ c.GetLevel = (n.GetLevel + 1) % UINT32_SIZE ∧
        (n.GetLevel + 1 < UINT32_SIZE → c.GetLevel = n.GetLevel + 1)) ∧
    (∀ isLogicalDomain level domainPos domainSize splitterRatio customFunc,
      (newGeneral isLogicalDomain level domainPos domainSize splitterRatio
        customFunc).LevelInvariant = true) ∧
    (∀ splitterRatio, (newLogicalDomain splitterRatio).LevelInvariant = true) ∧
    (∀ customFunc, (newWindow customFunc).LevelInvariant = true) ∧
    (∀ (root tree : CustomLayoutNode) (calls : List CreateChildCall),
      root.LevelInvariant = true → root.createChildren calls = some tree →
      tree.LevelInvariant = true) ∧
    (∀ (n n' : CustomLayoutNode) (pos size : ImVec2),
      n.ResizeNodeAndChildren pos size = some n' → n'.LevelInvariant = n.LevelInvariant) ∧
    (∀ (self : CustomLayout) (io : ImGuiFrame) (root : CustomLayoutNode),
      self.Valid = true → self.m_pRoot = some root →
      ∃ layout calls root', self.BeginEndLayout io = some (layout, calls) ∧
        layout.m_pRoot = some root' ∧ root'.LevelInvariant = root.LevelInvariant) ∧
    (∀ (n : CustomLayoutNode) (ptr : NodePtr) (parent c : CustomLayoutNode) (link : ChildLink),
      n.LevelInvariant = true → n.nodeAt ptr = some parent → parent.child link = some c →
      c.GetLevel = (parent.GetLevel + 1) % UINT32_SIZE ∧
        (c.GetLevel % 2 = 1 ↔ parent.GetLevel % 2 = 0)) := by
  refine ⟨?_, fun _ _ _ _ _ _ => rfl, fun _ => rfl, fun _ => rfl, ?_, ?_, ?_, ?_⟩
  · intro n n' link arg h
    obtain ⟨hlevel, hchild, -⟩ := createChild_spec n n' link arg h
    refine ⟨hlevel, _, hchild, (levelInvariant_newChild arg _).2, fun hlt => ?_⟩
    rw [(levelInvariant_newChild arg _).2]
    exact Nat.mod_eq_of_lt hlt
  · intro root tree calls hinv h
    exact levelInvariant_createChildren calls root tree hinv h
  · intro n n' pos size h
    exact levelInvariant_of_clearGeometry_eq n n'
      (clearGeometry_of_clearDomains_eq n n' (clearDomains_resize n pos size n' h))
  · intro self io root hvalid hroot
    obtain ⟨root1, layout, calls, root', -, -, -, h, hr, hgeo, -⟩ :=
      frame_root self io root hvalid hroot
    exact ⟨layout, calls, root', h, hr, levelInvariant_of_clearGeometry_eq root root' hgeo⟩
  · intro n ptr parent c link hinv hp hc
    exact levelInvariant_child n ptr parent c link hinv hp hc

/-- Witness of C16, amended: the tree built from the logical domain of the constructor by a
first child that is a logical domain, a window under that child, and a second child. -/
theorem child_level_is_parent_level_plus_one_mod_uint32_witness :
    ∃ tree, (newLogicalDomain (4 / 5)).createChildren
        [⟨[], ChildLink.pLeft, ChildArg.ratio (1 / 2)⟩,
          ⟨[ChildLink.pLeft], ChildLink.pLeft, ChildArg.windowFunc (some 1)⟩,
          ⟨[], ChildLink.pRight, ChildArg.windowFunc none⟩] = some tree ∧
      tree.LevelInvariant = true :=
  ⟨_, rfl, child_level_is_parent_level_plus_one_mod_uint32.2.2.2.2.1
    (newLogicalDomain (4 / 5)) _
    [⟨[], ChildLink.pLeft, ChildArg.ratio (1 / 2)⟩,
      ⟨[ChildLink.pLeft], ChildLink.pLeft, ChildArg.windowFunc (some 1)⟩,
      ⟨[], ChildLink.pRight, ChildArg.windowFunc none⟩] rfl rfl⟩

theorem ratio_of_clearDomains_eq (n n' : CustomLayoutNode)
    (h : n'.clearDomains = n.clearDomains) (ptr : NodePtr) :
    (n'.nodeAt ptr).map splitterRatio = (n.nodeAt ptr).map splitterRatio := by
  have hptr : (n'.nodeAt ptr).map clearDomains = (n.nodeAt ptr).map clearDomains := by
    rw [← nodeAt_clearDomains, ← nodeAt_clearDomains, h]
  cases hm : n.nodeAt ptr with
  | none =>
    rw [hm] at hptr
    cases hm' : n'.nodeAt ptr with
    | none => rfl
    | some m' => rw [hm'] at hptr; simp at hptr
  | some m =>
    rw [hm] at hptr
    cases hm' : n'.nodeAt ptr with
    | none => rw [hm'] at hptr; simp at hptr
    | some m' =>
      rw [hm'] at hptr
      simp only [Option.map_some', Option.some.injEq] at hptr
      simp [(fields_of_clearDomains_eq m m' hptr).2.1]

/-- C12: in the dragging state, a frame in which the left button is not down ends in the idle
state and changes no ratio: the tree after the frame has the ratios, levels, kinds, callbacks
and children of the tree before it (it is the same tree when the viewport size is the
recorded one).  A frame in which the button is down ends in the dragging state. -/
theorem dragging_frame_release_or_stay (self : CustomLayout) (io : ImGuiFrame)
    (root : CustomLayoutNode) (hvalid : self.Valid = true) (hroot : self.m_pRoot = some root)
    (hheld : self.m_splitterHeld = true) :
    ∃ layout calls root', self.BeginEndLayout io = some (layout, calls) ∧
      layout.m_pRoot = some root' ∧
      (io.MouseDown = false →
        layout.m_splitterHeld = false ∧ root'.clearDomains = root.clearDomains ∧
        (∀ ptr : NodePtr,
          (root'.nodeAt ptr).map splitterRatio = (root.nodeAt ptr).map splitterRatio) ∧
        (¬ (io.WorkSize.x ≠ self.m_lastViewport.x ∨ io.WorkSize.y ≠ self.m_lastViewport.y) →
          root' = root)) ∧
      (io.MouseDown = true → layout.m_splitterHeld = true) := by
  obtain ⟨root1, layout, calls, root', hv, hclear, hsame, h, hr, -, hkeep⟩ :=
    frame_root self io root hvalid hroot
  obtain ⟨root2, -, hc⟩ := frame_cases self io hvalid
  refine ⟨layout, calls, root', h, hr, ?_, ?_⟩
  · intro hup
    have hroot' : root' = root1 := hkeep (fun hn => by rw [hup] at hn; cases hn.2)
    subst hroot'
    refine ⟨?_, hclear, ratio_of_clearDomains_eq root root' hclear, hsame⟩
    rcases hc with ⟨hh, -⟩ | ⟨hh, -⟩ | ⟨hh, -⟩ | ⟨-, hd, -⟩ | ⟨-, -, h2⟩
    · rw [hheld] at hh; cases hh
    · rw [hheld] at hh; cases hh
    · rw [hheld] at hh; cases hh
    · rw [hup] at hd; cases hd
    · rw [h] at h2
      cases h2
      rfl
  · intro hdown
    rcases hc with ⟨hh, -⟩ | ⟨hh, -⟩ | ⟨hh, -⟩ |
      ⟨-, -, ptr, held, held', root3, -, -, -, -, -, h2⟩ | ⟨-, hd, -⟩
    · rw [hheld] at hh; cases hh
    · rw [hheld] at hh; cases hh
    · rw [hheld] at hh; cases hh
    · rw [h] at h2
      cases h2
      exact hheld
    · rw [hdown] at hd; cases hd

/-- Witness of C12: the example layout with its root splitter held, in a frame with the
button up. -/
theorem dragging_frame_release_or_stay_witness :
    ∃ layout calls root',
      exampleLayoutDragging.BeginEndLayout (exampleFrame ⟨900, 100⟩ false false) =
        some (layout, calls) ∧
      layout.m_pRoot = some root' ∧ layout.m_splitterHeld = false ∧
      root' = exampleRootLaidOut := by
  obtain ⟨layout, calls, root', h, hr, hup, -⟩ :=
    dragging_frame_release_or_stay exampleLayoutDragging (exampleFrame ⟨900, 100⟩ false false)
      exampleRootLaidOut rfl rfl rfl
  obtain ⟨hidle, -, -, hsame⟩ := hup rfl
  exact ⟨layout, calls, root', h, hr, hidle,
    hsame (by simp [exampleFrame, exampleLayoutDragging])⟩

/-- C13 as stated fails: the example layout holds its root splitter; after a frame with the
button up the state is idle and `m_pHeldSplitterDomain` still points to the root. -/
theorem release_keeps_held_pointer_counterexample :
    ∃ layout calls,
      exampleLayoutDragging.BeginEndLayout (exampleFrame ⟨900, 100⟩ false false) =
        some (layout, calls) ∧
      layout.m_splitterHeld = false ∧ layout.m_pHeldSplitterDomain = some [] ∧
      layout.m_pHeldSplitterDomain ≠ none := by
  obtain ⟨root1, -, hc⟩ :=
    frame_cases exampleLayoutDragging (exampleFrame ⟨900, 100⟩ false false) rfl
  rcases hc with ⟨hh, -⟩ | ⟨hh, -⟩ | ⟨hh, -⟩ | ⟨-, hd, -⟩ | ⟨-, -, h⟩
  · cases hh
  · cases hh
  · cases hh
  · cases hd
  · exact ⟨_, _, h, rfl, rfl, by simp [exampleLayoutDragging]⟩

/-- C13, amended: when the button is released during a drag, the frame sets `m_splitterHeld`
to false and leaves `m_pHeldSplitterDomain` as it is.  Every frame that ends in the idle
state leaves the pointer as it was before the frame, so the layout holds no pointer after
such a frame exactly when it held none before, as after construction. -/
theorem idle_frame_keeps_held_pointer (self : CustomLayout) (io : ImGuiFrame)
    (hvalid : self.Valid = true) :
    ∃ layout calls, self.BeginEndLayout io = some (layout, calls) ∧
      (layout.m_splitterHeld = false →
        layout.m_pHeldSplitterDomain = self.m_pHeldSplitterDomain) ∧
      (self.m_splitterHeld = true → io.MouseDown = false →
        layout.m_splitterHeld = false ∧
          layout.m_pHeldSplitterDomain = self.m_pHeldSplitterDomain) ∧
      (∀ root, (CustomLayout.new root).m_pHeldSplitterDomain = none) := by
  obtain ⟨root1, -, hc⟩ := frame_cases self io hvalid
  rcases hc with ⟨hh, -, h⟩ | ⟨hh, -, ptr, m, -, -, h⟩ | ⟨hh, -, ptr, m, -, -, h⟩ |
    ⟨hh, hd, ptr, held, held', root', -, -, -, -, -, h⟩ | ⟨hh, hd, h⟩
  · refine ⟨_, _, h, fun _ => rfl, ?_, fun _ => rfl⟩
    intro hheld
    rw [hh] at hheld
    cases hheld
  · refine ⟨_, _, h, fun _ => rfl, ?_, fun _ => rfl⟩
    intro hheld
    rw [hh] at hheld
    cases hheld
  · refine ⟨_, _, h, ?_, ?_, fun _ => rfl⟩
    · intro hidle
      cases hidle
    · intro hheld
      rw [hh] at hheld
      cases hheld
  · refine ⟨_, _, h, fun _ => rfl, ?_, fun _ => rfl⟩
    intro _ hup
    rw [hd] at hup
    cases hup
  · exact ⟨_, _, h, fun _ => rfl, fun _ _ => ⟨rfl, rfl⟩, fun _ => rfl⟩

/-- Witness of C13, amended: the release frame of the example layout. -/
theorem idle_frame_keeps_held_pointer_witness :
    ∃ layout calls,
      exampleLayoutDragging.BeginEndLayout (exampleFrame ⟨900, 100⟩ false false) =
        some (layout, calls) ∧
      layout.m_splitterHeld = false ∧
      layout.m_pHeldSplitterDomain = exampleLayoutDragging.m_pHeldSplitterDomain := by
  obtain ⟨layout, calls, h, -, hrel, -⟩ :=
    idle_frame_keeps_held_pointer exampleLayoutDragging (exampleFrame ⟨900, 100⟩ false false) rfl
  exact ⟨layout, calls, h, hrel rfl rfl⟩

namespace CustomLayoutNode

end CustomLayoutNode

open CustomLayoutNode CustomLayout

namespace CustomLayoutNode

/-- The call `ResizeNodeAndChildren` returns only on a well-formed tree. -/
theorem wellFormed_of_resize (n : CustomLayoutNode) :
    ∀ (p s : ImVec2) (n' : CustomLayoutNode), n.ResizeNodeAndChildren p s = some n' →
      n.WellFormed = true := by
  induction n using node_induction with
  | step l r lv p0 s0 ratio f isLogical iha ihb =>
    intro p s n' h
    cases isLogical with
    | false => simp [wellFormed_mk]
    | true =>
      cases l with
      | none => rw [resize_null_child _ _ _ _ _ _ _ _ _ (Or.inl rfl)] at h; cases h
      | some a =>
        cases r with
        | none => rw [resize_null_child _ _ _ _ _ _ _ _ _ (Or.inr rfl)] at h; cases h
        | some b =>
          rw [wellFormed_split]
          by_cases hlv : lv % 2 = 1
          · rw [resize_odd a b lv p0 s0 ratio f p s hlv] at h
            simp only [Option.bind_eq_some] at h
            obtain ⟨a', ha', b', hb', -⟩ := h
            exact ⟨iha a rfl _ _ a' ha', ihb b rfl _ _ b' hb'⟩
          · rw [resize_even a b lv p0 s0 ratio f p s hlv] at h
            simp only [Option.bind_eq_some] at h
            obtain ⟨a', ha', b', hb', -⟩ := h
            exact ⟨iha a rfl _ _ a' ha', ihb b rfl _ _ b' hb'⟩

end CustomLayoutNode

namespace CustomLayout

/-- The geometry a dragging frame gives the held node: the ratio is the quotient of the
candidate coordinate `mouse + offset` minus the domain origin by the domain size along the
split axis, with no clamping, and the two children get the sizes that follow from it. -/
theorem drag_frame_geometry (self : CustomLayout) (io : ImGuiFrame)
    (hvalid : self.Valid = true) (hheld : self.m_splitterHeld = true)
    (hdown : io.MouseDown = true) :
    ∃ root1 ptr held held' root' layout calls,
      self.viewportResize io = some (some root1) ∧
      self.m_pHeldSplitterDomain = some ptr ∧ root1.nodeAt ptr = some held ∧
      self.BeginEndLayout io = some (layout, calls) ∧
      layout.m_pRoot = some root' ∧ root'.nodeAt ptr = some held' ∧
      held'.splitterRatio =
        (held.axisCoord io.MousePos + self.m_splitterBottonDownDelta -
          held.axisCoord held.GetDomainPos) / held.axisCoord held.GetDomainSize ∧
      (held.IsLogicalDomain = true → held.axisCoord held.GetDomainSize ≠ 0 →
        ∃ a' b', held'.GetLeftChild = some a' ∧ held'.GetRightChild = some b' ∧
          held.axisCoord a'.GetDomainSize =
            held.axisCoord io.MousePos + self.m_splitterBottonDownDelta -
              held.axisCoord held.GetDomainPos ∧
          held.axisCoord b'.GetDomainSize =
            held.axisCoord held.GetDomainSize -
              (held.axisCoord io.MousePos + self.m_splitterBottonDownDelta -
                held.axisCoord held.GetDomainPos + 2)) := by
  obtain ⟨root1, hv, h⟩ := frame_cases self io hvalid
  rcases h with ⟨hh, -⟩ | ⟨hh, -⟩ | ⟨hh, -⟩ |
    ⟨-, -, ptr, held, held', root', hptr, hnode, hres, hw, hn', h⟩ | ⟨-, hup, -⟩
  · rw [hheld] at hh; cases hh
  · rw [hheld] at hh; cases hh
  · rw [hheld] at hh; cases hh
  · rw [newSplitterRatio_eq] at hres
    obtain ⟨-, -, -, hr, -⟩ := resize_fields _ _ _ _ hres
    have hratio : held'.splitterRatio =
        (held.axisCoord io.MousePos + self.m_splitterBottonDownDelta -
          held.axisCoord held.GetDomainPos) / held.axisCoord held.GetDomainSize := by
      rw [hr]
      cases held
      rfl
    refine ⟨root1, ptr, held, held', root', _, _, hv, hptr, hnode, h, rfl, hn', hratio, ?_⟩
    intro hlog hsize
    have hwf := wellFormed_of_resize _ _ _ _ hres
    rw [wellFormed_setSplitterRatio] at hwf
    obtain ⟨l, r, lv, p, s, ratio, f, isLogical⟩ := held
    simp only [IsLogicalDomain] at hlog
    subst hlog
    obtain ⟨a, b, rfl, rfl, ha, hb⟩ := wellFormed_children l r lv p s ratio f hwf
    obtain ⟨rnew, hrnew⟩ : ∃ x : ℚ, x =
        ((CustomLayoutNode.mk (some a) (some b) lv p s ratio f true).axisCoord io.MousePos +
          self.m_splitterBottonDownDelta -
          (CustomLayoutNode.mk (some a) (some b) lv p s ratio f true).axisCoord
            (CustomLayoutNode.mk (some a) (some b) lv p s ratio f true).GetDomainPos) /
          (CustomLayoutNode.mk (some a) (some b) lv p s ratio f true).axisCoord
            (CustomLayoutNode.mk (some a) (some b) lv p s ratio f true).GetDomainSize :=
      ⟨_, rfl⟩
    rw [← hrnew] at hres
    obtain ⟨n', a', b', hres', -, -, hl', hr', hodd, heven⟩ :=
      resize_split_children (CustomLayoutNode.mk (some a) (some b) lv p s rnew f true)
        a b p s rfl rfl rfl ha hb
    have hn : n' = held' := by
      have := hres'.symm.trans hres
      simpa using this
    subst hn
    refine ⟨a', b', hl', hr', ?_⟩
    by_cases hlv : lv % 2 = 1
    · obtain ⟨-, h2, -, h4⟩ := hodd hlv
      simp only [axisCoord, GetLevel, hlv, if_true] at hsize hrnew ⊢
      rw [h2, h4]
      simp only [splitterRatio, GetDomainPos, GetDomainSize] at hsize hrnew ⊢
      rw [hrnew]
      constructor <;> field_simp
    · have hlv0 : lv % 2 = 0 := by omega
      obtain ⟨-, h2, -, h4⟩ := heven hlv0
      simp only [axisCoord, GetLevel, hlv, if_false] at hsize hrnew ⊢
      rw [h2, h4]
      simp only [splitterRatio, GetDomainPos, GetDomainSize] at hsize hrnew ⊢
      rw [hrnew]
      constructor <;> field_simp
  · rw [hdown] at hup; cases hup

end CustomLayout

open CustomLayoutNode CustomLayout

/-- C11 as stated fails: the example layout holds its root splitter (domain 1280 wide at
x = 0, offset 1); a frame with the button down and the mouse at x = 5000 gives the root the
ratio 5001/1280, above 0.98 and above 1, and the second child a negative width. -/
theorem drag_ratio_not_clamped_counterexample :
    ∃ layout calls root' b',
      exampleLayoutDragging.BeginEndLayout (exampleFrame ⟨5000, 100⟩ false true) =
        some (layout, calls) ∧
      layout.m_pRoot = some root' ∧ root'.splitterRatio = 5001 / 1280 ∧
      ¬ root'.splitterRatio ≤ 49 / 50 ∧
      root'.GetRightChild = some b' ∧ b'.GetDomainSize.x = -3723 ∧
      b'.GetDomainSize.x ≤ 0 := by
  obtain ⟨root1, ptr, held, held', root', layout, calls, hv, hptr, hnode, h, hr, hn', hratio,
      hchildren⟩ :=
    drag_frame_geometry exampleLayoutDragging (exampleFrame ⟨5000, 100⟩ false true) rfl rfl rfl
  have hv0 : exampleLayoutDragging.viewportResize (exampleFrame ⟨5000, 100⟩ false true) =
      some (some exampleRootLaidOut) :=
    viewportResize_same exampleLayoutDragging (exampleFrame ⟨5000, 100⟩ false true)
      (by simp [exampleFrame, exampleLayoutDragging])
  rw [hv0] at hv
  cases hv
  have hp : ptr = [] := by
    simp only [exampleLayoutDragging, Option.some.injEq] at hptr
    exact hptr.symm
  subst hp
  rw [nodeAt_nil] at hnode hn'
  cases hnode
  cases hn'
  obtain ⟨a', b', -, hb', -, hbsize⟩ := hchildren rfl
    (by norm_num [exampleRootLaidOut, axisCoord, GetLevel, GetDomainSize])
  have hratio' : held'.splitterRatio = 5001 / 1280 := by
    rw [hratio]
    norm_num [exampleRootLaidOut, exampleFrame, exampleLayoutDragging, axisCoord, GetLevel,
      GetDomainPos, GetDomainSize]
  have hsize' : b'.GetDomainSize.x = -3723 := by
    have hx : exampleRootLaidOut.axisCoord b'.GetDomainSize = b'.GetDomainSize.x := by
      simp [exampleRootLaidOut, axisCoord, GetLevel]
    rw [← hx, hbsize]
    norm_num [exampleRootLaidOut, exampleFrame, exampleLayoutDragging, axisCoord, GetLevel,
      GetDomainPos, GetDomainSize]
  refine ⟨layout, calls, held', b', h, hr, hratio', ?_, hb', hsize', ?_⟩
  · rw [hratio']; norm_num
  · rw [hsize']; norm_num

/-- C11, amended: no clamping is done.  In the dragging state with the button down the frame
returns, and for a held node whose size along the split axis is not zero the ratio given to
the held node is `(mouse.axis + offset - domainPos.axis) / domainSize.axis` as it is.  For a
held node with a positive size along the split axis and any bounds `lo` and `hi` (0.02 and
0.98, say), the ratio is within the bounds exactly when the candidate coordinate
`mouse.axis + offset` is within `[domainPos.axis + lo * size, domainPos.axis + hi * size]`.
The first child of a held logical domain gets the size `candidate - domainPos.axis` along the
split axis and the second child gets
`domainSize.axis - (candidate - domainPos.axis + 2)`, of any sign.  At the size zero the
quotient of the source is a division of floats by zero, which the exact arithmetic here does
not describe; nothing is stated about the ratio then. -/
theorem drag_ratio_is_unclamped_quotient (self : CustomLayout) (io : ImGuiFrame)
    (hvalid : self.Valid = true) (hheld : self.m_splitterHeld = true)
    (hdown : io.MouseDown = true) :
    ∃ root1 ptr held layout calls,
      self.viewportResize io = some (some root1) ∧
      self.m_pHeldSplitterDomain = some ptr ∧ root1.nodeAt ptr = some held ∧
      self.BeginEndLayout io = some (layout, calls) ∧
      (held.axisCoord held.GetDomainSize ≠ 0 →
        ∃ held' root',
          layout.m_pRoot = some root' ∧ root'.nodeAt ptr = some held' ∧
          held'.splitterRatio =
            (held.axisCoord io.MousePos + self.m_splitterBottonDownDelta -
              held.axisCoord held.GetDomainPos) / held.axisCoord held.GetDomainSize ∧
          (∀ lo hi : ℚ, 0 < held.axisCoord held.GetDomainSize →
            ((lo ≤ held'.splitterRatio ∧ held'.splitterRatio ≤ hi) ↔
              (held.axisCoord held.GetDomainPos + lo * held.axisCoord held.GetDomainSize ≤
                  held.axisCoord io.MousePos + self.m_splitterBottonDownDelta ∧
                held.axisCoord io.MousePos + self.m_splitterBottonDownDelta ≤
                  held.axisCoord held.GetDomainPos +
                    hi * held.axisCoord held.GetDomainSize))) ∧
          (held.IsLogicalDomain = true →
            ∃ a' b', held'.GetLeftChild = some a' ∧ held'.GetRightChild = some b' ∧
              held.axisCoord a'.GetDomainSize =
                held.axisCoord io.MousePos + self.m_splitterBottonDownDelta -
                  held.axisCoord held.GetDomainPos ∧
              held.axisCoord b'.GetDomainSize =
                held.axisCoord held.GetDomainSize -
                  (held.axisCoord io.MousePos + self.m_splitterBottonDownDelta -
                    held.axisCoord held.GetDomainPos + 2))) := by
  obtain ⟨root1, ptr, held, held', root', layout, calls, hv, hptr, hnode, h, hr, hn', hratio,
      hchildren⟩ := drag_frame_geometry self io hvalid hheld hdown
  refine ⟨root1, ptr, held, layout, calls, hv, hptr, hnode, h, fun hnz => ?_⟩
  refine ⟨held', root', hr, hn', hratio, ?_, fun hlog => hchildren hlog hnz⟩
  intro lo hi hpos
  rw [hratio, le_div_iff₀ hpos, div_le_iff₀ hpos]
  constructor
  · rintro ⟨h1, h2⟩
    exact ⟨by linarith, by linarith⟩
  · rintro ⟨h1, h2⟩
    exact ⟨by linarith, by linarith⟩

/-- Witness of C11, amended: the example layout with its root splitter held (a domain 1280
wide, not zero) and the mouse moved to x = 900 with the button down; the ratio becomes
901/1280, and the children get the widths 901 and 377. -/
theorem drag_ratio_is_unclamped_quotient_witness :
    exampleRootLaidOut.axisCoord exampleRootLaidOut.GetDomainSize ≠ 0 ∧
    ∃ held' root' layout calls a' b',
      exampleLayoutDragging.BeginEndLayout (exampleFrame ⟨900, 100⟩ false true) =
        some (layout, calls) ∧
      layout.m_pRoot = some root' ∧ root'.nodeAt [] = some held' ∧
      held'.splitterRatio = 901 / 1280 ∧
      held'.GetLeftChild = some a' ∧ held'.GetRightChild = some b' ∧
      exampleRootLaidOut.axisCoord a'.GetDomainSize = 901 ∧
      exampleRootLaidOut.axisCoord b'.GetDomainSize = 377 := by
  have hnz : exampleRootLaidOut.axisCoord exampleRootLaidOut.GetDomainSize ≠ 0 := by
    norm_num [exampleRootLaidOut, axisCoord, GetLevel, GetDomainSize]
  obtain ⟨root1, ptr, held, layout, calls, hv, hptr, hnode, hbe, hg⟩ :=
    drag_ratio_is_unclamped_quotient exampleLayoutDragging (exampleFrame ⟨900, 100⟩ false true)
      rfl rfl rfl
  have hv0 : exampleLayoutDragging.viewportResize (exampleFrame ⟨900, 100⟩ false true) =
      some (some exampleRootLaidOut) :=
    viewportResize_same exampleLayoutDragging (exampleFrame ⟨900, 100⟩ false true)
      (by simp [exampleFrame, exampleLayoutDragging])
  rw [hv0] at hv
  cases hv
  have hp : ptr = [] := by
    simp only [exampleLayoutDragging, Option.some.injEq] at hptr
    exact hptr.symm
  subst hp
  rw [nodeAt_nil] at hnode
  cases hnode
  obtain ⟨held', root', hroot', hn', hratio, -, hchildren⟩ := hg hnz
  obtain ⟨a', b', ha', hb', hasize, hbsize⟩ := hchildren rfl
  refine ⟨hnz, held', root', layout, calls, a', b', hbe, hroot', hn', ?_, ha', hb', ?_, ?_⟩
  · rw [hratio]
    norm_num [exampleRootLaidOut, exampleFrame, exampleLayoutDragging, axisCoord, GetLevel,
      GetDomainPos, GetDomainSize]
  · rw [hasize]
    norm_num [exampleRootLaidOut, exampleFrame, exampleLayoutDragging, axisCoord, GetLevel,
      GetDomainPos, GetDomainSize]
  · rw [hbsize]
    norm_num [exampleRootLaidOut, exampleFrame, exampleLayoutDragging, axisCoord, GetLevel,
      GetDomainPos, GetDomainSize]

namespace CustomLayoutNode

theorem wellFormed_of_leaf (n : CustomLayoutNode) (h : n.IsLogicalDomain = false) :
    n.WellFormed = true := by
  obtain ⟨l, r, lv, p, s, ratio, f, isLogical⟩ := n
  simp only [IsLogicalDomain] at h
  subst h
  simp [wellFormed_mk]

/-- A second `ResizeNodeAndChildren` forgets the first: its result is the result of the call
on the tree as it was before the first. -/
theorem resize_resize (n : CustomLayoutNode) :
    ∀ (n1 : CustomLayoutNode) (p1 s1 p2 s2 : ImVec2),
      n.ResizeNodeAndChildren p1 s1 = some n1 →
      n1.ResizeNodeAndChildren p2 s2 = n.ResizeNodeAndChildren p2 s2 := by
  induction n using node_induction with
  | step l r lv p0 s0 ratio f isLogical iha ihb =>
    intro n1 p1 s1 p2 s2 h
    cases isLogical with
    | false =>
      rw [resize_leaf] at h
      cases h
      rw [resize_leaf, resize_leaf]
    | true =>
      cases l with
      | none => rw [resize_null_child _ _ _ _ _ _ _ _ _ (Or.inl rfl)] at h; cases h
      | some a =>
        cases r with
        | none => rw [resize_null_child _ _ _ _ _ _ _ _ _ (Or.inr rfl)] at h; cases h
        | some b =>
          by_cases hlv : lv % 2 = 1
          · rw [resize_odd a b lv p0 s0 ratio f p1 s1 hlv] at h
            simp only [Option.bind_eq_some] at h
            obtain ⟨a1, ha1, b1, hb1, h⟩ := h
            cases h
            rw [resize_odd a1 b1 lv p1 s1 ratio f p2 s2 hlv,
              resize_odd a b lv p0 s0 ratio f p2 s2 hlv,
              iha a rfl a1 _ _ _ _ ha1, ihb b rfl b1 _ _ _ _ hb1]
          · rw [resize_even a b lv p0 s0 ratio f p1 s1 hlv] at h
            simp only [Option.bind_eq_some] at h
            obtain ⟨a1, ha1, b1, hb1, h⟩ := h
            cases h
            rw [resize_even a1 b1 lv p1 s1 ratio f p2 s2 hlv,
              resize_even a b lv p0 s0 ratio f p2 s2 hlv,
              iha a rfl a1 _ _ _ _ ha1, ihb b rfl b1 _ _ _ _ hb1]

end CustomLayoutNode

open CustomLayoutNode CustomLayout

/-- C30: on a well-formed tree (every logical domain reached has both children)
`ResizeNodeAndChildren` and `GetHoverSplitter` return for every position, size and mouse
position, without a dereference of a null child, and the tree `ResizeNodeAndChildren` returns
is well-formed again.  `BeginEndNodeAndChildren` returns on every tree: on a logical domain it
makes the calls of the children it has and skips a missing child. -/
theorem totality_on_well_formed_trees (n : CustomLayoutNode) (pos size mouse : ImVec2) :
    (n.WellFormed = true →
      (∃ n', n.ResizeNodeAndChildren pos size = some n' ∧ n'.WellFormed = true) ∧
      (∃ res, n.GetHoverSplitter mouse = some res)) ∧
    (∃ calls, n.BeginEndNodeAndChildren = calls) ∧
    (∀ (l r : Option CustomLayoutNode) (lv : Nat) (p s : ImVec2) (ratio : ℚ)
      (f : Option CustomWindowFunc),
      (mk l r lv p s ratio f true).BeginEndNodeAndChildren =
        (match l with
          | some a => a.BeginEndNodeAndChildren
          | none => []) ++
        (match r with
          | some b => b.BeginEndNodeAndChildren
          | none => [])) := by
  refine ⟨fun hwf => ⟨?_, hover_isSome_of_wellFormed n mouse hwf⟩, ⟨_, rfl⟩, ?_⟩
  · obtain ⟨n', h⟩ := resize_isSome_of_wellFormed n pos size hwf
    exact ⟨n', h, by rw [wellFormed_resize n n' pos size h]; exact hwf⟩
  · intro l r lv p s ratio f
    rw [beginEnd_logical]
    cases l <;> cases r <;> rfl

/-- Witness of C30: the example root, which is well-formed. -/
theorem totality_on_well_formed_trees_witness :
    (∃ n', exampleRoot.ResizeNodeAndChildren ⟨0, 0⟩ ⟨1280, 720⟩ = some n' ∧
      n'.WellFormed = true) ∧
    (∃ res, exampleRoot.GetHoverSplitter ⟨100, 100⟩ = some res) :=
  (totality_on_well_formed_trees exampleRoot ⟨0, 0⟩ ⟨1280, 720⟩ ⟨100, 100⟩).1 rfl

/-- C22: Scenario A.  A root logical domain at level 1 with ratio 4/5 and two window nodes
(leaves), resized to position (0, 0) and size (1280, 720) with the splitter width 2, gives
the first child the position (0, 0) and the size (1024, 720) and the second child the
position (1026, 0) and the size (254, 720). -/
theorem scenario_a_children_domains (a b : CustomLayoutNode) (p0 s0 : ImVec2)
    (f : Option CustomWindowFunc) (ha : a.IsLogicalDomain = false)
    (hb : b.IsLogicalDomain = false) :
    ∃ n' a' b',
      (mk (some a) (some b) 1 p0 s0 (4 / 5) f true).ResizeNodeAndChildren ⟨0, 0⟩ ⟨1280, 720⟩ =
        some n' ∧
      n'.GetDomainPos = ⟨0, 0⟩ ∧ n'.GetDomainSize = ⟨1280, 720⟩ ∧
      n'.GetLeftChild = some a' ∧ n'.GetRightChild = some b' ∧
      a'.GetDomainPos = ⟨0, 0⟩ ∧ a'.GetDomainSize = ⟨1024, 720⟩ ∧
      b'.GetDomainPos = ⟨1026, 0⟩ ∧ b'.GetDomainSize = ⟨254, 720⟩ ∧
      a' = (a.SetDomainPos ⟨0, 0⟩).SetDomainSize ⟨1024, 720⟩ ∧
      b' = (b.SetDomainPos ⟨1026, 0⟩).SetDomainSize ⟨254, 720⟩ := by
  obtain ⟨la, ra, lva, pa, sa, ratioa, fa, isLogicala⟩ := a
  obtain ⟨lb, rb, lvb, pb, sb, ratiob, fb, isLogicalb⟩ := b
  simp only [IsLogicalDomain] at ha hb
  subst ha hb
  refine ⟨mk (some (mk la ra lva ⟨0, 0⟩ ⟨1024, 720⟩ ratioa fa false))
    (some (mk lb rb lvb ⟨1026, 0⟩ ⟨254, 720⟩ ratiob fb false)) 1 ⟨0, 0⟩ ⟨1280, 720⟩ (4 / 5) f
      true, _, _, ?_, rfl, rfl, rfl, rfl, rfl, rfl, rfl, rfl, rfl, rfl⟩
  rw [resize_odd _ _ 1 p0 s0 (4 / 5) f ⟨0, 0⟩ ⟨1280, 720⟩ rfl, resize_leaf, resize_leaf]
  norm_num

/-- Witness of C22: the example root. -/
theorem scenario_a_children_domains_witness :
    ∃ n' a' b', exampleRoot.ResizeNodeAndChildren ⟨0, 0⟩ ⟨1280, 720⟩ = some n' ∧
      n'.GetDomainPos = ⟨0, 0⟩ ∧ n'.GetDomainSize = ⟨1280, 720⟩ ∧
      n'.GetLeftChild = some a' ∧ n'.GetRightChild = some b' ∧
      a'.GetDomainPos = ⟨0, 0⟩ ∧ a'.GetDomainSize = ⟨1024, 720⟩ ∧
      b'.GetDomainPos = ⟨1026, 0⟩ ∧ b'.GetDomainSize = ⟨254, 720⟩ ∧
      a' = ((exampleWindow 2 (some 1)).SetDomainPos ⟨0, 0⟩).SetDomainSize ⟨1024, 720⟩ ∧
      b' = ((exampleWindow 2 none).SetDomainPos ⟨1026, 0⟩).SetDomainSize ⟨254, 720⟩ :=
  scenario_a_children_domains (exampleWindow 2 (some 1)) (exampleWindow 2 none) ⟨0, 0⟩ ⟨0, 0⟩
    none rfl rfl

/-- C23: Scenario B, as history independence.  On a well-formed tree, a resize to
`(p1, s1)` followed by a resize to `(p2, s2)` returns the tree that the resize to `(p2, s2)`
alone returns, and every ratio is as before.  For the tree of Scenario A resized to
1280 x 720 and then to 1920 x 1080 at the origin, the first child is 1536 wide, the second
child is 382 wide and the ratio is 4/5. -/
theorem resize_is_history_independent (n : CustomLayoutNode) (p1 s1 p2 s2 : ImVec2)
    (hwf : n.WellFormed = true) :
    (∃ n1 n2, n.ResizeNodeAndChildren p1 s1 = some n1 ∧
      n1.ResizeNodeAndChildren p2 s2 = some n2 ∧
      n.ResizeNodeAndChildren p2 s2 = some n2 ∧
      n2.clearDomains = n.clearDomains ∧
      ∀ ptr : NodePtr,
        (n2.nodeAt ptr).map splitterRatio = (n.nodeAt ptr).map splitterRatio) ∧
    (∀ (a b : CustomLayoutNode) (p0 s0 : ImVec2) (f : Option CustomWindowFunc),
      a.IsLogicalDomain = false → b.IsLogicalDomain = false →
      ∃ n1 n2 a2 b2,
        (mk (some a) (some b) 1 p0 s0 (4 / 5) f true).ResizeNodeAndChildren ⟨0, 0⟩
          ⟨1280, 720⟩ = some n1 ∧
        n1.ResizeNodeAndChildren ⟨0, 0⟩ ⟨1920, 1080⟩ = some n2 ∧
        n2.GetLeftChild = some a2 ∧ n2.GetRightChild = some b2 ∧
        a2.GetDomainSize.x = 1536 ∧ b2.GetDomainSize.x = 382 ∧
        n2.splitterRatio = 4 / 5) := by
  constructor
  · obtain ⟨n1, h1⟩ := resize_isSome_of_wellFormed n p1 s1 hwf
    obtain ⟨n2, h2⟩ := resize_isSome_of_wellFormed n p2 s2 hwf
    have h12 : n1.ResizeNodeAndChildren p2 s2 = some n2 := by
      rw [resize_resize n n1 p1 s1 p2 s2 h1]; exact h2
    have hc := clearDomains_resize n p2 s2 n2 h2
    exact ⟨n1, n2, h1, h12, h2, hc, ratio_of_clearDomains_eq n n2 hc⟩
  · intro a b p0 s0 f ha hb
    obtain ⟨la, ra, lva, pa, sa, ratioa, fa, isLogicala⟩ := a
    obtain ⟨lb, rb, lvb, pb, sb, ratiob, fb, isLogicalb⟩ := b
    simp only [IsLogicalDomain] at ha hb
    subst ha hb
    have h1 : (mk (some (mk la ra lva pa sa ratioa fa false))
        (some (mk lb rb lvb pb sb ratiob fb false)) 1 p0 s0 (4 / 5) f
          true).ResizeNodeAndChildren ⟨0, 0⟩ ⟨1280, 720⟩ =
        some (mk (some (mk la ra lva ⟨0, 0⟩ ⟨1024, 720⟩ ratioa fa false))
          (some (mk lb rb lvb ⟨1026, 0⟩ ⟨254, 720⟩ ratiob fb false)) 1 ⟨0, 0⟩ ⟨1280, 720⟩
          (4 / 5) f true) := by
      rw [resize_odd _ _ 1 p0 s0 (4 / 5) f ⟨0, 0⟩ ⟨1280, 720⟩ rfl, resize_leaf, resize_leaf]
      norm_num
    refine ⟨_, mk (some (mk la ra lva ⟨0, 0⟩ ⟨1536, 1080⟩ ratioa fa false))
      (some (mk lb rb lvb ⟨1538, 0⟩ ⟨382, 1080⟩ ratiob fb false)) 1 ⟨0, 0⟩ ⟨1920, 1080⟩
      (4 / 5) f true, _, _, h1, ?_, rfl, rfl, rfl, rfl, rfl⟩
    rw [resize_odd _ _ 1 _ _ (4 / 5) f ⟨0, 0⟩ ⟨1920, 1080⟩ rfl, resize_leaf, resize_leaf]
    norm_num

/-- Witness of C23: the example root resized to 1280 x 720 and then to 1920 x 1080. -/
theorem resize_is_history_independent_witness :
    ∃ n1 n2, exampleRoot.ResizeNodeAndChildren ⟨0, 0⟩ ⟨1280, 720⟩ = some n1 ∧
      n1.ResizeNodeAndChildren ⟨0, 0⟩ ⟨1920, 1080⟩ = some n2 ∧
      exampleRoot.ResizeNodeAndChildren ⟨0, 0⟩ ⟨1920, 1080⟩ = some n2 ∧
      n2.clearDomains = exampleRoot.clearDomains ∧
      ∀ ptr : NodePtr,
        (n2.nodeAt ptr).map splitterRatio = (exampleRoot.nodeAt ptr).map splitterRatio :=
  (resize_is_history_independent exampleRoot ⟨0, 0⟩ ⟨1280, 720⟩ ⟨0, 0⟩ ⟨1920, 1080⟩ rfl).1

/-- C24: Scenario C.  For a root logical domain at level 1 whose two children are window nodes
(leaves), a mouse position whose x is within one unit of the x of the splitter and whose y is
in the extent of the domain makes `GetHoverSplitter` return the root.  A mouse position 50
units before the x of the splitter, still in the domain, is not in the band of the root;
`GetHoverSplitter` then returns the result of the first child, which is `nullptr`. -/
theorem scenario_c_hover (a b : CustomLayoutNode) (p s mouse : ImVec2) (ratio : ℚ)
    (f : Option CustomWindowFunc) (ha : a.IsLogicalDomain = false)
    (hylo : p.y ≤ mouse.y) (hyhi : mouse.y ≤ p.y + s.y) :
    (|mouse.x - (mk (some a) (some b) 1 p s ratio f true).GetSplitterStartCoord| ≤ 1 →
      (mk (some a) (some b) 1 p s ratio f true).GetHoverSplitter mouse = some (some [])) ∧
    (mouse.x = (mk (some a) (some b) 1 p s ratio f true).GetSplitterStartCoord - 50 →
      p.x ≤ mouse.x →
      IsMouseHoveringRect mouse (mk (some a) (some b) 1 p s ratio f true).splitterMin
        (mk (some a) (some b) 1 p s ratio f true).splitterMax = false ∧
      (mk (some a) (some b) 1 p s ratio f true).GetHoverSplitter mouse =
        (a.GetHoverSplitter mouse).map (Option.map (List.cons ChildLink.pLeft)) ∧
      a.GetHoverSplitter mouse = some none ∧
      (mk (some a) (some b) 1 p s ratio f true).GetHoverSplitter mouse = some none) := by
  have hleaf : a.GetHoverSplitter mouse = some none := by
    obtain ⟨la, ra, lva, pa, sa, ratioa, fa, isLogicala⟩ := a
    simp only [IsLogicalDomain] at ha
    subst ha
    exact hover_leaf _ _ _ _ _ _ _ _
  constructor
  · intro hnear
    rw [abs_le] at hnear
    apply hover_self
    simp only [GetSplitterStartCoord, GetLevel, GetDomainPos, GetDomainSize, splitterRatio]
      at hnear
    norm_num at hnear
    simp only [IsMouseHoveringRect, splitterMin, splitterMax, SplitterWidthPadding,
      GetSplitterWidth, GetLevel, GetDomainPos, GetDomainSize, splitterRatio,
      decide_eq_true_eq]
    norm_num
    exact ⟨by linarith [hnear.1], hylo, by linarith [hnear.2], hyhi⟩
  · intro hx hxlo
    simp only [GetSplitterStartCoord, GetLevel, GetDomainPos, GetDomainSize, splitterRatio]
      at hx
    norm_num at hx
    have hband : IsMouseHoveringRect mouse (mk (some a) (some b) 1 p s ratio f true).splitterMin
        (mk (some a) (some b) 1 p s ratio f true).splitterMax = false := by
      simp only [IsMouseHoveringRect, splitterMin, splitterMax, SplitterWidthPadding,
        GetSplitterWidth, GetLevel, GetDomainPos, GetDomainSize, splitterRatio,
        decide_eq_false_iff_not]
      norm_num
      intro h1
      linarith
    have hleft : IsMouseHoveringRect mouse p
        (mk (some a) (some b) 1 p s ratio f true).leftRegionMax = true := by
      simp only [IsMouseHoveringRect, leftRegionMax, splitterMin, splitterMax,
        SplitterWidthPadding, GetSplitterWidth, GetLevel, GetDomainPos, GetDomainSize,
        splitterRatio, decide_eq_true_eq]
      norm_num
      exact ⟨hxlo, hylo, by linarith, hyhi⟩
    have heq := hover_left (some a) (some b) 1 p s ratio f mouse hband hleft
    simp only [Option.some_bind] at heq
    refine ⟨hband, heq, hleaf, ?_⟩
    rw [heq, hleaf]
    rfl

/-- Witness of C24: the laid out example root (splitter at x = 1024) with the mouse at
(1025, 100) and at (974, 100). -/
theorem scenario_c_hover_witness :
    exampleRootLaidOut.GetHoverSplitter ⟨1025, 100⟩ = some (some []) ∧
    exampleRootLaidOut.GetHoverSplitter ⟨974, 100⟩ = some none :=
  ⟨(scenario_c_hover (mk none none 2 ⟨0, 0⟩ ⟨1024, 720⟩ 0 (some 1) false)
      (mk none none 2 ⟨1026, 0⟩ ⟨254, 720⟩ 0 none false) ⟨0, 0⟩ ⟨1280, 720⟩ ⟨1025, 100⟩
      (4 / 5) none rfl (by norm_num) (by norm_num)).1
      (by
        rw [abs_le]
        norm_num [GetSplitterStartCoord, GetLevel, GetDomainPos, GetDomainSize,
          splitterRatio]),
    ((scenario_c_hover (mk none none 2 ⟨0, 0⟩ ⟨1024, 720⟩ 0 (some 1) false)
      (mk none none 2 ⟨1026, 0⟩ ⟨254, 720⟩ 0 none false) ⟨0, 0⟩ ⟨1280, 720⟩ ⟨974, 100⟩
      (4 / 5) none rfl (by norm_num) (by norm_num)).2
      (by norm_num [GetSplitterStartCoord, GetLevel, GetDomainPos, GetDomainSize,
        splitterRatio])
      (by norm_num)).2.2.2⟩

namespace CustomLayoutNode

theorem consistent_leaf (l r : Option CustomLayoutNode) (lv : Nat) (p s : ImVec2) (ratio : ℚ)
    (f : Option CustomWindowFunc) : (mk l r lv p s ratio f false).Consistent = true := by
  rw [Consistent.eq_def]
  simp

theorem consistent_split (a b : CustomLayoutNode) (lv : Nat) (p s : ImVec2) (ratio : ℚ)
    (f : Option CustomWindowFunc) :
    (mk (some a) (some b) lv p s ratio f true).Consistent = true ↔
      (a.GetDomainPos = leftChildPos (mk (some a) (some b) lv p s ratio f true) ∧
        a.GetDomainSize = leftChildSize (mk (some a) (some b) lv p s ratio f true) ∧
        b.GetDomainPos = rightChildPos (mk (some a) (some b) lv p s ratio f true) ∧
        b.GetDomainSize = rightChildSize (mk (some a) (some b) lv p s ratio f true)) ∧
      a.Consistent = true ∧ b.Consistent = true := by
  rw [Consistent.eq_def]
  simp [and_assoc]

/-- The child domains of a node depend on its level, domain and ratio only. -/
theorem childDomains_congr (n m : CustomLayoutNode) (hl : m.GetLevel = n.GetLevel)
    (hp : m.GetDomainPos = n.GetDomainPos) (hs : m.GetDomainSize = n.GetDomainSize)
    (hr : m.splitterRatio = n.splitterRatio) :
    m.leftChildPos = n.leftChildPos ∧ m.leftChildSize = n.leftChildSize ∧
      m.rightChildPos = n.rightChildPos ∧ m.rightChildSize = n.rightChildSize := by
  simp only [leftChildPos, leftChildSize, rightChildPos, rightChildSize, GetSplitterStartCoord,
    GetSplitterWidth, hl, hp, hs, hr, and_self]

/-- The result of `ResizeNodeAndChildren` on a logical domain with both children, by the
domains passed to the children. -/
theorem resize_split (a b : CustomLayoutNode) (lv : Nat) (p0 s0 : ImVec2) (ratio : ℚ)
    (f : Option CustomWindowFunc) (p s : ImVec2) :
    (mk (some a) (some b) lv p0 s0 ratio f true).ResizeNodeAndChildren p s =
      (a.ResizeNodeAndChildren (leftChildPos (mk (some a) (some b) lv p s ratio f true))
        (leftChildSize (mk (some a) (some b) lv p s ratio f true))).bind (fun a' =>
        (b.ResizeNodeAndChildren (rightChildPos (mk (some a) (some b) lv p s ratio f true))
          (rightChildSize (mk (some a) (some b) lv p s ratio f true))).bind (fun b' =>
          some (mk (some a') (some b') lv p s ratio f true))) := by
  by_cases hlv : lv % 2 = 1
  · rw [resize_odd a b lv p0 s0 ratio f p s hlv]
    simp only [leftChildPos, leftChildSize, rightChildPos, rightChildSize,
      GetSplitterStartCoord, GetSplitterWidth, GetLevel, GetDomainPos, GetDomainSize,
      splitterRatio, hlv, if_true]
  · rw [resize_even a b lv p0 s0 ratio f p s hlv]
    simp only [leftChildPos, leftChildSize, rightChildPos, rightChildSize,
      GetSplitterStartCoord, GetSplitterWidth, GetLevel, GetDomainPos, GetDomainSize,
      splitterRatio, hlv, if_false]

/-- The tree `ResizeNodeAndChildren` returns is consistent. -/
theorem consistent_resize (n : CustomLayoutNode) :
    ∀ (p s : ImVec2) (n' : CustomLayoutNode), n.ResizeNodeAndChildren p s = some n' →
      n'.Consistent = true := by
  induction n using node_induction with
  | step l r lv p0 s0 ratio f isLogical iha ihb =>
    intro p s n' h
    cases isLogical with
    | false =>
      rw [resize_leaf] at h
      cases h
      exact consistent_leaf _ _ _ _ _ _ _
    | true =>
      cases l with
      | none => rw [resize_null_child _ _ _ _ _ _ _ _ _ (Or.inl rfl)] at h; cases h
      | some a =>
        cases r with
        | none => rw [resize_null_child _ _ _ _ _ _ _ _ _ (Or.inr rfl)] at h; cases h
        | some b =>
          rw [resize_split] at h
          simp only [Option.bind_eq_some] at h
          obtain ⟨a', ha', b', hb', h⟩ := h
          cases h
          rw [consistent_split]
          obtain ⟨hap, has, -⟩ := resize_fields _ _ _ _ ha'
          obtain ⟨hbp, hbs, -⟩ := resize_fields _ _ _ _ hb'
          refine ⟨⟨?_, ?_, ?_, ?_⟩, iha a rfl _ _ a' ha', ihb b rfl _ _ b' hb'⟩
          · rw [hap]; rfl
          · rw [has]
            exact ((childDomains_congr (mk (some a) (some b) lv p s ratio f true)
              (mk (some a') (some b') lv p s ratio f true) rfl rfl rfl rfl).2.1).symm
          · rw [hbp]
            exact ((childDomains_congr (mk (some a) (some b) lv p s ratio f true)
              (mk (some a') (some b') lv p s ratio f true) rfl rfl rfl rfl).2.2.1).symm
          · rw [hbs]
            exact ((childDomains_congr (mk (some a) (some b) lv p s ratio f true)
              (mk (some a') (some b') lv p s ratio f true) rfl rfl rfl rfl).2.2.2).symm

/-- Writing, through a pointer, a consistent state that has the domain of the node it replaces
keeps the tree consistent. -/
theorem consistent_writeAt (n : CustomLayoutNode) (new old : CustomLayoutNode)
    (hnew : new.Consistent = true) (hp : new.GetDomainPos = old.GetDomainPos)
    (hs : new.GetDomainSize = old.GetDomainSize) :
    ∀ (ptr : NodePtr) (n' : CustomLayoutNode), n.Consistent = true →
      n.nodeAt ptr = some old → n.writeAt ptr new = some n' → n'.Consistent = true := by
  induction n using node_induction with
  | step l r lv p s ratio f isLogical iha ihb =>
    intro ptr n' hcons hold hw
    cases ptr with
    | nil =>
      rw [writeAt_nil] at hw
      cases hw
      exact hnew
    | cons c rest =>
      cases c with
      | pLeft =>
        rw [nodeAt_pLeft] at hold
        rw [writeAt_pLeft] at hw
        cases l with
        | none => cases hold
        | some a =>
          simp only [Option.some_bind, Option.map_eq_some'] at hw hold
          obtain ⟨a', ha', rfl⟩ := hw
          cases isLogical with
          | false => exact consistent_leaf _ _ _ _ _ _ _
          | true =>
            cases r with
            | none => rw [Consistent.eq_def]; simp
            | some b =>
              rw [consistent_split] at hcons ⊢
              obtain ⟨⟨h1, h2, h3, h4⟩, hca, hcb⟩ := hcons
              obtain ⟨hd1, hd2⟩ := writeAt_domain a new a' rest old hold ha' hp hs
              refine ⟨⟨?_, ?_, h3, h4⟩, iha a rfl rest a' hca hold ha', hcb⟩
              · rw [hd1]; exact h1
              · rw [hd2]; exact h2
      | pRight =>
        rw [nodeAt_pRight] at hold
        rw [writeAt_pRight] at hw
        cases r with
        | none => cases hold
        | some b =>
          simp only [Option.some_bind, Option.map_eq_some'] at hw hold
          obtain ⟨b', hb', rfl⟩ := hw
          cases isLogical with
          | false => exact consistent_leaf _ _ _ _ _ _ _
          | true =>
            cases l with
            | none => rw [Consistent.eq_def]; simp
            | some a =>
              rw [consistent_split] at hcons ⊢
              obtain ⟨⟨h1, h2, h3, h4⟩, hca, hcb⟩ := hcons
              obtain ⟨hd1, hd2⟩ := writeAt_domain b new b' rest old hold hb' hp hs
              refine ⟨⟨h1, h2, ?_, ?_⟩, hca, ihb b rfl rest b' hcb hold hb'⟩
              · rw [hd1]; exact h3
              · rw [hd2]; exact h4

end CustomLayoutNode

namespace CustomLayoutNode

theorem wellFormed_clearGeometry (n : CustomLayoutNode) :
    n.clearGeometry.WellFormed = n.WellFormed := by
  induction n using node_induction with
  | step l r lv p s ratio f isLogical iha ihb =>
    rw [clearGeometry_mk, wellFormed_mk, wellFormed_mk]
    cases l with
    | none => simp
    | some a =>
      cases r with
      | none => simp
      | some b => simp [iha a rfl, ihb b rfl]

theorem wellFormed_of_clearGeometry_eq (n n' : CustomLayoutNode)
    (h : n'.clearGeometry = n.clearGeometry) : n'.WellFormed = n.WellFormed := by
  rw [← wellFormed_clearGeometry n', ← wellFormed_clearGeometry n, h]

/-- The node `GetHoverSplitter` returns on a well-formed tree is well-formed. -/
theorem hover_wellFormed (n : CustomLayoutNode) (mouse : ImVec2) :
    ∀ (ptr : NodePtr) (m : CustomLayoutNode), n.WellFormed = true →
      n.GetHoverSplitter mouse = some (some ptr) → n.nodeAt ptr = some m →
      m.WellFormed = true := by
  induction n using node_induction with
  | step l r lv p s ratio f isLogical iha ihb =>
    intro ptr m hwf h hm
    cases isLogical with
    | false => rw [hover_leaf] at h; cases h
    | true =>
      obtain ⟨a, b, rfl, rfl, hwa, hwb⟩ := wellFormed_children l r lv p s ratio f hwf
      cases hband : IsMouseHoveringRect mouse (mk (some a) (some b) lv p s ratio f true).splitterMin
          (mk (some a) (some b) lv p s ratio f true).splitterMax with
      | true =>
        rw [hover_self _ _ _ _ _ _ _ _ hband] at h
        cases h
        rw [nodeAt_nil] at hm
        cases hm
        exact hwf
      | false =>
        cases hleft : IsMouseHoveringRect mouse p
            (mk (some a) (some b) lv p s ratio f true).leftRegionMax with
        | true =>
          rw [hover_left _ _ _ _ _ _ _ _ hband hleft] at h
          simp only [Option.some_bind, Option.map_eq_some'] at h
          obtain ⟨res, hres, h⟩ := h
          obtain ⟨rest, rfl, rfl⟩ := h
          rw [nodeAt_pLeft] at hm
          exact iha a rfl rest m hwa hres hm
        | false =>
          rw [hover_right _ _ _ _ _ _ _ _ hband hleft] at h
          simp only [Option.some_bind, Option.map_eq_some'] at h
          obtain ⟨res, hres, h⟩ := h
          obtain ⟨rest, rfl, rfl⟩ := h
          rw [nodeAt_pRight] at hm
          exact ihb b rfl rest m hwb hres hm

end CustomLayoutNode

namespace CustomLayout

theorem heldValid_iff (self : CustomLayout) :
    self.HeldValid = true ↔
      ∃ root, self.m_pRoot = some root ∧ root.WellFormed = true ∧
        (self.m_splitterHeld = true →
          ∃ pHeld held, self.m_pHeldSplitterDomain = some pHeld ∧
            root.nodeAt pHeld = some held ∧ held.WellFormed = true ∧
            held.IsLogicalDomain = true) := by
  unfold HeldValid
  rw [Bool.and_eq_true, valid_iff]
  constructor
  · rintro ⟨⟨root, hroot, hwf, hheld⟩, h2⟩
    refine ⟨root, hroot, hwf, fun hh => ?_⟩
    obtain ⟨pHeld, held, hp, hn, hw⟩ := hheld hh
    refine ⟨pHeld, held, hp, hn, hw, ?_⟩
    rw [hh, hp, hroot] at h2
    simpa [hn] using h2
  · rintro ⟨root, hroot, hwf, hheld⟩
    refine ⟨⟨root, hroot, hwf, fun hh => ?_⟩, ?_⟩
    · obtain ⟨pHeld, held, hp, hn, hw, -⟩ := hheld hh
      exact ⟨pHeld, held, hp, hn, hw⟩
    · rcases Bool.eq_false_or_eq_true self.m_splitterHeld with hh | hh
      · obtain ⟨pHeld, held, hp, hn, -, hl⟩ := hheld hh
        rw [hh, hp, hroot]
        simpa [hn] using hl
      · rw [hh]; rfl

theorem heldValid_valid (self : CustomLayout) (h : self.HeldValid = true) :
    self.Valid = true := by
  unfold HeldValid at h
  rw [Bool.and_eq_true] at h
  exact h.1

end CustomLayout

namespace CustomLayout

/-- One frame on a valid layout: it returns a valid layout, keeps the stronger validity and
the consistency of the tree, and a frame that starts with the splitter held keeps the held
pointer and the recorded delta. -/
theorem frame_step (self : CustomLayout) (io : ImGuiFrame) (root : CustomLayoutNode)
    (hvalid : self.Valid = true) (hroot : self.m_pRoot = some root) :
    ∃ layout calls root', self.BeginEndLayout io = some (layout, calls) ∧
      layout.m_pRoot = some root' ∧ layout.Valid = true ∧
      (self.HeldValid = true → layout.HeldValid = true) ∧
      (root.Consistent = true → root'.Consistent = true) ∧
      (self.m_splitterHeld = true →
        layout.m_pHeldSplitterDomain = self.m_pHeldSplitterDomain ∧
        layout.m_splitterBottonDownDelta = self.m_splitterBottonDownDelta) := by
  obtain ⟨root0, hroot0, hwf, hheldnode⟩ := (valid_iff self).1 hvalid
  rw [hroot] at hroot0
  cases hroot0
  obtain ⟨root1, hv, hclear, hdiff, hsame⟩ := viewportResize_spec self io root hroot hwf
  obtain ⟨root2, hv2, h⟩ := frame_cases self io hvalid
  have h12 : root2 = root1 := by
    rw [hv] at hv2
    cases hv2
    rfl
  subst h12
  have hwf1 : root2.WellFormed = true := by
    rw [wellFormed_of_clearDomains_eq root root2 hclear]; exact hwf
  have hcons1 : root.Consistent = true → root2.Consistent = true := by
    intro hc
    by_cases hd : io.WorkSize.x ≠ self.m_lastViewport.x ∨ io.WorkSize.y ≠ self.m_lastViewport.y
    · exact consistent_resize root _ _ root2 (hdiff hd)
    · rw [hsame hd]; exact hc
  rcases h with ⟨hh, -, h⟩ | ⟨hh, -, ptr, m, -, -, h⟩ | ⟨hh, -, ptr, m, hhover, hm, h⟩ |
    ⟨hh, hd, ptr, held, held', root', hptr, hnode, hres, hw, hn', h⟩ | ⟨hh, -, h⟩
  · refine ⟨_, _, root2, h, rfl, ?_, fun _ => ?_, hcons1, fun hh' => ?_⟩
    · exact (valid_iff _).2 ⟨root2, rfl, hwf1, fun hh' => by
        have h2 : self.m_splitterHeld = true := hh'
        rw [hh] at h2; cases h2⟩
    · exact (heldValid_iff _).2 ⟨root2, rfl, hwf1, fun hh' => by
        have h2 : self.m_splitterHeld = true := hh'
        rw [hh] at h2; cases h2⟩
    · rw [hh] at hh'; cases hh'
  · refine ⟨_, _, root2, h, rfl, ?_, fun _ => ?_, hcons1, fun hh' => ?_⟩
    · exact (valid_iff _).2 ⟨root2, rfl, hwf1, fun hh' => by
        have h2 : self.m_splitterHeld = true := hh'
        rw [hh] at h2; cases h2⟩
    · exact (heldValid_iff _).2 ⟨root2, rfl, hwf1, fun hh' => by
        have h2 : self.m_splitterHeld = true := hh'
        rw [hh] at h2; cases h2⟩
    · rw [hh] at hh'; cases hh'
  · obtain ⟨m0, hm0, hlog, -⟩ := hover_sound root2 io.MousePos ptr hhover
    rw [hm] at hm0
    cases hm0
    have hwfm : m.WellFormed = true := hover_wellFormed root2 io.MousePos ptr m hwf1 hhover hm
    refine ⟨_, _, root2, h, rfl, ?_, fun _ => ?_, hcons1, fun hh' => ?_⟩
    · exact (valid_iff _).2 ⟨root2, rfl, hwf1, fun _ => ⟨ptr, m, rfl, hm, hwfm⟩⟩
    · exact (heldValid_iff _).2 ⟨root2, rfl, hwf1, fun _ => ⟨ptr, m, rfl, hm, hwfm, hlog⟩⟩
    · rw [hh] at hh'; cases hh'
  · have hgeo' : held'.clearGeometry = held.clearGeometry := by
      rw [clearGeometry_of_clearDomains_eq _ held' (clearDomains_resize _ _ _ held' hres),
        clearGeometry_setSplitterRatio]
    have hwfr' : root'.WellFormed = true := by
      rw [wellFormed_of_clearGeometry_eq root2 root'
        (clearGeometry_writeAt root2 held' held hgeo' ptr root' hnode hw)]
      exact hwf1
    obtain ⟨hp', hs', -, -, -, hlog'⟩ := resize_fields _ held' _ _ hres
    have hwfh' : held'.WellFormed = true := by
      rw [wellFormed_resize _ held' _ _ hres]
      exact wellFormed_of_resize _ _ _ held' hres
    refine ⟨_, _, root', h, rfl, ?_, fun hhv => ?_, fun hc => ?_, fun _ => ⟨rfl, rfl⟩⟩
    · exact (valid_iff _).2 ⟨root', rfl, hwfr', fun _ => ⟨ptr, held', hptr, hn', hwfh'⟩⟩
    · obtain ⟨rootv, hrootv, -, hheldv⟩ := (heldValid_iff self).1 hhv
      rw [hroot] at hrootv
      cases hrootv
      obtain ⟨ptr0, held0, hptr0, hnode0, -, hlog0⟩ := hheldv hh
      rw [hptr] at hptr0
      cases hptr0
      obtain ⟨held1, hnode1, hclear1⟩ :=
        nodeAt_of_clearDomains_eq root root2 hclear ptr held0 hnode0
      rw [hnode] at hnode1
      cases hnode1
      have hlogh : held.IsLogicalDomain = true := by
        rw [(fields_of_clearDomains_eq held0 held hclear1).2.2.1]; exact hlog0
      refine (heldValid_iff _).2 ⟨root', rfl, hwfr', fun _ => ⟨ptr, held', hptr, hn', hwfh', ?_⟩⟩
      rw [hlog']
      obtain ⟨l, r, lv, p, s, ratio, f, isLogical⟩ := held
      exact hlogh
    · exact consistent_writeAt root2 held' held (consistent_resize _ _ _ held' hres) hp' hs'
        ptr root' (hcons1 hc) hnode hw
  · refine ⟨_, _, root2, h, rfl, ?_, fun _ => ?_, hcons1, fun _ => ⟨rfl, rfl⟩⟩
    · exact (valid_iff _).2 ⟨root2, rfl, hwf1, fun hh' => by cases hh'⟩
    · exact (heldValid_iff _).2 ⟨root2, rfl, hwf1, fun hh' => by cases hh'⟩

end CustomLayout

namespace CustomLayout

theorem runFrames_cons (self layout : CustomLayout) (io : ImGuiFrame) (rest : List ImGuiFrame)
    (calls : List ImGuiCall) (h : self.BeginEndLayout io = some (layout, calls)) :
    self.runFrames (io :: rest) = layout.runFrames rest := by
  rw [runFrames, h]

/-- Every sequence of frames on a valid layout returns a valid layout, and keeps the stronger
validity and the consistency of the tree. -/
theorem runFrames_invariant (frames : List ImGuiFrame) :
    ∀ (self : CustomLayout) (root : CustomLayoutNode), self.Valid = true →
      self.m_pRoot = some root →
      ∃ layout root', self.runFrames frames = some layout ∧ layout.m_pRoot = some root' ∧
        layout.Valid = true ∧ (self.HeldValid = true → layout.HeldValid = true) ∧
        (root.Consistent = true → root'.Consistent = true) := by
  induction frames with
  | nil =>
    intro self root hvalid hroot
    exact ⟨self, root, rfl, hroot, hvalid, fun h => h, fun h => h⟩
  | cons io rest ih =>
    intro self root hvalid hroot
    obtain ⟨layout, calls, root1, hbe, hroot1, hvalid1, hheld1, hcons1, -⟩ :=
      frame_step self io root hvalid hroot
    obtain ⟨layout2, root2, hrun, hroot2, hvalid2, hheld2, hcons2⟩ :=
      ih layout root1 hvalid1 hroot1
    exact ⟨layout2, root2, by rw [runFrames_cons self layout io rest calls hbe]; exact hrun,
      hroot2, hvalid2, fun h => hheld2 (hheld1 h), fun h => hcons2 (hcons1 h)⟩

theorem heldValid_new (root : CustomLayoutNode) (hwf : root.WellFormed = true) :
    (CustomLayout.new root).HeldValid = true :=
  (heldValid_iff _).2 ⟨root, rfl, hwf, fun h => by cases h⟩

theorem exampleRootLaidOut_consistent : exampleRootLaidOut.Consistent = true := by
  unfold exampleRootLaidOut
  rw [consistent_split]
  refine ⟨?_, consistent_leaf _ _ _ _ _ _ _, consistent_leaf _ _ _ _ _ _ _⟩
  norm_num [leftChildPos, leftChildSize, rightChildPos, rightChildSize, GetSplitterStartCoord,
    GetSplitterWidth, GetLevel, GetDomainPos, GetDomainSize, splitterRatio]

end CustomLayout

open CustomLayoutNode CustomLayout

/-- C26: geometry-consistency invariant.  A tree is consistent when, for every logical domain
(split node) with its two children, the domains of the children are those the resize formula
derives from the domain and the ratio of the node.  `ResizeNodeAndChildren` on the root of a
well-formed tree returns a consistent tree, and every frame of `BeginEndLayout` on a valid
layout whose tree is consistent (viewport resize, press, drag update, release, with any
input) returns a valid layout whose tree is consistent, hence so does every sequence of
frames. -/
theorem geometry_consistency_invariant (root : CustomLayoutNode) (p s : ImVec2)
    (hwf : root.WellFormed = true) :
    (∃ root', root.ResizeNodeAndChildren p s = some root' ∧ root'.Consistent = true) ∧
    (∀ (self : CustomLayout) (r : CustomLayoutNode) (io : ImGuiFrame),
      self.Valid = true → self.m_pRoot = some r → r.Consistent = true →
      ∃ layout calls r', self.BeginEndLayout io = some (layout, calls) ∧
        layout.Valid = true ∧ layout.m_pRoot = some r' ∧ r'.Consistent = true) ∧
    (∀ (self : CustomLayout) (r : CustomLayoutNode) (frames : List ImGuiFrame),
      self.Valid = true → self.m_pRoot = some r → r.Consistent = true →
      ∃ layout r', self.runFrames frames = some layout ∧
        layout.Valid = true ∧ layout.m_pRoot = some r' ∧ r'.Consistent = true) := by
  refine ⟨?_, ?_, ?_⟩
  · obtain ⟨root', h⟩ := resize_isSome_of_wellFormed root p s hwf
    exact ⟨root', h, consistent_resize root p s root' h⟩
  · intro self r io hvalid hroot hcons
    obtain ⟨layout, calls, r', hbe, hroot', hvalid', -, hcons', -⟩ :=
      frame_step self io r hvalid hroot
    exact ⟨layout, calls, r', hbe, hvalid', hroot', hcons' hcons⟩
  · intro self r frames hvalid hroot hcons
    obtain ⟨layout, r', hrun, hroot', hvalid', -, hcons'⟩ :=
      runFrames_invariant frames self r hvalid hroot
    exact ⟨layout, r', hrun, hvalid', hroot', hcons' hcons⟩

/-- Witness of C26: the example root is well-formed and its resize to 1280 x 720 is
consistent; the example layout is valid over a consistent tree, and a press on the splitter
followed by a drag and a release over a larger viewport leaves a consistent tree. -/
theorem geometry_consistency_invariant_witness :
    exampleRoot.WellFormed = true ∧
    (∃ root', exampleRoot.ResizeNodeAndChildren ⟨0, 0⟩ ⟨1280, 720⟩ = some root' ∧
      root'.Consistent = true) ∧
    (exampleLayout.Valid = true ∧ exampleLayout.m_pRoot = some exampleRootLaidOut ∧
      exampleRootLaidOut.Consistent = true ∧
      ∃ layout r', exampleLayout.runFrames
          [exampleFrame ⟨1023, 100⟩ true true, exampleFrame ⟨900, 100⟩ false true,
            exampleFrameLarge] = some layout ∧
        layout.Valid = true ∧ layout.m_pRoot = some r' ∧ r'.Consistent = true) :=
  ⟨rfl, (geometry_consistency_invariant exampleRoot ⟨0, 0⟩ ⟨1280, 720⟩ rfl).1, rfl, rfl,
    exampleRootLaidOut_consistent,
    (geometry_consistency_invariant exampleRoot ⟨0, 0⟩ ⟨1280, 720⟩ rfl).2.2 exampleLayout
      exampleRootLaidOut _ rfl rfl exampleRootLaidOut_consistent⟩

namespace CustomLayoutNode

theorem ratiosInUnit_leaf (l r : Option CustomLayoutNode) (lv : Nat) (p s : ImVec2) (ratio : ℚ)
    (f : Option CustomWindowFunc) : (mk l r lv p s ratio f false).RatiosInUnit = true := by
  rw [RatiosInUnit.eq_def]
  simp

theorem ratiosInUnit_split (a b : CustomLayoutNode) (lv : Nat) (p s : ImVec2) (ratio : ℚ)
    (f : Option CustomWindowFunc) :
    (mk (some a) (some b) lv p s ratio f true).RatiosInUnit = true ↔
      (0 < ratio ∧ ratio < 1) ∧ a.RatiosInUnit = true ∧ b.RatiosInUnit = true := by
  rw [RatiosInUnit.eq_def]
  simp [and_assoc]

theorem ratiosInUnit_clearDomains (n : CustomLayoutNode) :
    n.clearDomains.RatiosInUnit = n.RatiosInUnit := by
  induction n using node_induction with
  | step l r lv p s ratio f isLogical iha ihb =>
    rw [clearDomains_mk, RatiosInUnit.eq_def, RatiosInUnit.eq_def (mk l r lv p s ratio f isLogical)]
    cases l with
    | none =>
      cases r with
      | none => simp
      | some b => simp [ihb b rfl]
    | some a =>
      cases r with
      | none => simp [iha a rfl]
      | some b => simp [iha a rfl, ihb b rfl]

theorem ratiosInUnit_resize (n n' : CustomLayoutNode) (p s : ImVec2)
    (h : n.ResizeNodeAndChildren p s = some n') : n'.RatiosInUnit = n.RatiosInUnit := by
  rw [← ratiosInUnit_clearDomains n', ← ratiosInUnit_clearDomains n,
    clearDomains_resize n p s n' h]

/-- A point of the domain of the first child is a point of the domain of the node, when the
ratio lies between 0 and 1. -/
theorem leftChild_domain_sub (n a : CustomLayoutNode) (pt : ImVec2)
    (hr : 0 < n.splitterRatio ∧ n.splitterRatio < 1)
    (hp : a.GetDomainPos = n.leftChildPos) (hs : a.GetDomainSize = n.leftChildSize)
    (h : a.domainContains pt = true) : n.domainContains pt = true := by
  obtain ⟨hr0, hr1⟩ := hr
  simp only [domainContains, decide_eq_true_eq, hp, hs, leftChildPos, leftChildSize,
    GetSplitterStartCoord] at h ⊢
  by_cases hlv : n.GetLevel % 2 = 1
  · simp only [hlv, if_true] at h
    obtain ⟨h1, h2, h3, h4⟩ := h
    have hS : 0 < n.GetDomainSize.x := by
      by_contra hn
      push_neg at hn
      nlinarith [mul_nonneg (le_of_lt hr0) (neg_nonneg.2 hn)]
    refine ⟨h1, ?_, h3, h4⟩
    nlinarith [mul_pos (sub_pos.2 hr1) hS]
  · simp only [hlv, if_false] at h
    obtain ⟨h1, h2, h3, h4⟩ := h
    have hS : 0 < n.GetDomainSize.y := by
      by_contra hn
      push_neg at hn
      nlinarith [mul_nonneg (le_of_lt hr0) (neg_nonneg.2 hn)]
    refine ⟨h1, h2, h3, ?_⟩
    nlinarith [mul_pos (sub_pos.2 hr1) hS]

/-- A point of the domain of the second child is a point of the domain of the node, when the
ratio lies between 0 and 1. -/
theorem rightChild_domain_sub (n b : CustomLayoutNode) (pt : ImVec2)
    (hr : 0 < n.splitterRatio ∧ n.splitterRatio < 1)
    (hp : b.GetDomainPos = n.rightChildPos) (hs : b.GetDomainSize = n.rightChildSize)
    (h : b.domainContains pt = true) : n.domainContains pt = true := by
  obtain ⟨hr0, hr1⟩ := hr
  simp only [domainContains, decide_eq_true_eq, hp, hs, rightChildPos, rightChildSize,
    GetSplitterStartCoord, GetSplitterWidth] at h ⊢
  by_cases hlv : n.GetLevel % 2 = 1
  · simp only [hlv, if_true] at h
    obtain ⟨h1, h2, h3, h4⟩ := h
    have hS : 0 < n.GetDomainSize.x := by
      by_contra hn
      push_neg at hn
      nlinarith [mul_nonneg (le_of_lt (sub_pos.2 hr1)) (neg_nonneg.2 hn)]
    refine ⟨?_, ?_, h3, h4⟩
    · nlinarith [mul_pos hr0 hS]
    · linarith
  · simp only [hlv, if_false] at h
    obtain ⟨h1, h2, h3, h4⟩ := h
    have hS : 0 < n.GetDomainSize.y := by
      by_contra hn
      push_neg at hn
      nlinarith [mul_nonneg (le_of_lt (sub_pos.2 hr1)) (neg_nonneg.2 hn)]
    refine ⟨h1, h2, ?_, ?_⟩
    · nlinarith [mul_pos hr0 hS]
    · linarith

/-- No point lies in the domains of both children: the splitter lies between them. -/
theorem children_domains_disjoint (n a b : CustomLayoutNode) (pt : ImVec2)
    (hpa : a.GetDomainPos = n.leftChildPos) (hsa : a.GetDomainSize = n.leftChildSize)
    (hpb : b.GetDomainPos = n.rightChildPos)
    (ha : a.domainContains pt = true) (hb : b.domainContains pt = true) : False := by
  simp only [domainContains, decide_eq_true_eq, hpa, hsa, hpb, leftChildPos, leftChildSize,
    rightChildPos, GetSplitterStartCoord, GetSplitterWidth] at ha hb
  by_cases hlv : n.GetLevel % 2 = 1
  · simp only [hlv, if_true] at ha hb
    linarith [ha.2.1, hb.1]
  · simp only [hlv, if_false] at ha hb
    linarith [ha.2.2.2, hb.2.2.1]

/-- In a consistent well-formed tree with every ratio between 0 and 1, every point of the
domain of a window lies in the domain of the root, and no point lies in the domains of two
windows. -/
theorem windows_domains (n : CustomLayoutNode) :
    n.WellFormed = true → n.Consistent = true → n.RatiosInUnit = true →
      (∀ w ∈ n.windows, ∀ pt, w.domainContains pt = true → n.domainContains pt = true) ∧
      n.windows.Pairwise (fun w1 w2 =>
        ∀ pt, ¬ (w1.domainContains pt = true ∧ w2.domainContains pt = true)) := by
  induction n using node_induction with
  | step l r lv p s ratio f isLogical iha ihb =>
    intro hwf hcons hratio
    cases isLogical with
    | false =>
      rw [windows_window]
      refine ⟨fun w hw pt h => ?_, List.pairwise_singleton _ _⟩
      rw [List.mem_singleton] at hw
      rw [← hw]; exact h
    | true =>
      obtain ⟨a, b, rfl, rfl, hwa, hwb⟩ := wellFormed_children l r lv p s ratio f hwf
      obtain ⟨⟨hpa, hsa, hpb, hsb⟩, hca, hcb⟩ := (consistent_split a b lv p s ratio f).1 hcons
      obtain ⟨hr, hra, hrb⟩ := (ratiosInUnit_split a b lv p s ratio f).1 hratio
      obtain ⟨hina, hpwa⟩ := iha a rfl hwa hca hra
      obtain ⟨hinb, hpwb⟩ := ihb b rfl hwb hcb hrb
      rw [windows_logical]
      simp only [Option.elim]
      refine ⟨fun w hw pt h => ?_, ?_⟩
      · rcases List.mem_append.1 hw with hw | hw
        · exact leftChild_domain_sub _ a pt hr hpa hsa (hina w hw pt h)
        · exact rightChild_domain_sub _ b pt hr hpb hsb (hinb w hw pt h)
      · rw [List.pairwise_append]
        refine ⟨hpwa, hpwb, fun w1 hw1 w2 hw2 pt h => ?_⟩
        exact children_domains_disjoint _ a b pt hpa hsa hpb (hina w1 hw1 pt h.1)
          (hinb w2 hw2 pt h.2)

end CustomLayoutNode

open CustomLayoutNode CustomLayout

/-- C27: leaf regions are disjoint and stay inside the viewport.  For every well-formed tree
whose split ratios all lie strictly between 0 and 1 and every position and size,
`ResizeNodeAndChildren` on the root returns a tree in which every point of the rectangle
`[m_domainPos, m_domainPos + m_domainSize)` of a window node (leaf) is a point of the
rectangle `[pos, pos + size)` given to the root, and no point lies in the rectangles of two
distinct window nodes.  The window nodes are taken in traversal order, and a rectangle is the
set of its points, so a rectangle of negative width or height is empty. -/
theorem leaf_regions_disjoint_and_inside (root : CustomLayoutNode) (pos size : ImVec2)
    (hwf : root.WellFormed = true) (hratio : root.RatiosInUnit = true) :
    ∃ root', root.ResizeNodeAndChildren pos size = some root' ∧
      (∀ w ∈ root'.windows, ∀ pt, w.domainContains pt = true →
        pos.x ≤ pt.x ∧ pt.x < pos.x + size.x ∧ pos.y ≤ pt.y ∧ pt.y < pos.y + size.y) ∧
      (∀ i j (hi : i < root'.windows.length) (hj : j < root'.windows.length), i ≠ j →
        ∀ pt, ¬ ((root'.windows.get ⟨i, hi⟩).domainContains pt = true ∧
          (root'.windows.get ⟨j, hj⟩).domainContains pt = true)) := by
  obtain ⟨root', hres⟩ := resize_isSome_of_wellFormed root pos size hwf
  have hwf' : root'.WellFormed = true := by
    rw [wellFormed_resize root root' pos size hres]; exact hwf
  have hratio' : root'.RatiosInUnit = true := by
    rw [ratiosInUnit_resize root root' pos size hres]; exact hratio
  obtain ⟨hin, hpw⟩ := windows_domains root' hwf' (consistent_resize root pos size root' hres)
    hratio'
  obtain ⟨hp, hs, -⟩ := resize_fields root root' pos size hres
  refine ⟨root', hres, fun w hw pt h => ?_, fun i j hi hj hij pt h => ?_⟩
  · have h2 := hin w hw pt h
    simpa only [domainContains, decide_eq_true_eq, hp, hs] using h2
  · rcases Nat.lt_or_gt_of_ne hij with hlt | hgt
    · exact List.pairwise_iff_get.1 hpw ⟨i, hi⟩ ⟨j, hj⟩ hlt pt h
    · exact List.pairwise_iff_get.1 hpw ⟨j, hj⟩ ⟨i, hi⟩ hgt pt ⟨h.2, h.1⟩


/-- Witness of C27: the example root, with the ratio 4/5, resized to 1280 x 720. -/
theorem leaf_regions_disjoint_and_inside_witness :
    exampleRoot.WellFormed = true ∧ exampleRoot.RatiosInUnit = true ∧
    ∃ root', exampleRoot.ResizeNodeAndChildren ⟨0, 0⟩ ⟨1280, 720⟩ = some root' ∧
      (∀ w ∈ root'.windows, ∀ pt, w.domainContains pt = true →
        (0 : ℚ) ≤ pt.x ∧ pt.x < 0 + 1280 ∧ (0 : ℚ) ≤ pt.y ∧ pt.y < 0 + 720) ∧
      (∀ i j (hi : i < root'.windows.length) (hj : j < root'.windows.length), i ≠ j →
        ∀ pt, ¬ ((root'.windows.get ⟨i, hi⟩).domainContains pt = true ∧
          (root'.windows.get ⟨j, hj⟩).domainContains pt = true)) :=
  ⟨rfl,
    (ratiosInUnit_split _ _ _ _ _ _ _).2 ⟨by norm_num, ratiosInUnit_leaf _ _ _ _ _ _ _,
      ratiosInUnit_leaf _ _ _ _ _ _ _⟩,
    leaf_regions_disjoint_and_inside exampleRoot ⟨0, 0⟩ ⟨1280, 720⟩ rfl
      ((ratiosInUnit_split _ _ _ _ _ _ _).2 ⟨by norm_num, ratiosInUnit_leaf _ _ _ _ _ _ _,
        ratiosInUnit_leaf _ _ _ _ _ _ _⟩)⟩

namespace CustomLayoutNode

theorem reach_nil (n : CustomLayoutNode) : n.reach [] = some n := by
  cases n; rfl

theorem reach_pLeft (l r : Option CustomLayoutNode) (lv : Nat) (p s : ImVec2) (ratio : ℚ)
    (f : Option CustomWindowFunc) (isLogical : Bool) (rest : NodePtr) :
    (mk l r lv p s ratio f isLogical).reach (ChildLink.pLeft :: rest) =
      if isLogical then l.bind (fun a => a.reach rest) else none := by
  cases isLogical <;> cases l <;> rfl

theorem reach_pRight (l r : Option CustomLayoutNode) (lv : Nat) (p s : ImVec2) (ratio : ℚ)
    (f : Option CustomWindowFunc) (isLogical : Bool) (rest : NodePtr) :
    (mk l r lv p s ratio f isLogical).reach (ChildLink.pRight :: rest) =
      if isLogical then r.bind (fun b => b.reach rest) else none := by
  cases isLogical <;> cases r <;> rfl

/-- A node reached through logical domains is the node the pointer designates. -/
theorem nodeAt_of_reach (n : CustomLayoutNode) :
    ∀ (ptr : NodePtr) (m : CustomLayoutNode), n.reach ptr = some m → n.nodeAt ptr = some m := by
  induction n using node_induction with
  | step l r lv p s ratio f isLogical iha ihb =>
    intro ptr m h
    cases ptr with
    | nil => rw [reach_nil] at h; rw [nodeAt_nil]; exact h
    | cons c rest =>
      cases c with
      | pLeft =>
        rw [reach_pLeft] at h
        rw [nodeAt_pLeft]
        cases isLogical with
        | false => simp at h
        | true =>
          cases l with
          | none => simp at h
          | some a =>
            simp only [if_true, Option.some_bind] at h ⊢
            exact iha a rfl rest m h
      | pRight =>
        rw [reach_pRight] at h
        rw [nodeAt_pRight]
        cases isLogical with
        | false => simp at h
        | true =>
          cases r with
          | none => simp at h
          | some b =>
            simp only [if_true, Option.some_bind] at h ⊢
            exact ihb b rfl rest m h

/-- The mouse in the closed domain of the first child is in the closed domain of the node,
when the ratio lies between 0 and 1. -/
theorem leftChild_hover_sub (n a : CustomLayoutNode) (mouse : ImVec2)
    (hr : 0 < n.splitterRatio ∧ n.splitterRatio < 1)
    (hp : a.GetDomainPos = n.leftChildPos) (hs : a.GetDomainSize = n.leftChildSize)
    (h : IsMouseHoveringRect mouse a.GetDomainPos a.domainMax = true) :
    IsMouseHoveringRect mouse n.GetDomainPos n.domainMax = true := by
  obtain ⟨hr0, hr1⟩ := hr
  simp only [IsMouseHoveringRect, domainMax, decide_eq_true_eq, hp, hs, leftChildPos,
    leftChildSize, GetSplitterStartCoord] at h ⊢
  by_cases hlv : n.GetLevel % 2 = 1
  · simp only [hlv, if_true] at h
    obtain ⟨h1, h2, h3, h4⟩ := h
    have hS : 0 ≤ n.GetDomainSize.x := by
      by_contra hn
      push_neg at hn
      nlinarith [mul_pos hr0 (neg_pos.2 hn)]
    refine ⟨h1, h2, ?_, h4⟩
    nlinarith [mul_nonneg (le_of_lt (sub_pos.2 hr1)) hS]
  · simp only [hlv, if_false] at h
    obtain ⟨h1, h2, h3, h4⟩ := h
    have hS : 0 ≤ n.GetDomainSize.y := by
      by_contra hn
      push_neg at hn
      nlinarith [mul_pos hr0 (neg_pos.2 hn)]
    refine ⟨h1, h2, h3, ?_⟩
    nlinarith [mul_nonneg (le_of_lt (sub_pos.2 hr1)) hS]

/-- The mouse in the closed domain of the second child is in the closed domain of the node,
when the ratio lies between 0 and 1. -/
theorem rightChild_hover_sub (n b : CustomLayoutNode) (mouse : ImVec2)
    (hr : 0 < n.splitterRatio ∧ n.splitterRatio < 1)
    (hp : b.GetDomainPos = n.rightChildPos) (hs : b.GetDomainSize = n.rightChildSize)
    (h : IsMouseHoveringRect mouse b.GetDomainPos b.domainMax = true) :
    IsMouseHoveringRect mouse n.GetDomainPos n.domainMax = true := by
  obtain ⟨hr0, hr1⟩ := hr
  simp only [IsMouseHoveringRect, domainMax, decide_eq_true_eq, hp, hs, rightChildPos,
    rightChildSize, GetSplitterStartCoord, GetSplitterWidth] at h ⊢
  by_cases hlv : n.GetLevel % 2 = 1
  · simp only [hlv, if_true] at h
    obtain ⟨h1, h2, h3, h4⟩ := h
    have hS : 0 < n.GetDomainSize.x := by
      by_contra hn
      push_neg at hn
      nlinarith [mul_nonneg (le_of_lt (sub_pos.2 hr1)) (neg_nonneg.2 hn)]
    refine ⟨?_, h2, ?_, h4⟩
    · nlinarith [mul_pos hr0 hS]
    · linarith
  · simp only [hlv, if_false] at h
    obtain ⟨h1, h2, h3, h4⟩ := h
    have hS : 0 < n.GetDomainSize.y := by
      by_contra hn
      push_neg at hn
      nlinarith [mul_nonneg (le_of_lt (sub_pos.2 hr1)) (neg_nonneg.2 hn)]
    refine ⟨h1, ?_, h3, ?_⟩
    · nlinarith [mul_pos hr0 hS]
    · linarith

/-- The mouse in the closed domain of the first child and outside the band of the node passes
the test `GetHoverSplitter` makes for the first child. -/
theorem leftRegion_of_leftChild (n a : CustomLayoutNode) (mouse : ImVec2)
    (hp : a.GetDomainPos = n.leftChildPos) (hs : a.GetDomainSize = n.leftChildSize)
    (h : IsMouseHoveringRect mouse a.GetDomainPos a.domainMax = true)
    (hband : IsMouseHoveringRect mouse n.splitterMin n.splitterMax = false) :
    IsMouseHoveringRect mouse n.GetDomainPos n.leftRegionMax = true := by
  simp only [IsMouseHoveringRect, domainMax, decide_eq_true_eq, decide_eq_false_iff_not, hp, hs,
    leftChildPos, leftChildSize, GetSplitterStartCoord, splitterMin, splitterMax, leftRegionMax,
    GetSplitterWidth, SplitterWidthPadding] at h hband ⊢
  by_cases hlv : n.GetLevel % 2 = 1
  · simp only [hlv, if_true] at h hband ⊢
    obtain ⟨h1, h2, h3, h4⟩ := h
    refine ⟨h1, h2, ?_, h4⟩
    by_contra hc
    push_neg at hc
    exact hband ⟨by linarith, h2, by linarith, h4⟩
  · simp only [hlv, if_false] at h hband ⊢
    obtain ⟨h1, h2, h3, h4⟩ := h
    refine ⟨h1, h2, h3, ?_⟩
    by_contra hc
    push_neg at hc
    exact hband ⟨h1, by linarith, h3, by linarith⟩

/-- The mouse in the closed domain of the second child fails
the test `GetHoverSplitter` makes for the first child. -/
theorem leftRegion_of_rightChild (n b : CustomLayoutNode) (mouse : ImVec2)
    (hp : b.GetDomainPos = n.rightChildPos) (hs : b.GetDomainSize = n.rightChildSize)
    (h : IsMouseHoveringRect mouse b.GetDomainPos b.domainMax = true) :
    IsMouseHoveringRect mouse n.GetDomainPos n.leftRegionMax = false := by
  simp only [IsMouseHoveringRect, domainMax, decide_eq_true_eq, decide_eq_false_iff_not, hp, hs,
    rightChildPos, rightChildSize, GetSplitterStartCoord, splitterMin, splitterMax,
    leftRegionMax, GetSplitterWidth, SplitterWidthPadding] at h ⊢
  by_cases hlv : n.GetLevel % 2 = 1
  · simp only [hlv, if_true] at h ⊢
    obtain ⟨h1, h2, h3, h4⟩ := h
    rintro ⟨g1, g2, g3, g4⟩
    linarith
  · simp only [hlv, if_false] at h ⊢
    obtain ⟨h1, h2, h3, h4⟩ := h
    rintro ⟨g1, g2, g3, g4⟩
    linarith

/-- Completeness of the hit test on a consistent tree: when the mouse is in the closed domain
and in the band of a logical domain reached along `ptr`, the mouse is in the closed domain
of the root and `GetHoverSplitter` returns a node on the way to it. -/
theorem hover_complete (n : CustomLayoutNode) (mouse : ImVec2) :
    n.WellFormed = true → n.Consistent = true → n.RatiosInUnit = true →
    ∀ (ptr : NodePtr) (m : CustomLayoutNode), n.reach ptr = some m →
      m.IsLogicalDomain = true →
      IsMouseHoveringRect mouse m.GetDomainPos m.domainMax = true →
      IsMouseHoveringRect mouse m.splitterMin m.splitterMax = true →
      IsMouseHoveringRect mouse n.GetDomainPos n.domainMax = true ∧
      ∃ q, n.GetHoverSplitter mouse = some (some q) ∧ q <+: ptr := by
  induction n using node_induction with
  | step l r lv p s ratio f isLogical iha ihb =>
    intro hwf hcons hratio ptr m hreach hlog hdom hbandm
    cases ptr with
    | nil =>
      rw [reach_nil] at hreach
      cases hreach
      simp only [IsLogicalDomain] at hlog
      subst hlog
      exact ⟨hdom, [], hover_self _ _ _ _ _ _ _ _ hbandm, List.prefix_refl _⟩
    | cons c rest =>
      cases isLogical with
      | false => cases c <;> simp [reach_pLeft, reach_pRight] at hreach
      | true =>
        obtain ⟨a, b, rfl, rfl, hwa, hwb⟩ := wellFormed_children l r lv p s ratio f hwf
        obtain ⟨⟨hpa, hsa, hpb, hsb⟩, hca, hcb⟩ := (consistent_split a b lv p s ratio f).1 hcons
        obtain ⟨hr, hra, hrb⟩ := (ratiosInUnit_split a b lv p s ratio f).1 hratio
        cases c with
        | pLeft =>
          rw [reach_pLeft] at hreach
          simp only [if_true, Option.some_bind] at hreach
          obtain ⟨hda, q, hq, hpre⟩ := iha a rfl hwa hca hra rest m hreach hlog hdom hbandm
          refine ⟨leftChild_hover_sub _ a mouse hr hpa hsa hda, ?_⟩
          cases hband : IsMouseHoveringRect mouse
              (mk (some a) (some b) lv p s ratio f true).splitterMin
              (mk (some a) (some b) lv p s ratio f true).splitterMax with
          | true => exact ⟨[], hover_self _ _ _ _ _ _ _ _ hband, List.nil_prefix⟩
          | false =>
            have hleft := leftRegion_of_leftChild _ a mouse hpa hsa hda hband
            refine ⟨ChildLink.pLeft :: q, ?_, ?_⟩
            · rw [hover_left _ _ _ _ _ _ _ _ hband hleft]
              simp only [Option.some_bind, hq, Option.map_some']
            · exact (List.prefix_cons_inj _).2 hpre
        | pRight =>
          rw [reach_pRight] at hreach
          simp only [if_true, Option.some_bind] at hreach
          obtain ⟨hdb, q, hq, hpre⟩ := ihb b rfl hwb hcb hrb rest m hreach hlog hdom hbandm
          refine ⟨rightChild_hover_sub _ b mouse hr hpb hsb hdb, ?_⟩
          cases hband : IsMouseHoveringRect mouse
              (mk (some a) (some b) lv p s ratio f true).splitterMin
              (mk (some a) (some b) lv p s ratio f true).splitterMax with
          | true => exact ⟨[], hover_self _ _ _ _ _ _ _ _ hband, List.nil_prefix⟩
          | false =>
            have hleft := leftRegion_of_rightChild _ b mouse hpb hsb hdb
            refine ⟨ChildLink.pRight :: q, ?_, ?_⟩
            · rw [hover_right _ _ _ _ _ _ _ _ hband hleft]
              simp only [Option.some_bind, hq, Option.map_some']
            · exact (List.prefix_cons_inj _).2 hpre

end CustomLayoutNode

open CustomLayoutNode CustomLayout

namespace CustomLayoutNode

theorem exampleRoot_resize :
    exampleRoot.ResizeNodeAndChildren ⟨0, 0⟩ ⟨1280, 720⟩ = some exampleRootLaidOut := by
  unfold exampleRoot exampleRootLaidOut exampleWindow
  rw [resize_odd _ _ 1 _ _ (4 / 5) none ⟨0, 0⟩ ⟨1280, 720⟩ rfl, resize_leaf, resize_leaf]
  norm_num

theorem exampleRoot_ratiosInUnit : exampleRoot.RatiosInUnit = true :=
  (ratiosInUnit_split _ _ _ _ _ _ _).2 ⟨by norm_num, ratiosInUnit_leaf _ _ _ _ _ _ _,
    ratiosInUnit_leaf _ _ _ _ _ _ _⟩

end CustomLayoutNode

open CustomLayoutNode CustomLayout

/-- C28: hit-test completeness.  For every well-formed tree whose split ratios all lie
strictly between 0 and 1, laid out by `ResizeNodeAndChildren` on the root, and every mouse
position: if a logical domain (split node) of the tree, reached from the root through
logical domains along `ptr`, has the mouse in its domain rectangle and in the band it tests
itself against, then `GetHoverSplitter` on the root returns a node, never `nullptr`, and the
node returned is a logical domain on the way from the root to that node: the node itself or
one of its ancestors. -/
theorem hit_test_complete (root : CustomLayoutNode) (pos size mouse : ImVec2)
    (hwf : root.WellFormed = true) (hratio : root.RatiosInUnit = true) :
    ∃ root', root.ResizeNodeAndChildren pos size = some root' ∧
      ∀ (ptr : NodePtr) (m : CustomLayoutNode), root'.reach ptr = some m →
        m.IsLogicalDomain = true →
        IsMouseHoveringRect mouse m.GetDomainPos m.domainMax = true →
        IsMouseHoveringRect mouse m.splitterMin m.splitterMax = true →
        ∃ q k, root'.GetHoverSplitter mouse = some (some q) ∧ q <+: ptr ∧
          root'.nodeAt q = some k ∧ k.IsLogicalDomain = true := by
  obtain ⟨root', hres⟩ := resize_isSome_of_wellFormed root pos size hwf
  have hwf' : root'.WellFormed = true := by
    rw [wellFormed_resize root root' pos size hres]; exact hwf
  have hratio' : root'.RatiosInUnit = true := by
    rw [ratiosInUnit_resize root root' pos size hres]; exact hratio
  refine ⟨root', hres, fun ptr m hreach hlog hdom hband => ?_⟩
  obtain ⟨-, q, hq, hpre⟩ := hover_complete root' mouse hwf'
    (consistent_resize root pos size root' hres) hratio' ptr m hreach hlog hdom hband
  obtain ⟨k, hk, hklog, -⟩ := hover_sound root' mouse q hq
  exact ⟨q, k, hq, hpre, hk, hklog⟩

/-- Witness of C28: the example root laid out over 1280 x 720; the mouse at (1023, 100) is in
the domain and in the band of the root, and `GetHoverSplitter` returns the root. -/
theorem hit_test_complete_witness :
    exampleRoot.WellFormed = true ∧ exampleRoot.RatiosInUnit = true ∧
    exampleRoot.ResizeNodeAndChildren ⟨0, 0⟩ ⟨1280, 720⟩ = some exampleRootLaidOut ∧
    exampleRootLaidOut.reach [] = some exampleRootLaidOut ∧
    exampleRootLaidOut.IsLogicalDomain = true ∧
    IsMouseHoveringRect ⟨1023, 100⟩ exampleRootLaidOut.GetDomainPos
      exampleRootLaidOut.domainMax = true ∧
    IsMouseHoveringRect ⟨1023, 100⟩ exampleRootLaidOut.splitterMin
      exampleRootLaidOut.splitterMax = true ∧
    ∃ q k, exampleRootLaidOut.GetHoverSplitter ⟨1023, 100⟩ = some (some q) ∧ q <+: [] ∧
      exampleRootLaidOut.nodeAt q = some k ∧ k.IsLogicalDomain = true := by
  have hdom : IsMouseHoveringRect ⟨1023, 100⟩ exampleRootLaidOut.GetDomainPos
      exampleRootLaidOut.domainMax = true := by
    norm_num [IsMouseHoveringRect, exampleRootLaidOut, domainMax, GetDomainPos, GetDomainSize]
  have hband : IsMouseHoveringRect ⟨1023, 100⟩ exampleRootLaidOut.splitterMin
      exampleRootLaidOut.splitterMax = true := by
    norm_num [IsMouseHoveringRect, exampleRootLaidOut, splitterMin, splitterMax,
      SplitterWidthPadding, GetLevel, GetDomainPos, GetDomainSize, splitterRatio,
      GetSplitterWidth]
  refine ⟨rfl, exampleRoot_ratiosInUnit, exampleRoot_resize, rfl, rfl, hdom, hband, ?_⟩
  obtain ⟨root', hres, h⟩ := hit_test_complete exampleRoot ⟨0, 0⟩ ⟨1280, 720⟩ ⟨1023, 100⟩ rfl
    exampleRoot_ratiosInUnit
  rw [exampleRoot_resize] at hres
  cases hres
  exact h [] exampleRootLaidOut rfl rfl hdom hband

namespace CustomLayoutNode

theorem splitterStartCoord_eq (n : CustomLayoutNode) :
    n.GetSplitterStartCoord =
      n.axisCoord n.GetDomainPos + n.splitterRatio * n.axisCoord n.GetDomainSize := by
  unfold GetSplitterStartCoord axisCoord
  by_cases hlv : n.GetLevel % 2 = 1 <;> simp [hlv]

/-- In a consistent tree the two children of a logical domain tile its domain along the split
axis, with the splitter width between them. -/
theorem tiling_of_consistent (n a b : CustomLayoutNode) (hlog : n.IsLogicalDomain = true)
    (hl : n.GetLeftChild = some a) (hr : n.GetRightChild = some b)
    (hc : n.Consistent = true) :
    a.GetDomainPos = n.GetDomainPos ∧
    n.axisCoord b.GetDomainPos =
      n.axisCoord a.GetDomainPos + n.axisCoord a.GetDomainSize + n.GetSplitterWidth ∧
    n.crossCoord b.GetDomainPos = n.crossCoord n.GetDomainPos ∧
    n.axisCoord a.GetDomainSize + n.GetSplitterWidth + n.axisCoord b.GetDomainSize =
      n.axisCoord n.GetDomainSize ∧
    n.crossCoord a.GetDomainSize = n.crossCoord n.GetDomainSize ∧
    n.crossCoord b.GetDomainSize = n.crossCoord n.GetDomainSize := by
  obtain ⟨l, r, lv, p, s, ratio, f, isLogical⟩ := n
  simp only [IsLogicalDomain, GetLeftChild, GetRightChild] at hlog hl hr
  subst hlog hl hr
  obtain ⟨⟨hpa, hsa, hpb, hsb⟩, -, -⟩ := (consistent_split a b lv p s ratio f).1 hc
  rw [hpa, hsa, hpb, hsb]
  simp only [leftChildPos, leftChildSize, rightChildPos, rightChildSize, GetSplitterStartCoord,
    GetSplitterWidth, GetLevel, GetDomainPos, GetDomainSize, splitterRatio, axisCoord,
    crossCoord]
  by_cases hlv : lv % 2 = 1
  · simp only [hlv, if_true]
    refine ⟨trivial, ?_, trivial, ?_, trivial, trivial⟩ <;> ring
  · simp only [hlv, if_false]
    refine ⟨trivial, ?_, trivial, ?_, trivial, trivial⟩ <;> ring

theorem axisCoord_congr (n m : CustomLayoutNode) (h : n.GetLevel = m.GetLevel) (v : ImVec2) :
    n.axisCoord v = m.axisCoord v := by
  unfold axisCoord
  rw [h]

theorem crossCoord_congr (n m : CustomLayoutNode) (h : n.GetLevel = m.GetLevel) (v : ImVec2) :
    n.crossCoord v = m.crossCoord v := by
  unfold crossCoord
  rw [h]

end CustomLayoutNode

namespace CustomLayout

/-- A press on a splitter, a drag and a release over an unchanged viewport, frame by frame:
the layouts after each of the three frames. -/
theorem press_drag_release (self : CustomLayout) (root m : CustomLayoutNode) (ptr : NodePtr)
    (io1 io2 io3 : ImGuiFrame)
    (hvalid : self.Valid = true) (hidle : self.m_splitterHeld = false)
    (hroot : self.m_pRoot = some root)
    (hv1 : io1.WorkSize = self.m_lastViewport) (hv2 : io2.WorkSize = self.m_lastViewport)
    (hv3 : io3.WorkSize = self.m_lastViewport)
    (hhover : root.GetHoverSplitter io1.MousePos = some (some ptr))
    (hm : root.nodeAt ptr = some m)
    (hclick : io1.MouseClicked = true) (hdown : io2.MouseDown = true)
    (hup : io3.MouseDown = false) :
    ∃ m' root',
      (m.SetSplitterRatio
        (newSplitterRatio m (bottonDownDelta m io1.MousePos) io2.MousePos)).ResizeNodeAndChildren
          m.GetDomainPos m.GetDomainSize = some m' ∧
      root.writeAt ptr m' = some root' ∧ root'.nodeAt ptr = some m' ∧
      self.BeginEndLayout io1 =
        some ({ self with
                m_pRoot := some root
                m_splitterHeld := true
                m_splitterBottonDownDelta := bottonDownDelta m io1.MousePos
                m_pHeldSplitterDomain := some ptr
                m_lastViewport := io1.WorkSize },
          [ImGuiCall.SetMouseCursor (splitterCursor m)] ++ root.BeginEndNodeAndChildren) ∧
      BeginEndLayout { self with
                m_pRoot := some root
                m_splitterHeld := true
                m_splitterBottonDownDelta := bottonDownDelta m io1.MousePos
                m_pHeldSplitterDomain := some ptr
                m_lastViewport := io1.WorkSize } io2 =
        some ({ self with
                m_pRoot := some root'
                m_splitterHeld := true
                m_splitterBottonDownDelta := bottonDownDelta m io1.MousePos
                m_pHeldSplitterDomain := some ptr
                m_lastViewport := io2.WorkSize },
          [ImGuiCall.SetMouseCursor (splitterCursor m)] ++ root'.BeginEndNodeAndChildren) ∧
      BeginEndLayout { self with
                m_pRoot := some root'
                m_splitterHeld := true
                m_splitterBottonDownDelta := bottonDownDelta m io1.MousePos
                m_pHeldSplitterDomain := some ptr
                m_lastViewport := io2.WorkSize } io3 =
        some ({ self with
                m_pRoot := some root'
                m_splitterHeld := false
                m_splitterBottonDownDelta := bottonDownDelta m io1.MousePos
                m_pHeldSplitterDomain := some ptr
                m_lastViewport := io3.WorkSize },
          [] ++ root'.BeginEndNodeAndChildren) := by
  obtain ⟨root0, hroot0, hwf, -⟩ := (valid_iff self).1 hvalid
  rw [hroot] at hroot0
  cases hroot0
  have hwfm : m.WellFormed = true := hover_wellFormed root io1.MousePos ptr m hwf hhover hm
  obtain ⟨m', hres⟩ := resize_isSome_of_wellFormed
    (m.SetSplitterRatio (newSplitterRatio m (bottonDownDelta m io1.MousePos) io2.MousePos))
    m.GetDomainPos m.GetDomainSize (by rw [wellFormed_setSplitterRatio]; exact hwfm)
  obtain ⟨root', hw, hn'⟩ := writeAt_isSome root m' ptr m hm
  refine ⟨m', root', hres, hw, hn', ?_, ?_, ?_⟩
  · have hv : self.viewportResize io1 = some (some root) := by
      rw [viewportResize_same self io1 (by rw [hv1]; simp), hroot]
    rw [beginEndLayout_of_parts self io1 (some root) _ _ hv
      (mouse_idle_click _ io1 root ptr m hidle rfl hhover hm hclick)]
    rfl
  · have hv : viewportResize { self with
                m_pRoot := some root
                m_splitterHeld := true
                m_splitterBottonDownDelta := bottonDownDelta m io1.MousePos
                m_pHeldSplitterDomain := some ptr
                m_lastViewport := io1.WorkSize } io2 = some (some root) := by
      rw [viewportResize_same _ io2 (by
        show ¬ (io2.WorkSize.x ≠ io1.WorkSize.x ∨ io2.WorkSize.y ≠ io1.WorkSize.y)
        rw [hv1, hv2]; simp)]
    rw [beginEndLayout_of_parts _ io2 (some root) _ _ hv
      (mouse_drag_down _ io2 root ptr m m' root' rfl rfl hdown rfl hm hres hw)]
    rfl
  · have hv : viewportResize { self with
                m_pRoot := some root'
                m_splitterHeld := true
                m_splitterBottonDownDelta := bottonDownDelta m io1.MousePos
                m_pHeldSplitterDomain := some ptr
                m_lastViewport := io2.WorkSize } io3 = some (some root') := by
      rw [viewportResize_same _ io3 (by
        show ¬ (io3.WorkSize.x ≠ io2.WorkSize.x ∨ io3.WorkSize.y ≠ io2.WorkSize.y)
        rw [hv2, hv3]; simp)]
    rw [beginEndLayout_of_parts _ io3 (some root') _ _ hv
      (mouse_drag_up _ io3 rfl hup)]
    rfl

end CustomLayout

open CustomLayoutNode CustomLayout

/-- C25: Scenario D, for every displacement `d` of the mouse.  Over an unchanged viewport, on
a valid idle layout: a frame with a click while `GetHoverSplitter` finds the logical domain
`m`, then a frame with the button down and the mouse moved by `d` along the split axis of
`m`, then a frame with the button up.  When the size of the domain of `m` along its split
axis is not zero, the three frames return, the layout is idle again, and the node where `m`
was has the domain and level of `m`, the ratio of `m` plus `d / domainSize.axis`, and two
children that tile its domain: the first starts where the domain starts, the second starts
where the first ends plus the splitter width, the two sizes and the splitter width add up to
the size of the domain along the split axis, and both have the size of the domain along the
other axis. -/
theorem scenario_d_press_drag_release (self : CustomLayout) (root m : CustomLayoutNode)
    (ptr : NodePtr) (io1 io2 io3 : ImGuiFrame) (d : ℚ)
    (hvalid : self.Valid = true) (hidle : self.m_splitterHeld = false)
    (hroot : self.m_pRoot = some root)
    (hv1 : io1.WorkSize = self.m_lastViewport) (hv2 : io2.WorkSize = self.m_lastViewport)
    (hv3 : io3.WorkSize = self.m_lastViewport)
    (hhover : root.GetHoverSplitter io1.MousePos = some (some ptr))
    (hm : root.nodeAt ptr = some m)
    (hclick : io1.MouseClicked = true) (hdown : io2.MouseDown = true)
    (hup : io3.MouseDown = false)
    (hmove : m.axisCoord io2.MousePos = m.axisCoord io1.MousePos + d)
    (hnz : m.axisCoord m.GetDomainSize ≠ 0) :
    ∃ layout root' m' a' b', self.runFrames [io1, io2, io3] = some layout ∧
      layout.m_splitterHeld = false ∧ layout.m_pRoot = some root' ∧
      root'.nodeAt ptr = some m' ∧
      m'.splitterRatio = m.splitterRatio + d / m.axisCoord m.GetDomainSize ∧
      m'.GetDomainPos = m.GetDomainPos ∧ m'.GetDomainSize = m.GetDomainSize ∧
      m'.GetLevel = m.GetLevel ∧
      m'.GetLeftChild = some a' ∧ m'.GetRightChild = some b' ∧
      a'.GetDomainPos = m.GetDomainPos ∧
      m.axisCoord b'.GetDomainPos =
        m.axisCoord a'.GetDomainPos + m.axisCoord a'.GetDomainSize + m.GetSplitterWidth ∧
      m.crossCoord b'.GetDomainPos = m.crossCoord m.GetDomainPos ∧
      m.axisCoord a'.GetDomainSize + m.GetSplitterWidth + m.axisCoord b'.GetDomainSize =
        m.axisCoord m.GetDomainSize ∧
      m.crossCoord a'.GetDomainSize = m.crossCoord m.GetDomainSize ∧
      m.crossCoord b'.GetDomainSize = m.crossCoord m.GetDomainSize := by
  obtain ⟨m', root', hres, hw, hn', h1, h2, h3⟩ :=
    press_drag_release self root m ptr io1 io2 io3 hvalid hidle hroot hv1 hv2 hv3 hhover hm
      hclick hdown hup
  obtain ⟨hp', hs', hlv', hr', -, hlog'⟩ := resize_fields _ m' _ _ hres
  obtain ⟨m0, hm0, hlog, -⟩ := hover_sound root io1.MousePos ptr hhover
  rw [hm] at hm0
  cases hm0
  have hlevel : m'.GetLevel = m.GetLevel := by
    rw [hlv']; cases m; rfl
  have hlogical : m'.IsLogicalDomain = true := by
    rw [hlog']; cases m; exact hlog
  have hratio : m'.splitterRatio = m.splitterRatio + d / m.axisCoord m.GetDomainSize := by
    rw [hr']
    have hset : (m.SetSplitterRatio (newSplitterRatio m (bottonDownDelta m io1.MousePos)
        io2.MousePos)).splitterRatio =
          newSplitterRatio m (bottonDownDelta m io1.MousePos) io2.MousePos := by
      cases m; rfl
    rw [hset, newSplitterRatio_eq, bottonDownDelta_eq, splitterStartCoord_eq, hmove]
    field_simp
    ring
  have hwf' : m'.WellFormed = true := by
    rw [wellFormed_resize _ m' _ _ hres]
    exact wellFormed_of_resize _ _ _ m' hres
  have hcons' : m'.Consistent = true := consistent_resize _ _ _ m' hres
  obtain ⟨l, r, lv, p, s, ratio, f, isLogical⟩ := m'
  simp only [IsLogicalDomain] at hlogical
  subst hlogical
  obtain ⟨a', b', rfl, rfl, -, -⟩ := wellFormed_children l r lv p s ratio f hwf'
  obtain ⟨t1, t2, t3, t4, t5, t6⟩ := tiling_of_consistent
    (mk (some a') (some b') lv p s ratio f true) a' b' rfl rfl rfl hcons'
  rw [axisCoord_congr _ m hlevel, axisCoord_congr _ m hlevel, axisCoord_congr _ m hlevel] at t2
  rw [crossCoord_congr _ m hlevel, crossCoord_congr _ m hlevel, hp'] at t3
  rw [axisCoord_congr _ m hlevel, axisCoord_congr _ m hlevel, axisCoord_congr _ m hlevel,
    hs'] at t4
  rw [crossCoord_congr _ m hlevel, crossCoord_congr _ m hlevel, hs'] at t5 t6
  rw [hp'] at t1
  refine ⟨{ self with
            m_pRoot := some root'
            m_splitterHeld := false
            m_splitterBottonDownDelta := bottonDownDelta m io1.MousePos
            m_pHeldSplitterDomain := some ptr
            m_lastViewport := io3.WorkSize }, root', _, a', b', ?_, ?_, rfl, hn', hratio, hp', hs', hlevel, rfl, rfl, t1, t2, t3,
    t4, t5, t6⟩
  · rw [runFrames_cons self _ io1 _ _ h1, runFrames_cons _ _ io2 _ _ h2,
      runFrames_cons _ _ io3 _ _ h3]
    rfl
  · rfl

/-- Witness of C25: on the example layout, a press at (1023, 100) on the root splitter, a
drag to (1123, 100) and a release, with `d = 100` over the domain width 1280. -/
theorem scenario_d_press_drag_release_witness :
    ∃ layout root' m' a' b',
      exampleLayout.runFrames [exampleFrame ⟨1023, 100⟩ true true,
        exampleFrame ⟨1123, 100⟩ false true, exampleFrame ⟨1123, 100⟩ false false] =
          some layout ∧
      layout.m_splitterHeld = false ∧ layout.m_pRoot = some root' ∧
      root'.nodeAt [] = some m' ∧
      m'.splitterRatio = exampleRootLaidOut.splitterRatio +
        100 / exampleRootLaidOut.axisCoord exampleRootLaidOut.GetDomainSize ∧
      m'.GetDomainPos = exampleRootLaidOut.GetDomainPos ∧
      m'.GetDomainSize = exampleRootLaidOut.GetDomainSize ∧
      m'.GetLevel = exampleRootLaidOut.GetLevel ∧
      m'.GetLeftChild = some a' ∧ m'.GetRightChild = some b' ∧
      a'.GetDomainPos = exampleRootLaidOut.GetDomainPos ∧
      exampleRootLaidOut.axisCoord b'.GetDomainPos =
        exampleRootLaidOut.axisCoord a'.GetDomainPos +
          exampleRootLaidOut.axisCoord a'.GetDomainSize + exampleRootLaidOut.GetSplitterWidth ∧
      exampleRootLaidOut.crossCoord b'.GetDomainPos =
        exampleRootLaidOut.crossCoord exampleRootLaidOut.GetDomainPos ∧
      exampleRootLaidOut.axisCoord a'.GetDomainSize + exampleRootLaidOut.GetSplitterWidth +
          exampleRootLaidOut.axisCoord b'.GetDomainSize =
        exampleRootLaidOut.axisCoord exampleRootLaidOut.GetDomainSize ∧
      exampleRootLaidOut.crossCoord a'.GetDomainSize =
        exampleRootLaidOut.crossCoord exampleRootLaidOut.GetDomainSize ∧
      exampleRootLaidOut.crossCoord b'.GetDomainSize =
        exampleRootLaidOut.crossCoord exampleRootLaidOut.GetDomainSize :=
  scenario_d_press_drag_release exampleLayout exampleRootLaidOut exampleRootLaidOut []
    (exampleFrame ⟨1023, 100⟩ true true) (exampleFrame ⟨1123, 100⟩ false true)
    (exampleFrame ⟨1123, 100⟩ false false) 100 rfl rfl rfl rfl rfl rfl
    (by
      apply hover_self
      norm_num [exampleFrame, IsMouseHoveringRect, splitterMin, splitterMax,
        SplitterWidthPadding, GetLevel, GetDomainPos, GetDomainSize, splitterRatio,
        GetSplitterWidth])
    rfl rfl rfl rfl
    (by norm_num [exampleFrame, exampleRootLaidOut, axisCoord, GetLevel])
    (by norm_num [exampleRootLaidOut, axisCoord, GetLevel, GetDomainSize])

namespace CustomLayout

/-- A frame whose viewport size differs from the recorded one resizes the root: after the
frame the domain of the root is the work area of the viewport. -/
theorem frame_resizes_root (self : CustomLayout) (io : ImGuiFrame) (root : CustomLayoutNode)
    (hvalid : self.Valid = true) (hroot : self.m_pRoot = some root)
    (hdiff : io.WorkSize.x ≠ self.m_lastViewport.x ∨ io.WorkSize.y ≠ self.m_lastViewport.y) :
    ∃ root1 layout calls root',
      root.ResizeNodeAndChildren io.WorkPos io.WorkSize = some root1 ∧
      self.viewportResize io = some (some root1) ∧
      self.BeginEndLayout io = some (layout, calls) ∧ layout.m_pRoot = some root' ∧
      root'.GetDomainPos = io.WorkPos ∧ root'.GetDomainSize = io.WorkSize ∧
      layout.m_lastViewport = io.WorkSize ∧
      (¬ (self.m_splitterHeld = true ∧ io.MouseDown = true) → root' = root1) := by
  obtain ⟨root0, hroot0, hwf, -⟩ := (valid_iff self).1 hvalid
  rw [hroot] at hroot0
  cases hroot0
  obtain ⟨root1, hv, -, hres, -⟩ := viewportResize_spec self io root hroot hwf
  obtain ⟨root2, hv2, h⟩ := frame_cases self io hvalid
  have h12 : root2 = root1 := by
    rw [hv] at hv2
    cases hv2
    rfl
  subst h12
  obtain ⟨hp, hs, -⟩ := resize_fields root root2 _ _ (hres hdiff)
  rcases h with ⟨-, -, h⟩ | ⟨-, -, ptr, m, -, -, h⟩ | ⟨-, -, ptr, m, -, -, h⟩ |
    ⟨hh, hd, ptr, held, held', root', -, hnode, hresh, hw, -, h⟩ | ⟨-, -, h⟩
  · exact ⟨root2, _, _, root2, hres hdiff, hv, h, rfl, hp, hs, rfl, fun _ => rfl⟩
  · exact ⟨root2, _, _, root2, hres hdiff, hv, h, rfl, hp, hs, rfl, fun _ => rfl⟩
  · exact ⟨root2, _, _, root2, hres hdiff, hv, h, rfl, hp, hs, rfl, fun _ => rfl⟩
  · obtain ⟨hp', hs', -⟩ := resize_fields _ held' _ _ hresh
    obtain ⟨hd1, hd2⟩ := writeAt_domain root2 held' root' ptr held hnode hw hp' hs'
    exact ⟨root2, _, _, root', hres hdiff, hv, h, rfl, by rw [hd1]; exact hp,
      by rw [hd2]; exact hs, rfl, fun hn => absurd ⟨hh, hd⟩ hn⟩
  · exact ⟨root2, _, _, root2, hres hdiff, hv, h, rfl, hp, hs, rfl, fun _ => rfl⟩

end CustomLayout

open CustomLayoutNode CustomLayout

/-- C21 as stated fails: the example layout has the recorded size 1280 x 720 and a root
domain of that size; a frame that reports the viewport size (0, 0) returns a layout whose
root has the domain size (0, 0), so the domain of the root is not left unchanged. -/
theorem nonpositive_viewport_resizes_counterexample :
    0 < exampleLayout.m_lastViewport.x ∧ 0 < exampleLayout.m_lastViewport.y ∧
    exampleFrameZero.WorkSize.x ≤ 0 ∧
    exampleLayout.m_pRoot = some exampleRootLaidOut ∧
    ∃ layout calls root',
      exampleLayout.BeginEndLayout exampleFrameZero = some (layout, calls) ∧
      layout.m_pRoot = some root' ∧ root'.GetDomainSize = ⟨0, 0⟩ ∧
      root'.GetDomainSize ≠ exampleRootLaidOut.GetDomainSize := by
  obtain ⟨root1, layout, calls, root', -, -, hbe, hroot', -, hs, -, -⟩ :=
    frame_resizes_root exampleLayout exampleFrameZero exampleRootLaidOut rfl rfl
      (Or.inl (by norm_num [exampleFrameZero, exampleLayout]))
  refine ⟨by norm_num [exampleLayout], by norm_num [exampleLayout],
    by norm_num [exampleFrameZero], rfl, layout, calls, root', hbe, hroot', hs, ?_⟩
  rw [hs]
  intro h
  have hx := congrArg ImVec2.x h
  norm_num [exampleFrameZero, exampleRootLaidOut, GetDomainSize] at hx

/-- C21, amended: a viewport size reported as zero or negative is not treated apart.  For
every valid layout whose recorded size is positive, a frame whose viewport width or height is
at most 0 differs from the recorded size, so `ResizeNodeAndChildren(WorkPos, WorkSize)` runs
on the root: the frame returns, the domain of the root after it is the work area reported,
the recorded size is the size reported, and unless the frame also drags a held splitter the
tree after it is the resized root. -/
theorem nonpositive_viewport_is_resized (self : CustomLayout) (io : ImGuiFrame)
    (root : CustomLayoutNode) (hvalid : self.Valid = true) (hroot : self.m_pRoot = some root)
    (hpos : 0 < self.m_lastViewport.x ∧ 0 < self.m_lastViewport.y)
    (hnonpos : io.WorkSize.x ≤ 0 ∨ io.WorkSize.y ≤ 0) :
    ∃ root1 layout calls root',
      root.ResizeNodeAndChildren io.WorkPos io.WorkSize = some root1 ∧
      self.viewportResize io = some (some root1) ∧
      self.BeginEndLayout io = some (layout, calls) ∧ layout.m_pRoot = some root' ∧
      root'.GetDomainPos = io.WorkPos ∧ root'.GetDomainSize = io.WorkSize ∧
      layout.m_lastViewport = io.WorkSize ∧
      (¬ (self.m_splitterHeld = true ∧ io.MouseDown = true) → root' = root1) := by
  apply frame_resizes_root self io root hvalid hroot
  rcases hnonpos with h | h
  · exact Or.inl (by intro he; rw [he] at h; exact absurd hpos.1 (not_lt.2 h))
  · exact Or.inr (by intro he; rw [he] at h; exact absurd hpos.2 (not_lt.2 h))

/-- Witness of C21, amended: the example layout and the frame that reports the size (0, 0). -/
theorem nonpositive_viewport_is_resized_witness :
    ∃ root1 layout calls root',
      exampleRootLaidOut.ResizeNodeAndChildren exampleFrameZero.WorkPos
        exampleFrameZero.WorkSize = some root1 ∧
      exampleLayout.viewportResize exampleFrameZero = some (some root1) ∧
      exampleLayout.BeginEndLayout exampleFrameZero = some (layout, calls) ∧
      layout.m_pRoot = some root' ∧
      root'.GetDomainPos = exampleFrameZero.WorkPos ∧
      root'.GetDomainSize = exampleFrameZero.WorkSize ∧
      layout.m_lastViewport = exampleFrameZero.WorkSize ∧
      (¬ (exampleLayout.m_splitterHeld = true ∧ exampleFrameZero.MouseDown = true) →
        root' = root1) :=
  nonpositive_viewport_is_resized exampleLayout exampleFrameZero exampleRootLaidOut rfl rfl
    ⟨by norm_num [exampleLayout], by norm_num [exampleLayout]⟩
    (Or.inl (by norm_num [exampleFrameZero]))

namespace CustomLayout

theorem exampleRootLaidOut_hover_away :
    exampleRootLaidOut.GetHoverSplitter ⟨100, 100⟩ = some none := by
  unfold exampleRootLaidOut
  rw [hover_left _ _ _ _ _ _ _ _
    (by norm_num [IsMouseHoveringRect, splitterMin, splitterMax, SplitterWidthPadding, GetLevel,
      GetDomainPos, GetDomainSize, splitterRatio, GetSplitterWidth])
    (by norm_num [IsMouseHoveringRect, leftRegionMax, splitterMin, splitterMax,
      SplitterWidthPadding, GetLevel, GetDomainPos, GetDomainSize, splitterRatio,
      GetSplitterWidth])]
  simp only [Option.some_bind, hover_leaf, Option.map_some', Option.map_none']

theorem exampleRootLaidOut_hover_splitter :
    exampleRootLaidOut.GetHoverSplitter ⟨1023, 100⟩ = some (some []) := by
  apply hover_self
  norm_num [IsMouseHoveringRect, splitterMin, splitterMax, SplitterWidthPadding, GetLevel,
    GetDomainPos, GetDomainSize, splitterRatio, GetSplitterWidth]

/-- From the constructed layout over the example root, a first frame with the mouse away from
the splitter and a frame with a click on the splitter leave the splitter held. -/
theorem exampleFrames_reach_dragging :
    ∃ layout, (CustomLayout.new exampleRoot).runFrames
        [exampleFrame ⟨100, 100⟩ false false, exampleFrame ⟨1023, 100⟩ true true] =
          some layout ∧
      layout.m_splitterHeld = true := by
  have hv1 : (CustomLayout.new exampleRoot).viewportResize (exampleFrame ⟨100, 100⟩ false false) =
      some (some exampleRootLaidOut) :=
    viewportResize_differs _ _ exampleRoot exampleRootLaidOut rfl
      (Or.inl (by norm_num [exampleFrame, CustomLayout.new])) exampleRoot_resize
  have h1 := beginEndLayout_of_parts _ _ _ _ _ hv1
    (mouse_idle_nohit _ (exampleFrame ⟨100, 100⟩ false false) exampleRootLaidOut rfl rfl
      exampleRootLaidOut_hover_away)
  have hv2 : exampleLayout.viewportResize (exampleFrame ⟨1023, 100⟩ true true) =
      some (some exampleRootLaidOut) := by
    rw [viewportResize_same _ _ (by norm_num [exampleFrame, exampleLayout])]
    rfl
  have h2 := beginEndLayout_of_parts _ _ _ _ _ hv2
    (mouse_idle_click _ (exampleFrame ⟨1023, 100⟩ true true) exampleRootLaidOut []
      exampleRootLaidOut rfl rfl exampleRootLaidOut_hover_splitter rfl rfl)
  refine ⟨{ exampleLayout with
            m_splitterHeld := true
            m_splitterBottonDownDelta := bottonDownDelta exampleRootLaidOut ⟨1023, 100⟩
            m_pHeldSplitterDomain := some [] }, ?_, rfl⟩
  rw [runFrames_cons _ _ _ _ _ h1]
  exact (runFrames_cons exampleLayout _ _ [] _ h2).trans rfl

end CustomLayout

open CustomLayoutNode CustomLayout

/-- C29: held-node validity.  The constructor gives a layout that is idle, holds no node, has
the delta 0 and the recorded size (0, 0).  From it, over a well-formed tree, every sequence
of frames with any viewport, mouse position and button input returns a layout with a tree;
whenever that layout has the splitter held, `m_pHeldSplitterDomain` is set and points to a
node of the tree that is a well-formed logical domain (split node), so the next frame
returns too, without a dereference of a missing node; and a frame that starts with the
splitter held leaves `m_pHeldSplitterDomain` and `m_splitterBottonDownDelta` as they are. -/
theorem held_node_validity (root : CustomLayoutNode) (frames : List ImGuiFrame)
    (hwf : root.WellFormed = true) :
    ((CustomLayout.new root).m_splitterHeld = false ∧
      (CustomLayout.new root).m_pHeldSplitterDomain = none ∧
      (CustomLayout.new root).m_splitterBottonDownDelta = 0 ∧
      (CustomLayout.new root).m_lastViewport = ⟨0, 0⟩) ∧
    ∃ layout tree, (CustomLayout.new root).runFrames frames = some layout ∧
      layout.m_pRoot = some tree ∧
      (layout.m_splitterHeld = true →
        ∃ pHeld held, layout.m_pHeldSplitterDomain = some pHeld ∧
          tree.nodeAt pHeld = some held ∧ held.IsLogicalDomain = true ∧
          held.WellFormed = true) ∧
      (∀ io : ImGuiFrame, ∃ layout' calls, layout.BeginEndLayout io = some (layout', calls) ∧
        (layout.m_splitterHeld = true →
          layout'.m_pHeldSplitterDomain = layout.m_pHeldSplitterDomain ∧
          layout'.m_splitterBottonDownDelta = layout.m_splitterBottonDownDelta)) := by
  refine ⟨⟨rfl, rfl, rfl, rfl⟩, ?_⟩
  have hhv : (CustomLayout.new root).HeldValid = true := heldValid_new root hwf
  obtain ⟨layout, tree, hrun, htree, hvalid, hheld, -⟩ :=
    runFrames_invariant frames (CustomLayout.new root) root (heldValid_valid _ hhv) rfl
  refine ⟨layout, tree, hrun, htree, fun hh => ?_, fun io => ?_⟩
  · obtain ⟨tree0, htree0, -, hnode⟩ := (heldValid_iff layout).1 (hheld hhv)
    rw [htree] at htree0
    cases htree0
    obtain ⟨pHeld, held, hp, hn, hw, hl⟩ := hnode hh
    exact ⟨pHeld, held, hp, hn, hl, hw⟩
  · obtain ⟨layout', calls, -, hbe, -, -, -, -, hkeep⟩ := frame_step layout io tree hvalid htree
    exact ⟨layout', calls, hbe, hkeep⟩

/-- Witness of C29: the example root is well-formed; after a first frame and a press on the
splitter the layout has the splitter held, and it holds the root, a logical domain of the
tree. -/
theorem held_node_validity_witness :
    exampleRoot.WellFormed = true ∧
    ∃ layout tree, (CustomLayout.new exampleRoot).runFrames
        [exampleFrame ⟨100, 100⟩ false false, exampleFrame ⟨1023, 100⟩ true true] =
          some layout ∧
      layout.m_splitterHeld = true ∧
      layout.m_pRoot = some tree ∧
      (layout.m_splitterHeld = true →
        ∃ pHeld held, layout.m_pHeldSplitterDomain = some pHeld ∧
          tree.nodeAt pHeld = some held ∧ held.IsLogicalDomain = true ∧
          held.WellFormed = true) ∧
      (∀ io : ImGuiFrame, ∃ layout' calls, layout.BeginEndLayout io = some (layout', calls) ∧
        (layout.m_splitterHeld = true →
          layout'.m_pHeldSplitterDomain = layout.m_pHeldSplitterDomain ∧
          layout'.m_splitterBottonDownDelta = layout.m_splitterBottonDownDelta)) := by
  obtain ⟨layout, tree, hrun, htree, h1, h2⟩ := (held_node_validity exampleRoot
    [exampleFrame ⟨100, 100⟩ false false, exampleFrame ⟨1023, 100⟩ true true] rfl).2
  obtain ⟨held, hrun2, hheld⟩ := exampleFrames_reach_dragging
  rw [hrun] at hrun2
  cases hrun2
  exact ⟨rfl, layout, tree, hrun, hheld, htree, h1, h2⟩

end DearImGuiExt
